import Mathlib

/-! ## vidcamp: filter-graph compiler and export orchestrator

A shallow embedding of `src/lib/ffmpeg-service.js` (class `FFmpegService`),
`src/hooks/useVideoExport.js` (hook `useVideoExport`) and `src/pages/api/export.js`
(`buildFFmpegCommand`), with the properties the specification states about them.

Conventions of the embedding.
* A JavaScript string is a `String`; the global regular-expression replacements of
  the source only look for single ASCII characters, so they act on the character list.
* A JavaScript number that holds a pixel or time value is a rational (`ℚ`);
  array indices and byte counts are naturals. Where the source passes an arithmetic
  result to `Math.round`, every operation is rounded to binary64 (`toDouble`, `fsub`,
  `fdiv`, `fmul`); a result that is only interpolated into a string is handed to the
  printer `num`, which stands for the printing of its nearest Number.
* An `async` function that may throw returns `Except String _`, the string being the
  `message` of the thrown `Error`.
* Calls on external collaborators (network fetches, the WebAssembly engine, the remote
  endpoint) are answered by a script passed as an explicit argument.
-/

namespace Vidcamp

/-! ## Text escaping (`buildFilterComplex`, `escapedText`) -/

/-- `s.replace(/c/g, r)` for a one-character pattern `c` and a replacement `r` without
`$`: scan left to right, emit `r` at every match and copy every other character. -/
def replaceChars (c : Char) (r : List Char) : List Char → List Char
  | [] => []
  | x :: xs => if x = c then r ++ replaceChars c r xs else x :: replaceChars c r xs

/-- The method `String.prototype.replace` with a global one-character pattern. -/
def replaceAll (c : Char) (r : String) (s : String) : String :=
  ⟨replaceChars c r.data s.data⟩

/-- The replacement `'\\\\'` of the source: two backslashes. -/
def backslashReplacement : String := "\\\\"

/-- The replacement `"'\\\\\\''"` of the source: quote, three backslashes, two quotes. -/
def quoteReplacement : String := "'\\\\\\''"

/-- The replacement `'\\:'` of the source: backslash, colon. -/
def colonReplacement : String := "\\:"

/-- The value `escapedText` of `buildFilterComplex`:
`description.replace(/\\/g, '\\\\').replace(/'/g, "'\\\\\\''").replace(/:/g, '\\:')`. -/
def escapeText (description : String) : String :=
  replaceAll ':' colonReplacement
    (replaceAll '\'' quoteReplacement
      (replaceAll '\\' backslashReplacement description))

/-- The single-pass substitution the specification describes: what one character of the
description becomes. -/
def substChar (c : Char) : List Char :=
  if c = '\\' then ['\\', '\\']
  else if c = '\'' then ['\'', '\\', '\\', '\\', '\'', '\'']
  else if c = ':' then ['\\', ':']
  else [c]

/-- The single-pass substitution concatenated over a character list. -/
def substChars : List Char → List Char
  | [] => []
  | c :: cs => substChar c ++ substChars cs

/-- The single-pass form of the escaping: every character replaced on its own. -/
def escapeSinglePass (description : String) : String :=
  ⟨substChars description.data⟩

/-- The inverse rule on characters: a quote opens the six-character group that stands for
a quote, a backslash opens a two-character group, any other character stands for itself. -/
def unescapeChars : List Char → List Char
  | [] => []
  | '\'' :: _ :: _ :: _ :: _ :: _ :: rest => '\'' :: unescapeChars rest
  | '\\' :: c :: rest => c :: unescapeChars rest
  | c :: rest => c :: unescapeChars rest

/-- The inverse unescaping rule on strings. -/
def unescapeText (s : String) : String :=
  ⟨unescapeChars s.data⟩

/-- Length of the run of backslashes that ends a character list. -/
def trailingBackslashes (l : List Char) : Nat :=
  (l.reverse.takeWhile (fun c => c = '\\')).length

/-- The three characters the escaping rewrites. -/
def isMeta (c : Char) : Bool :=
  c = '\\' || c = '\'' || c = ':'

/-- Parity of the backslash run reached after reading `l`, starting from parity `p`:
a backslash flips it, any other character resets it. -/
def runParity (p : Bool) (l : List Char) : Bool :=
  l.foldl (fun q c => if c = '\\' then !q else false) p

/-- Every colon of `l` is met with odd backslash parity, starting from parity `p`. -/
def colonsOk (p : Bool) : List Char → Bool
  | [] => true
  | c :: t =>
    if c = ':' then p && colonsOk false t
    else colonsOk (if c = '\\' then !p else false) t

/-- The field `'${escapedText}'` that the drawtext node of `buildFilterComplex` carries
after `text=`. -/
def textField (description : String) : String :=
  "'" ++ escapeText description ++ "'"

/-- States of the quoting rule of the filter grammar: outside quotes, inside single
quotes, and outside quotes right after a backslash. -/
inductive QuoteState where
  | unquoted
  | quoted
  | escaped
  deriving DecidableEq, Repr

/-- The separators that end a token when met unprotected outside quotes. -/
def isSeparator (c : Char) : Bool :=
  c = ':' || c = ',' || c = ';' || c = '['

/-- One step of the quoting rule the specification states for the filter grammar: inside
single quotes every character is literal until the next single quote; outside quotes a
backslash protects the next character; an unprotected separator outside quotes stops
the scan (`none`). -/
def quoteStep (q : QuoteState) (c : Char) : Option QuoteState :=
  match q with
  | .quoted => if c = '\'' then some .unquoted else some .quoted
  | .escaped => some .unquoted
  | .unquoted =>
    if c = '\'' then some .quoted
    else if c = '\\' then some .escaped
    else if isSeparator c then none
    else some .unquoted

/-- Scan a character list with the quoting rule; `none` when an unprotected separator
is met outside quotes, else the state after the last character. -/
def quoteScan (q : QuoteState) : List Char → Option QuoteState
  | [] => some q
  | c :: cs =>
    match quoteStep q c with
    | none => none
    | some q' => quoteScan q' cs

/-! ## Timeline data and the filter-graph compiler (`buildFilterComplex`) -/

/-- The function `Math.round` on a rational: the nearest integer, halves rounded up. -/
def mathRound (x : ℚ) : ℤ := ⌊x + 1 / 2⌋

/-- The integer nearest to `m`, a half going to the even neighbour. -/
def roundHalfEven (m : ℚ) : ℤ :=
  if m - ⌊m⌋ < 1 / 2 then ⌊m⌋
  else if 1 / 2 < m - ⌊m⌋ then ⌊m⌋ + 1
  else if ⌊m⌋ % 2 = 0 then ⌊m⌋ else ⌊m⌋ + 1

/-- The exponent of the spacing of the binary64 numbers around `q`: 52 below the binary
exponent of `q`, and `-1074` in the subnormal range. -/
def ulpExponent (q : ℚ) : ℤ := max (Int.log 2 |q|) (-1022) - 52

/-- The Number a JavaScript program holds for the real `q`: the binary64 value nearest to
`q`, ties to even (IEEE 754 round-to-nearest-even, for magnitudes below `2 ^ 1024`). -/
def toDouble (q : ℚ) : ℚ := roundHalfEven (q / 2 ^ ulpExponent q) * 2 ^ ulpExponent q

/-- The expression `a - b` on Numbers: the difference, rounded to binary64. -/
def fsub (a b : ℚ) : ℚ := toDouble (toDouble a - toDouble b)

/-- The expression `a / b` on Numbers: the quotient, rounded to binary64. -/
def fdiv (a b : ℚ) : ℚ := toDouble (toDouble a / toDouble b)

/-- The expression `a * b` on Numbers: the product, rounded to binary64. -/
def fmul (a b : ℚ) : ℚ := toDouble (toDouble a * toDouble b)

/-- The expression `a || d` for a numeric field that may be absent: `undefined` and `0`
are falsy. -/
def orNumber (a : Option ℚ) (d : ℚ) : ℚ :=
  match a with
  | some v => if v = 0 then d else v
  | none => d

/-- The expression `a || d` for a string field that may be absent: `undefined` and the
empty string are falsy. -/
def orString (a : Option String) (d : String) : String :=
  match a with
  | some v => if v = "" then d else v
  | none => d

/-- `s.replace(c, r)` with a one-character string pattern: only the first match. -/
def replaceFirstChars (c : Char) (r : List Char) : List Char → List Char
  | [] => []
  | x :: xs => if x = c then r ++ xs else x :: replaceFirstChars c r xs

/-- The method `String.prototype.replace` with a one-character string pattern. -/
def replaceFirst (c : Char) (r : String) (s : String) : String :=
  ⟨replaceFirstChars c r.data s.data⟩

/-- A clip of the timeline (entry of `videos`). -/
structure Video where
  src : String := ""
  x : ℚ := 0
  y : ℚ := 0
  width : ℚ := 0
  height : ℚ := 0
  startTime : ℚ := 0
  endTime : ℚ := 0

/-- An image overlay (entry of `images`). -/
structure Image where
  src : String := ""
  x : ℚ := 0
  y : ℚ := 0
  width : ℚ := 0
  height : ℚ := 0
  startTime : ℚ := 0
  endTime : ℚ := 0

/-- A text overlay (entry of `texts`); `fontSize`, `color`, `width` and `height` may be
absent. -/
structure Text where
  description : String := ""
  fontSize : Option ℚ := none
  color : Option String := none
  x : ℚ := 0
  y : ℚ := 0
  width : Option ℚ := none
  height : Option ℚ := none
  startTime : ℚ := 0
  endTime : ℚ := 0

/-- The operation of a graph node, with the arguments the template strings of
`buildFilterComplex` interpolate. -/
inductive Operation where
  | scale (width height : ℚ) (setsar : Bool)
  | overlay (x y startTime endTime : ℚ)
  | drawtext (escapedText : String) (fontsize : ℚ) (fontcolor : String) (x y : ℤ)
      (startTime endTime : ℚ)
  | copy

/-- One entry of `filters`: the bracketed labels it consumes, its operation, and the
bracketed label it produces. -/
structure Node where
  inputs : List String
  operation : Operation
  output : String

/-- The text of an operation as the template strings write it; `num` prints a number. -/
def Operation.render (num : ℚ → String) : Operation → String
  | .scale w h setsar =>
    "scale=" ++ num w ++ ":" ++ num h ++ (if setsar then ",setsar=1" else "")
  | .overlay x y s e =>
    "overlay=" ++ num x ++ ":" ++ num y ++ ":enable='between(t," ++ num s ++ "," ++ num e
      ++ ")'"
  | .drawtext escapedText fontsize fontcolor x y s e =>
    "drawtext=text='" ++ escapedText ++ "':fontsize=" ++ num fontsize ++ ":fontcolor=0x"
      ++ fontcolor ++ ":x=" ++ toString x ++ ":y=" ++ toString y
      ++ ":enable='between(t," ++ num s ++ "," ++ num e ++ ")'"
  | .copy => "copy"

/-- The text of one entry of `filters`. -/
def Node.render (num : ℚ → String) (n : Node) : String :=
  String.join (n.inputs.map fun l => "[" ++ l ++ "]") ++ n.operation.render num
    ++ "[" ++ n.output ++ "]"

/-- The local variables of `buildFilterComplex` that the loops update. -/
structure BuildState where
  filters : List Node
  currentStream : String
  videoInputIndex : Nat

/-- Body of the loop over the additional videos, at index `i` with `video = videos[i]`. -/
def addVideo (st : BuildState) (iv : Nat × Video) : BuildState :=
  let i := iv.1
  let video := iv.2
  let nextStream := "v" ++ toString i
  { filters := st.filters ++
      [ { inputs := [toString st.videoInputIndex ++ ":v"]
          operation := .scale video.width video.height false
          output := "scaled_v" ++ toString i },
        { inputs := [st.currentStream, "scaled_v" ++ toString i]
          operation := .overlay (video.x - video.width / 2) (video.y - video.height / 2)
            video.startTime video.endTime
          output := nextStream } ]
    currentStream := nextStream
    videoInputIndex := st.videoInputIndex + 1 }

/-- Body of the loop over the image overlays, at index `i` with `img = images[i]`. -/
def addImage (st : BuildState) (ii : Nat × Image) : BuildState :=
  let i := ii.1
  let img := ii.2
  let nextStream := "img" ++ toString i
  let inputIdx := st.videoInputIndex + i
  { filters := st.filters ++
      [ { inputs := [toString inputIdx ++ ":v"]
          operation := .scale img.width img.height false
          output := "scaled_img" ++ toString i },
        { inputs := [st.currentStream, "scaled_img" ++ toString i]
          operation := .overlay (img.x - img.width / 2) (img.y - img.height / 2)
            img.startTime img.endTime
          output := nextStream } ]
    currentStream := nextStream
    videoInputIndex := st.videoInputIndex }

/-- The label `nextStream` of the text loop at index `i`, for `videos.length = n`,
`images.length = m` and `texts.length = k`. -/
def textLabel (n m k i : Nat) : String :=
  if i = k - 1 ∧ m = 0 ∧ n = 1 then "outv" else "txt" ++ toString i

/-- Body of the loop over the text overlays, at index `i` with `text = texts[i]`. -/
def addText (n m k : Nat) (st : BuildState) (it : Nat × Text) : BuildState :=
  let i := it.1
  let text := it.2
  let nextStream := textLabel n m k i
  let escapedText := escapeText text.description
  let fontsize := orNumber text.fontSize 24
  let fontcolor := replaceFirst '#' "" (orString text.color "#FFFFFF")
  let x := mathRound (fsub text.x (fdiv (orNumber text.width 100) 2))
  let y := mathRound (fsub text.y (fdiv (orNumber text.height 50) 2))
  { filters := st.filters ++
      [ { inputs := [st.currentStream]
          operation := .drawtext escapedText fontsize fontcolor x y text.startTime
            text.endTime
          output := nextStream } ]
    currentStream := nextStream
    videoInputIndex := st.videoInputIndex }

/-- The array `filters` of `FFmpegService.buildFilterComplex` just before it is joined. -/
def buildFilterComplex (videos : List Video) (images : List Image) (texts : List Text)
    (canvasWidth canvasHeight : ℚ) : List Node :=
  let st0 : BuildState :=
    { filters := [ { inputs := ["0:v"]
                     operation := .scale canvasWidth canvasHeight true
                     output := "base" } ]
      currentStream := "base"
      videoInputIndex := 1 }
  let st1 := (videos.enum.drop 1).foldl addVideo st0
  let st2 := images.enum.foldl addImage st1
  let st3 := texts.enum.foldl (addText videos.length images.length texts.length) st2
  if st3.currentStream ≠ "outv" then
    st3.filters ++ [ { inputs := [st3.currentStream], operation := .copy, output := "outv" } ]
  else
    st3.filters

/-- The string `filters.join(';')` that `buildFilterComplex` returns. -/
def filterComplexString (num : ℚ → String) (videos : List Video) (images : List Image)
    (texts : List Text) (canvasWidth canvasHeight : ℚ) : String :=
  ";".intercalate ((buildFilterComplex videos images texts canvasWidth canvasHeight).map
    (Node.render num))

/-- The output labels of a node list, in order. -/
def outputLabels (nodes : List Node) : List String :=
  nodes.map Node.output

/-! ## The engine service (`FFmpegService.load`, `processVideo`, `cleanup`) -/

/-- The fields of the `FFmpegService` singleton, with the state of the engine they refer
to: `hasEngine` is `this.ffmpeg !== null`, `forwards` tells whether the progress handler
registered on the engine holds a callback, `files` is the engine workspace (the names of
the files under `/`). -/
structure Service where
  hasEngine : Bool := false
  isLoaded : Bool := false
  isLoading : Bool := false
  forwards : Bool := false
  files : List String := []

/-- What the engine and the payload fetches answer during one call of `processVideo`.
* `afterWait`: the service state another caller's load leaves, observed when the wait
  loop of `load` ends.
* `loadError`: the message with which loading the engine core rejects, if it does.
* `fetchError src`: the message with which `fetchFile(src)` or the following `writeFile`
  rejects, if it does.
* `execProgress`: the `progress` values of the engine's progress events during `exec`.
* `execFiles`: the files `exec` leaves in the workspace.
* `execError`, `readError`: the messages with which `exec` and `readFile` reject. -/
structure EngineScript where
  afterWait : Service := {}
  loadError : Option String := none
  fetchError : String → Option String := fun _ => none
  execProgress : List ℚ := []
  execFiles : List String := ["output.mp4"]
  execError : Option String := none
  readError : Option String := none

/-- `FFmpegService.load(onProgress)`; `hasCallback` tells whether `onProgress` is given.
Returns the new service state and whether the call returned or threw. -/
def load (script : EngineScript) (hasCallback : Bool) (svc : Service) :
    Service × Except String Unit :=
  if svc.isLoaded then (svc, .ok ())
  else if svc.isLoading then
    ({ script.afterWait with isLoading := false }, .ok ())
  else
    match script.loadError with
    | none =>
      ({ hasEngine := true, isLoaded := true, isLoading := false, forwards := hasCallback,
         files := [] }, .ok ())
    | some message =>
      ({ hasEngine := true, isLoaded := false, isLoading := false, forwards := hasCallback,
         files := [] }, .error ("Failed to load FFmpeg: " ++ message))

/-- The engine call `writeFile(name, data)`: the workspace, a set of file names under
`/`, gains the name. -/
def writeFile (files : List String) (name : String) : List String :=
  if name ∈ files then files else files ++ [name]

/-- The engine call `listDir('/')` when it resolves: the entries `.` and `..` and the
files. -/
def listDir (files : List String) : List String :=
  "." :: ".." :: files

/-- The engine call `deleteFile(name)` when it resolves: the workspace loses the name. -/
def deleteFile (files : List String) (name : String) : List String :=
  files.filter (fun f => f ≠ name)

/-- What `listDir` and `deleteFile` answer during one call of `cleanup`: the message
with which `listDir('/')` rejects, and the message with which `deleteFile(name)`
rejects, if they do. -/
structure CleanupScript where
  listError : Option String := none
  deleteError : String → Option String := fun _ => none

/-- The engine call `listDir('/')`, which may reject. -/
def listDirScripted (cs : CleanupScript) (files : List String) : Except String (List String) :=
  match cs.listError with
  | some message => .error message
  | none => .ok (listDir files)

/-- The engine call `deleteFile(name)`, which may reject. -/
def deleteFileScripted (cs : CleanupScript) (files : List String) (name : String) :
    Except String (List String) :=
  match cs.deleteError name with
  | some message => .error message
  | none => .ok (deleteFile files name)

/-- The `for` loop of `cleanup`: every entry with a name other than `.` and `..` is
deleted inside its own `try`, whose `catch` ignores the error. -/
def cleanupLoop (cs : CleanupScript) : List String → List String → Except String (List String)
  | [], files => .ok files
  | name :: rest, files =>
    if name ≠ "" ∧ name ≠ "." ∧ name ≠ ".." then
      match deleteFileScripted cs files name with
      | .ok files' => cleanupLoop cs rest files'
      | .error _ => cleanupLoop cs rest files
    else cleanupLoop cs rest files

/-- `FFmpegService.cleanup()` on an engine whose calls may reject: the outer `try`
holds `listDir` and the loop, its `catch` only logs a warning. Returns the service
state and whether the call returned or threw. -/
def cleanupScripted (cs : CleanupScript) (svc : Service) : Service × Except String Unit :=
  if !svc.hasEngine then (svc, .ok ())
  else
    match (listDirScripted cs svc.files).bind (fun entries => cleanupLoop cs entries svc.files)
      with
    | .ok files => ({ svc with files := files }, .ok ())
    | .error _ => (svc, .ok ())

/-- `FFmpegService.cleanup()` on an engine whose `listDir` and `deleteFile` calls all
resolve: the run of `cleanupScripted` in which no call rejects. -/
def cleanup (svc : Service) : Service :=
  (cleanupScripted {} svc).1

/-- The workspace name `input${i}.mp4`. -/
def inputName (i : Nat) : String := "input" ++ toString i ++ ".mp4"

/-- The workspace name `image${i}.png`. -/
def imageName (i : Nat) : String := "image" ++ toString i ++ ".png"

/-- One of the two write loops of `processVideo`: for every `(name, src)` in order,
`writeFile(name, await fetchFile(src))`, stopping at the first rejection. -/
def writeFiles (script : EngineScript) :
    List (String × String) → List String → List String × Except String Unit
  | [], files => (files, .ok ())
  | (name, src) :: rest, files =>
    match script.fetchError src with
    | some message => (files, .error message)
    | none => writeFiles script rest (writeFile files name)

/-- The call `onProgress?.({ progress: v, ... })`: the value reaches the callback when
there is one. -/
def emit (onProgress : Bool) (v : ℤ) : List ℤ :=
  if onProgress then [v] else []

/-- The values the progress handler registered in `load` forwards during `exec`:
`Math.round(progress * 100)` for every progress event, the product taken in binary64,
when the handler holds a callback. -/
def forwarded (script : EngineScript) (svc : Service) : List ℤ :=
  if svc.forwards then script.execProgress.map (fun p => mathRound (fmul p 100)) else []

/-- The `try` block of `processVideo`: the workspace it leaves, the progress values
passed to the callback, and whether it completed or threw. -/
def processBody (script : EngineScript) (onProgress : Bool) (svc : Service)
    (videos : List Video) (images : List Image) (texts : List Text)
    (canvasWidth canvasHeight : ℚ) : List String × List ℤ × Except String Unit :=
  let p1 := emit onProgress 10
  match writeFiles script (videos.enum.map fun iv => (inputName iv.1, iv.2.src))
      svc.files with
  | (files1, .error message) => (files1, p1, .error message)
  | (files1, .ok _) =>
    let p2 := p1 ++ emit onProgress 25
    match writeFiles script (images.enum.map fun ii => (imageName ii.1, ii.2.src))
        files1 with
    | (files2, .error message) => (files2, p2, .error message)
    | (files2, .ok _) =>
      let p3 := p2 ++ emit onProgress 40
      let _filterComplex := buildFilterComplex videos images texts canvasWidth canvasHeight
      let p4 := p3 ++ emit onProgress 50
      let p5 := p4 ++ forwarded script svc
      let files3 := script.execFiles.foldl writeFile files2
      match script.execError with
      | some message => (files3, p5, .error message)
      | none =>
        let p6 := p5 ++ emit onProgress 90
        match script.readError with
        | some message => (files3, p6, .error message)
        | none => (files3, p6 ++ emit onProgress 100, .ok ())

/-- The result of `processVideo`: the service state it leaves, the progress values that
reached the callback, and the returned blob (`ok`) or the thrown message. -/
structure ProcessOutcome where
  svc : Service
  progress : List ℤ
  result : Except String Unit

/-- `FFmpegService.processVideo(job, onProgress)` on an engine whose cleanup calls all
resolve: load the engine when it is not loaded (outside the `try`), run the `try` block,
and run `cleanup` both after it completed and in the `catch`. The runs in which `listDir`
or `deleteFile` rejects are those of `processVideoScripted`. -/
def processVideo (script : EngineScript) (onProgress : Bool) (svc : Service)
    (videos : List Video) (images : List Image) (texts : List Text)
    (canvasWidth canvasHeight : ℚ) : ProcessOutcome :=
  let loaded := if !svc.isLoaded then load script onProgress svc else (svc, .ok ())
  match loaded with
  | (svc1, .error message) => { svc := svc1, progress := [], result := .error message }
  | (svc1, .ok _) =>
    match processBody script onProgress svc1 videos images texts canvasWidth canvasHeight with
    | (files, progress, .ok _) =>
      { svc := cleanup { svc1 with files := files }, progress := progress, result := .ok () }
    | (files, progress, .error message) =>
      { svc := cleanup { svc1 with files := files }, progress := progress,
        result := .error ("Video processing failed: " ++ message) }

/-- `FFmpegService.calculateTotalSize(videos, images)`: the sum of the blob sizes of all
clips, then of all images; `blobSize src` is the size of the fetched payload or the
message of the rejection. Byte counts are naturals: the sums stay below `2 ^ 53`, where
JavaScript numbers add exactly. -/
def calculateTotalSize (blobSize : String → Except String Nat) (videos : List Video)
    (images : List Image) : Except String Nat := do
  let afterVideos ← videos.foldlM (fun total video => do
    let size ← blobSize video.src
    pure (total + size)) 0
  images.foldlM (fun total image => do
    let size ← blobSize image.src
    pure (total + size)) afterVideos

/-- The constant `MAX_CLIENT_SIZE`. -/
def MAX_CLIENT_SIZE : Nat := 20 * 1024 * 1024

/-! ## The export hook (`useVideoExport`)

Calls to `setExportMessage` carry display text only and are left out of the effect
trace; the reset that `exportVideo` schedules with `setTimeout` runs two seconds after
the call has settled and is not part of the trace either. -/

/-- The export mode, `'client'` or `'cloud'`. -/
inductive Mode where
  | client
  | cloud
  deriving DecidableEq, Repr

/-- The calls on the hook state that one export makes, in order. -/
inductive Effect where
  | setIsExporting (value : Bool)
  | setExportProgress (value : ℤ)
  | setExportMode (mode : Mode)
  deriving DecidableEq

/-- The values passed to `setExportProgress`, in order. -/
def progressValues (effects : List Effect) : List ℤ :=
  effects.filterMap fun e =>
    match e with
    | .setExportProgress v => some v
    | _ => none

/-- The object `checkFileSize` returns; `sizeMB` is the number before `toFixed(2)`. -/
structure SizeInfo where
  totalSize : Nat
  canProcessLocally : Bool
  sizeMB : ℚ
  deriving DecidableEq

/-- `checkFileSize(videos, images)`, given the outcome of `calculateTotalSize`: the
`catch` branch answers size `0` and `canProcessLocally: false`. -/
def checkFileSize (measured : Except String Nat) : SizeInfo :=
  match measured with
  | .ok totalSize =>
    { totalSize := totalSize
      canProcessLocally := decide (totalSize ≤ MAX_CLIENT_SIZE)
      sizeMB := (totalSize : ℚ) / (1024 * 1024) }
  | .error _ =>
    { totalSize := 0, canProcessLocally := false, sizeMB := 0 }

/-- The argument of `exportVideo`. -/
structure Job where
  videos : List Video := []
  images : List Image := []
  texts : List Text := []
  canvasWidth : ℚ := 0
  canvasHeight : ℚ := 0

/-- The object a successful export resolves with. -/
structure ExportResult where
  success : Bool
  mode : Mode
  deriving DecidableEq, Repr

/-- What the network answers during `exportCloudSide`.
* `fetchError src`: the message with which fetching the payload `src` rejects.
* `postError`: the message with which the request to the endpoint rejects.
* `responseOk`, `responseStatus`: `response.ok` and `response.status`.
* `responseMessage`: `errorData.message` of an error body, when it has one.
* `blobError`: the message with which reading the response body rejects. -/
structure CloudScript where
  fetchError : String → Option String := fun _ => none
  postError : Option String := none
  responseOk : Bool := true
  responseStatus : Nat := 200
  responseMessage : Option String := none
  blobError : Option String := none

/-- The outcome of one export: the service state, the calls on the hook state, and the
resolved value or the message of the thrown error. -/
structure Outcome where
  svc : Service
  effects : List Effect
  result : Except String ExportResult

/-- `exportClientSide(job)`. -/
def exportClientSide (script : EngineScript) (svc : Service) (job : Job) : Outcome :=
  let pre := [Effect.setExportMode .client, Effect.setExportProgress 5]
  let run := processVideo script true svc job.videos job.images job.texts job.canvasWidth
    job.canvasHeight
  match run.result with
  | .ok _ =>
    { svc := run.svc
      effects := pre ++ run.progress.map Effect.setExportProgress
        ++ [Effect.setExportProgress 100]
      result := .ok { success := true, mode := .client } }
  | .error message =>
    { svc := run.svc
      effects := pre ++ run.progress.map Effect.setExportProgress
      result := .error ("Client-side export failed: " ++ message) }

/-- The first rejection among the fetches of a list of payloads, in order. -/
def firstFetchError (fetchError : String → Option String) (srcs : List String) :
    Option String :=
  srcs.findSome? fetchError

/-- The `try` block of `exportCloudSide`: the calls on the hook state and whether it
completed or threw. -/
def cloudBody (script : CloudScript) (job : Job) : List Effect × Except String Unit :=
  match firstFetchError script.fetchError (job.videos.map Video.src) with
  | some message => ([], .error message)
  | none =>
    let e1 := [Effect.setExportProgress 30]
    match firstFetchError script.fetchError (job.images.map Image.src) with
    | some message => (e1, .error message)
    | none =>
      let e2 := e1 ++ [Effect.setExportProgress 50]
      match script.postError with
      | some message => (e2, .error message)
      | none =>
        if !script.responseOk then
          (e2, .error (orString script.responseMessage
            ("Cloud export failed with status " ++ toString script.responseStatus)))
        else
          let e3 := e2 ++ [Effect.setExportProgress 90]
          match script.blobError with
          | some message => (e3, .error message)
          | none => (e3 ++ [Effect.setExportProgress 100], .ok ())

/-- `exportCloudSide(job)`. -/
def exportCloudSide (script : CloudScript) (svc : Service) (job : Job) : Outcome :=
  let pre := [Effect.setExportMode .cloud, Effect.setExportProgress 10]
  match cloudBody script job with
  | (effects, .ok _) =>
    { svc := svc, effects := pre ++ effects, result := .ok { success := true, mode := .cloud } }
  | (effects, .error message) =>
    { svc := svc, effects := pre ++ effects,
      result := .error ("Cloud export failed: " ++ message) }

/-- The collaborators of one export: the size fetches of `calculateTotalSize`, the
engine, and the network of the cloud path. -/
structure Env where
  blobSize : String → Except String Nat := fun _ => .ok 0
  engine : EngineScript := {}
  cloud : CloudScript := {}

/-- `exportVideo(job)`: check the size, then run the client path or the cloud path; an
error of either path is thrown on unchanged. -/
def exportVideo (env : Env) (svc : Service) (job : Job) : Outcome :=
  let pre := [Effect.setIsExporting true, Effect.setExportProgress 0]
  let sizeInfo := checkFileSize (calculateTotalSize env.blobSize job.videos job.images)
  let run :=
    if sizeInfo.canProcessLocally then exportClientSide env.engine svc job
    else exportCloudSide env.cloud svc job
  { run with effects := pre ++ run.effects }

/-- The values the progress handler forwards during an export that starts in state
`svc`: those of the service state after the load step of `processVideo`. -/
def forwardedDuring (script : EngineScript) (svc : Service) : List ℤ :=
  forwarded script (if svc.isLoaded then svc else (load script true svc).1)

/-- A job with one clip on a 640 by 360 canvas. -/
def sampleJob : Job :=
  { videos := [{ src := "blob:clip" }], canvasWidth := 640, canvasHeight := 360 }

/-- An environment in which every payload measures 1000 bytes and the engine reports
progress `1/4` once during `exec`. -/
def quarterEnv : Env :=
  { blobSize := fun _ => .ok 1000, engine := { execProgress := [1 / 4] } }

/-- An environment in which no payload can be measured. -/
def unreachableEnv : Env :=
  { blobSize := fun _ => .error "Failed to fetch" }

/-! ## The node list of `buildFilterComplex` in closed form

The loop variables `currentStream` and `videoInputIndex` written as functions of the
loop index, and with them the nodes that each iteration pushes. -/

/-- The first entry of `filters`: the base clip scaled to the canvas. -/
def baseNode (canvasWidth canvasHeight : ℚ) : Node :=
  { inputs := ["0:v"], operation := .scale canvasWidth canvasHeight true, output := "base" }

/-- The value of `currentStream` when the video loop reaches index `i` (and, for
`i = videos.length`, when it has ended). -/
def streamAfterVideos (i : Nat) : String :=
  if i ≤ 1 then "base" else "v" ++ toString (i - 1)

/-- The two nodes the video loop pushes at index `i`. -/
def videoPair (i : Nat) (video : Video) : List Node :=
  [ { inputs := [toString i ++ ":v"]
      operation := .scale video.width video.height false
      output := "scaled_v" ++ toString i },
    { inputs := [streamAfterVideos i, "scaled_v" ++ toString i]
      operation := .overlay (video.x - video.width / 2) (video.y - video.height / 2)
        video.startTime video.endTime
      output := "v" ++ toString i } ]

/-- The value of `currentStream` when the image loop reaches index `i`, after `n`
videos. -/
def streamAfterImages (n i : Nat) : String :=
  if i = 0 then streamAfterVideos n else "img" ++ toString (i - 1)

/-- The two nodes the image loop pushes at index `i`, after `n` videos. -/
def imagePair (n i : Nat) (img : Image) : List Node :=
  [ { inputs := [toString (1 + (n - 1) + i) ++ ":v"]
      operation := .scale img.width img.height false
      output := "scaled_img" ++ toString i },
    { inputs := [streamAfterImages n i, "scaled_img" ++ toString i]
      operation := .overlay (img.x - img.width / 2) (img.y - img.height / 2)
        img.startTime img.endTime
      output := "img" ++ toString i } ]

/-- The value of `currentStream` when the text loop reaches index `i`, after `n` videos
and `m` images, with `k` texts in all. -/
def streamAfterTexts (n m k i : Nat) : String :=
  if i = 0 then streamAfterImages n m else textLabel n m k (i - 1)

/-- The node the text loop pushes at index `i`. -/
def textNode (n m k i : Nat) (text : Text) : Node :=
  { inputs := [streamAfterTexts n m k i]
    operation := .drawtext (escapeText text.description) (orNumber text.fontSize 24)
      (replaceFirst '#' "" (orString text.color "#FFFFFF"))
      (mathRound (fsub text.x (fdiv (orNumber text.width 100) 2)))
      (mathRound (fsub text.y (fdiv (orNumber text.height 50) 2))) text.startTime text.endTime
    output := textLabel n m k i }

/-- The copy node pushed after the loops, when `currentStream` is not `outv`. -/
def closingNodes (n m k : Nat) : List Node :=
  if streamAfterTexts n m k k ≠ "outv" then
    [ { inputs := [streamAfterTexts n m k k], operation := .copy, output := "outv" } ]
  else []

/-! ## The enable gate -/

/-- The function `between(x, min, max)` of the expression language of the engine, as the
FFmpeg documentation defines it: 1 when `x` is greater than or equal to `min` and less
than or equal to `max`, 0 otherwise. -/
def between (x min max : ℚ) : Bool :=
  decide (min ≤ x ∧ x ≤ max)

/-- The arguments `startTime, endTime` of the gate `enable='between(t,…,…)'` that an
operation carries, if it carries one. -/
def Operation.window : Operation → Option (ℚ × ℚ)
  | .overlay _ _ startTime endTime => some (startTime, endTime)
  | .drawtext _ _ _ _ _ startTime endTime => some (startTime, endTime)
  | _ => none

/-- Whether an operation is enabled at render time `t`: the value of its gate, and
always for an operation without gate. -/
def Operation.enabledAt (op : Operation) (t : ℚ) : Bool :=
  match op.window with
  | some (startTime, endTime) => between t startTime endTime
  | none => true

/-- The timeline of scenario B: an image overlay of size 50 by 50 centred at (100, 100)
and active from 2 to 5. -/
def scenarioImage : Image :=
  { x := 100, y := 100, width := 50, height := 50, startTime := 2, endTime := 5 }

/-- A text overlay centred at (200, 100) whose width and height are 0. -/
def zeroSizeText : Text :=
  { x := 200, y := 100, width := some 0, height := some 0 }

/-! ## The graph as a chain -/

/-- The labels the nodes of a list consume, in order. -/
def consumedLabels (nodes : List Node) : List String :=
  nodes.flatMap Node.inputs

/-- An input-stream reference `<j>:v`. -/
def isStreamRef (l : String) : Prop :=
  ∃ j : Nat, l = toString j ++ ":v"

/-- Every label that a node of the list consumes is an input-stream reference, is in
`seen`, or is the output label of a node earlier in the list. -/
def inputsResolved (seen : List String) : List Node → Prop
  | [] => True
  | nd :: rest =>
    (∀ l ∈ nd.inputs, isStreamRef l ∨ l ∈ seen) ∧ inputsResolved (seen ++ [nd.output]) rest

/-- The labels of the graph that a node consumes: none for a scale node, which reads an
input stream, and all its inputs for every other node. -/
def Node.labelInputs (nd : Node) : List String :=
  match nd.operation with
  | .scale _ _ _ => []
  | _ => nd.inputs

/-- The chain invariant of the loops: inputs are resolved, the labels consumed are, in
order, the output labels without the last one, and an input that is not a consumed
label is an input-stream reference. -/
def ChainInv (nodes : List Node) : Prop :=
  inputsResolved [] nodes ∧
  nodes.flatMap Node.labelInputs = (outputLabels nodes).dropLast ∧
  ∀ nd ∈ nodes, ∀ l ∈ nd.inputs, l ∈ nd.labelInputs ∨ isStreamRef l

/-! ## The remote worker (`pages/api/export.js`, `buildFFmpegCommand`) -/

/-- `parseInt` applied to the decimal string of a number: the integer part, rounded
towards zero. -/
def truncate (q : ℚ) : ℤ :=
  if 0 ≤ q then ⌊q⌋ else ⌈q⌉

/-- Body of the image loop of `buildFFmpegCommand`, at index `i` with `img = images[i]`;
`videoInputIndex` holds the variable `inputIndex`, which this loop increments. -/
def addServerImage (st : BuildState) (ii : Nat × Image) : BuildState :=
  let i := ii.1
  let img := ii.2
  let nextStream := "img" ++ toString i
  { filters := st.filters ++
      [ { inputs := [toString st.videoInputIndex ++ ":v"]
          operation := .scale img.width img.height false
          output := "scaled_img" ++ toString i },
        { inputs := [st.currentStream, "scaled_img" ++ toString i]
          operation := .overlay (img.x - img.width / 2) (img.y - img.height / 2)
            img.startTime img.endTime
          output := nextStream } ]
    currentStream := nextStream
    videoInputIndex := st.videoInputIndex + 1 }

/-- The label `nextStream` of the text loop of `buildFFmpegCommand` at index `i`, for
`texts.length = k`. -/
def serverTextLabel (k i : Nat) : String :=
  if i = k - 1 then "outv" else "txt" ++ toString i

/-- Body of the text loop of `buildFFmpegCommand`, at index `i` with `text = texts[i]`. -/
def addServerText (k : Nat) (st : BuildState) (it : Nat × Text) : BuildState :=
  let i := it.1
  let text := it.2
  let nextStream := serverTextLabel k i
  let escapedText := escapeText text.description
  let fontsize := orNumber text.fontSize 24
  let fontcolor := replaceFirst '#' "" (orString text.color "#FFFFFF")
  let x := mathRound (fsub text.x (fdiv (orNumber text.width 100) 2))
  let y := mathRound (fsub text.y (fdiv (orNumber text.height 50) 2))
  { filters := st.filters ++
      [ { inputs := [st.currentStream]
          operation := .drawtext escapedText fontsize fontcolor x y text.startTime
            text.endTime
          output := nextStream } ]
    currentStream := nextStream
    videoInputIndex := st.videoInputIndex }

/-- The array `filters` of `buildFFmpegCommand` just before it is joined; the canvas
fields of the form are the decimal strings of `canvasWidth` and `canvasHeight`, read
with `parseInt`. The loop over the additional videos has the body of the client
(`addVideo`, with `inputIndex` for `videoInputIndex`). No node is pushed after the text
loop. -/
def serverFilters (videos : List Video) (images : List Image) (texts : List Text)
    (canvasWidth canvasHeight : ℚ) : List Node :=
  let st0 : BuildState :=
    { filters := [ { inputs := ["0:v"]
                     operation := .scale (truncate canvasWidth) (truncate canvasHeight) true
                     output := "base" } ]
      currentStream := "base"
      videoInputIndex := 1 }
  let st1 := (videos.enum.drop 1).foldl addVideo st0
  let st2 := images.enum.foldl addServerImage st1
  let st3 := texts.enum.foldl (addServerText texts.length) st2
  st3.filters

/-- The argument list `buildFFmpegCommand` returns: `videoPaths` and `imagePaths` are
the `filepath` fields of the uploaded files, `num` prints a number. -/
def buildFFmpegCommand (num : ℚ → String) (videoPaths imagePaths : List String)
    (videos : List Video) (images : List Image) (texts : List Text)
    (canvasWidth canvasHeight : ℚ) (outputPath : String) : List String :=
  ["-y"]
    ++ videoPaths.flatMap (fun path => ["-i", path])
    ++ imagePaths.flatMap (fun path => ["-i", path])
    ++ [ "-filter_complex",
         ";".intercalate
           ((serverFilters videos images texts canvasWidth canvasHeight).map (Node.render num)),
         "-map", "[outv]", "-map", "0:a?", "-c:v", "libx264", "-preset", "medium",
         "-crf", "23", "-c:a", "aac", "-b:a", "128k", "-movflags", "+faststart",
         outputPath ]

/-! ## The metadata block of `exportCloudSide` -/

/-- A value a timeline entry may hold in a field: absent, `NaN`, a number, a string. -/
inductive JsValue where
  | undefined
  | nan
  | number (q : ℚ)
  | string (s : String)
  deriving DecidableEq

/-- A timeline entry as an object: the value of every property name. -/
abbrev JsObject := String → JsValue

/-- The object `{ ...o, key: v }`. -/
def JsObject.set (o : JsObject) (key : String) (v : JsValue) : JsObject :=
  fun k => if k = key then v else o k

/-- What `parseFloat` and `parseInt` answer on a string. -/
structure Parsers where
  floatOfString : String → JsValue
  intOfString : String → JsValue

/-- `parseFloat(v)`: a number is read back from its decimal string unchanged, a string is
parsed, `undefined` and `NaN` give `NaN`. -/
def parseFloatValue (ps : Parsers) : JsValue → JsValue
  | .number q => .number q
  | .string s => ps.floatOfString s
  | _ => .nan

/-- `parseInt(v)`: for a number the integer part of its decimal string, a string is
parsed, `undefined` and `NaN` give `NaN`. -/
def parseIntValue (ps : Parsers) : JsValue → JsValue
  | .number q => .number (truncate q)
  | .string s => ps.intOfString s
  | _ => .nan

/-- One entry of `normalizedVideos`. -/
def normalizeVideo (ps : Parsers) (video : JsObject) : JsObject :=
  ((video.set "startTime" (parseFloatValue ps (video "startTime"))).set "endTime"
    (parseFloatValue ps (video "endTime"))).set "duration"
    (parseFloatValue ps (video "duration"))

/-- One entry of `normalizedImages`. -/
def normalizeImage (ps : Parsers) (image : JsObject) : JsObject :=
  (((((((image.set "startTime" (parseFloatValue ps (image "startTime"))).set "endTime"
    (parseFloatValue ps (image "endTime"))).set "x" (parseIntValue ps (image "x"))).set "y"
    (parseIntValue ps (image "y"))).set "width" (parseIntValue ps (image "width"))).set
    "height" (parseIntValue ps (image "height"))).set "opacity"
    (parseIntValue ps (image "opacity")))

/-- One entry of `normalizedTexts`. -/
def normalizeText (ps : Parsers) (text : JsObject) : JsObject :=
  ((((((text.set "startTime" (parseFloatValue ps (text "startTime"))).set "endTime"
    (parseFloatValue ps (text "endTime"))).set "x" (parseIntValue ps (text "x"))).set "y"
    (parseIntValue ps (text "y"))).set "fontSize" (parseIntValue ps (text "fontSize"))).set
    "opacity" (parseIntValue ps (text "opacity")))

/-- The timeline as `exportCloudSide` receives it, with entries of any shape. -/
structure RawJob where
  videos : List JsObject := []
  images : List JsObject := []
  texts : List JsObject := []
  canvasWidth : ℚ := 0
  canvasHeight : ℚ := 0

/-- The fields of the form `exportCloudSide` submits, apart from the files: the three
lists of the object serialised under `metadata`, and the two canvas strings. -/
structure CloudForm where
  videos : List JsObject
  images : List JsObject
  texts : List JsObject
  canvas_width : String
  canvas_height : String

/-- The form fields for a timeline; `num` prints a number (`toString()`). -/
def cloudForm (num : ℚ → String) (ps : Parsers) (job : RawJob) : CloudForm :=
  { videos := job.videos.map (normalizeVideo ps)
    images := job.images.map (normalizeImage ps)
    texts := job.texts.map (normalizeText ps)
    canvas_width := num job.canvasWidth
    canvas_height := num job.canvasHeight }

/-- Parsers that read no string as a number. -/
def nanParsers : Parsers :=
  { floatOfString := fun _ => .nan, intOfString := fun _ => .nan }

/-- An entry whose fields `x` and `width` hold the number 100.5 and whose other fields
are absent. -/
def halfPixelEntry : JsObject :=
  fun k => if k = "x" ∨ k = "width" then .number (201 / 2) else .undefined

/-- A job with no clip, on a 640 by 360 canvas. -/
def emptyJob : Job := { canvasWidth := 640, canvasHeight := 360 }

/-- An environment in which `exec` leaves no output file and reading it fails. -/
def noOutputEnv : Env :=
  { engine := { execFiles := [], readError := some "output.mp4: no such file" } }

/-- An image overlay whose window ends before it starts: active from 5 to 2. -/
def reversedImage : Image :=
  { x := 100, y := 100, width := 50, height := 50, startTime := 5, endTime := 2 }

/-! ## `processVideo` with an engine whose cleanup calls may reject -/

/-- `FFmpegService.processVideo` on an engine whose cleanup calls may reject. A cleanup
that threw after the `try` block completed would be caught by the `catch` of
`processVideo`, which runs `cleanup` again; a cleanup that threw in the `catch` would
replace the error. -/
def processVideoScripted (cs : CleanupScript) (script : EngineScript) (onProgress : Bool)
    (svc : Service) (videos : List Video) (images : List Image) (texts : List Text)
    (canvasWidth canvasHeight : ℚ) : ProcessOutcome :=
  let loaded := if !svc.isLoaded then load script onProgress svc else (svc, .ok ())
  match loaded with
  | (svc1, .error message) => { svc := svc1, progress := [], result := .error message }
  | (svc1, .ok _) =>
    match processBody script onProgress svc1 videos images texts canvasWidth canvasHeight with
    | (files, progress, .ok _) =>
      match cleanupScripted cs { svc1 with files := files } with
      | (svc2, .ok _) => { svc := svc2, progress := progress, result := .ok () }
      | (svc2, .error message) =>
        match cleanupScripted cs svc2 with
        | (svc3, .ok _) =>
          { svc := svc3, progress := progress,
            result := .error ("Video processing failed: " ++ message) }
        | (svc3, .error again) => { svc := svc3, progress := progress, result := .error again }
    | (files, progress, .error message) =>
      match cleanupScripted cs { svc1 with files := files } with
      | (svc2, .ok _) =>
        { svc := svc2, progress := progress,
          result := .error ("Video processing failed: " ++ message) }
      | (svc2, .error again) => { svc := svc2, progress := progress, result := .error again }

/-! ## The remote handler (`pages/api/export.js`, `handler`) -/

/-- A response the handler sends: a JSON body with an `error` field and an optional
`message` field, or a binary body with its `Content-Type`. -/
inductive Response where
  | json (status : Nat) (error : String) (message : Option String)
  | file (status : Nat) (contentType : String) (bytes : List Nat)
  deriving DecidableEq

/-- The calls the handler makes on its collaborators. -/
inductive HandlerAction where
  | parseForm
  | exec (args : List String)
  | readFile (path : String)
  | unlink (path : String)
  deriving DecidableEq

/-- The fields and files of a parsed form. -/
structure ParsedForm where
  videoPaths : List String := []
  imagePaths : List String := []
  videos : List Video := []
  images : List Image := []
  texts : List Text := []
  canvasWidth : ℚ := 0
  canvasHeight : ℚ := 0

/-- What the collaborators of the handler answer for one request.
* `parsed`: the parsed form, or the message with which `parseForm` rejects.
* `outputPath`: the path built for the output file.
* `commandError`: the message with which `buildFFmpegCommand` throws on a form it cannot
  read (missing files, malformed metadata).
* `execError`, `readError`: the messages with which `execAsync` and `readFile` reject.
* `output`: the bytes of the output file. -/
structure HandlerScript where
  parsed : Except String ParsedForm := .ok {}
  outputPath : String := "/tmp/output.mp4"
  commandError : Option String := none
  execError : Option String := none
  readError : Option String := none
  output : List Nat := []

/-- The `try` block of the handler: the calls made, the temporary files recorded, and
the response sent or the message of the error thrown. -/
def handlerBody (num : ℚ → String) (script : HandlerScript) :
    List HandlerAction × List String × Except String Response :=
  match script.parsed with
  | .error message => ([.parseForm], [], .error message)
  | .ok form =>
    let tempFiles := [script.outputPath] ++ form.videoPaths ++ form.imagePaths
    match script.commandError with
    | some message => ([.parseForm], tempFiles, .error message)
    | none =>
      let args := buildFFmpegCommand num form.videoPaths form.imagePaths form.videos
        form.images form.texts form.canvasWidth form.canvasHeight script.outputPath
      match script.execError with
      | some message => ([.parseForm, .exec args], tempFiles, .error message)
      | none =>
        match script.readError with
        | some message =>
          ([.parseForm, .exec args, .readFile script.outputPath], tempFiles, .error message)
        | none =>
          ([.parseForm, .exec args, .readFile script.outputPath], tempFiles,
            .ok (.file 200 "video/mp4" script.output))

/-- The run of the handler on one request: the responses sent and the calls made. -/
structure HandlerRun where
  responses : List Response
  actions : List HandlerAction

/-- The default export `handler(req, res)` for a request with the given method: 405 when
the method is not `POST`; otherwise the `try` block, whose `catch` answers 500, and the
`finally` that unlinks every temporary file, ignoring failures. -/
def handler (num : ℚ → String) (script : HandlerScript) (method : String) : HandlerRun :=
  if method ≠ "POST" then
    { responses := [.json 405 "Method not allowed" none], actions := [] }
  else
    match handlerBody num script with
    | (actions, tempFiles, .ok response) =>
      { responses := [response], actions := actions ++ tempFiles.map .unlink }
    | (actions, tempFiles, .error message) =>
      { responses := [.json 500 "Export failed" (some message)]
        actions := actions ++ tempFiles.map .unlink }

/-! ## Interleaved calls of `FFmpegService.load`

JavaScript runs each stretch of code between two `await`s without interruption, so the
calls of `load` on the one service interleave at these points only: a caller entering
`load` runs up to its first `await`; the engine core of the running initialisation
settles; the timer of a caller in the wait loop fires. -/

/-- The points at which calls of `load` interleave. -/
inductive LoadEvent where
  | call (hasCallback : Bool)
  | resolve
  | reject (message : String)
  | poll
  deriving DecidableEq

/-- The service together with the calls of `load` under way.
* `running`: initialisations begun (`isLoading = true` set) and not yet settled.
* `started`: engines created with `new FFmpeg()` so far.
* `waiting`: callers in the wait loop.
* `returned`: calls of `load` that returned normally.
* `thrown`: the messages of the errors thrown by calls of `load`. -/
structure LoadState where
  svc : Service := {}
  running : Nat := 0
  started : Nat := 0
  waiting : Nat := 0
  returned : Nat := 0
  thrown : List String := []

/-- One stretch of `load` between two `await`s.
* `call`: `if (this.isLoaded) return;`, else entering the wait loop when `isLoading`, else
  `this.isLoading = true; this.ffmpeg = new FFmpeg(); ...` up to the first `await`.
* `resolve`: the awaited core load resolves: `isLoaded = true; isLoading = false`.
* `reject`: it rejects: `isLoading = false` and the wrapped error is thrown.
* `poll`: a waiting caller tests `while (this.isLoading)` again and returns when false.
An event that no call is ready for leaves the state as it is. -/
def loadStep (st : LoadState) : LoadEvent → LoadState
  | .call hasCallback =>
    if st.svc.isLoaded then { st with returned := st.returned + 1 }
    else if st.svc.isLoading then { st with waiting := st.waiting + 1 }
    else
      { st with
        svc := { st.svc with isLoading := true, hasEngine := true, forwards := hasCallback,
                             files := [] }
        running := st.running + 1
        started := st.started + 1 }
  | .resolve =>
    if st.running = 0 then st
    else
      { st with
        svc := { st.svc with isLoaded := true, isLoading := false }
        running := st.running - 1
        returned := st.returned + 1 }
  | .reject message =>
    if st.running = 0 then st
    else
      { st with
        svc := { st.svc with isLoading := false }
        running := st.running - 1
        thrown := st.thrown ++ ["Failed to load FFmpeg: " ++ message] }
  | .poll =>
    if st.waiting = 0 then st
    else if st.svc.isLoading then st
    else { st with waiting := st.waiting - 1, returned := st.returned + 1 }

/-- The state after a sequence of events. -/
def loadRun (st : LoadState) (events : List LoadEvent) : LoadState :=
  events.foldl loadStep st

/-- The link between the flags and the calls under way: an initialisation is running
exactly when `isLoading` is set, and a loaded service is not loading. -/
def LoadState.Consistent (st : LoadState) : Prop :=
  st.running = (if st.svc.isLoading then 1 else 0) ∧
  (st.svc.isLoaded = true → st.svc.isLoading = false)

/-! ## The command of `processVideo` -/

/-- The array `args` that `processVideo` passes to `exec`: `-i input0.mp4`, one `-i` for
every further clip, one `-i` for every image, then the graph and the encoder options. -/
def execArgs (num : ℚ → String) (videos : List Video) (images : List Image)
    (texts : List Text) (canvasWidth canvasHeight : ℚ) : List String :=
  let filterComplex := filterComplexString num videos images texts canvasWidth canvasHeight
  ["-i", "input0.mp4"]
    ++ ((List.range videos.length).drop 1).flatMap (fun i => ["-i", inputName i])
    ++ (List.range images.length).flatMap (fun i => ["-i", imageName i])
    ++ [ "-filter_complex", filterComplex,
         "-map", "[outv]",
         "-map", "0:a?",
         "-c:v", "libx264",
         "-preset", "fast",
         "-crf", "23",
         "-c:a", "aac",
         "-b:a", "128k",
         "-movflags", "+faststart",
         "output.mp4" ]

/-- The input files of a command line in which every option takes one value, as the
engine numbers them: the values of the `-i` options, in order. -/
def inputFiles : List String → List String
  | opt :: value :: rest =>
    if opt = "-i" then value :: inputFiles rest else inputFiles rest
  | _ => []

/-- The encoder part of the command, after the graph. -/
def encoderArgs : List String :=
  [ "-map", "[outv]", "-map", "0:a?", "-c:v", "libx264", "-preset", "fast", "-crf", "23",
    "-c:a", "aac", "-b:a", "128k", "-movflags", "+faststart", "output.mp4" ]

/-- The scale node of clip `i`. -/
def clipScaleNode (i : Nat) (video : Video) : Node :=
  { inputs := [toString i ++ ":v"]
    operation := .scale video.width video.height false
    output := "scaled_v" ++ toString i }

/-- The scale node of image `i`, reading input stream `j`. -/
def imageScaleNode (j i : Nat) (img : Image) : Node :=
  { inputs := [toString j ++ ":v"]
    operation := .scale img.width img.height false
    output := "scaled_img" ++ toString i }

/-! ## The graph of the remote worker in closed form -/

/-- The first entry of `filters` in `buildFFmpegCommand`. -/
def serverBaseNode (canvasWidth canvasHeight : ℚ) : Node :=
  { inputs := ["0:v"]
    operation := .scale (truncate canvasWidth) (truncate canvasHeight) true
    output := "base" }

/-- The value of `currentStream` when the text loop of `buildFFmpegCommand` reaches index
`i`, after `n` videos and `m` images, with `k` texts in all. -/
def serverStreamAfterTexts (n m k i : Nat) : String :=
  if i = 0 then streamAfterImages n m else serverTextLabel k (i - 1)

/-- The node the text loop of `buildFFmpegCommand` pushes at index `i`. -/
def serverTextNode (n m k i : Nat) (text : Text) : Node :=
  { inputs := [serverStreamAfterTexts n m k i]
    operation := .drawtext (escapeText text.description) (orNumber text.fontSize 24)
      (replaceFirst '#' "" (orString text.color "#FFFFFF"))
      (mathRound (fsub text.x (fdiv (orNumber text.width 100) 2)))
      (mathRound (fsub text.y (fdiv (orNumber text.height 50) 2))) text.startTime text.endTime
    output := serverTextLabel k i }

/-- The string `filters.join(';')` that `buildFFmpegCommand` passes after
`-filter_complex`. -/
def serverGraphString (num : ℚ → String) (videos : List Video) (images : List Image)
    (texts : List Text) (canvasWidth canvasHeight : ℚ) : String :=
  ";".intercalate
    ((serverFilters videos images texts canvasWidth canvasHeight).map (Node.render num))

/-- The copy node `[l]copy[outv]`. -/
def copyNode (l : String) : Node :=
  { inputs := [l], operation := .copy, output := "outv" }

/-- The decimal string a template literal prints for a non-negative Number that is an
integer or an integer plus a half, below `10 ^ 21`, such as `640` and `640.5`. A sample
printer for the scenarios: Numbers of another form are outside its scope. -/
def printHalves (q : ℚ) : String :=
  if q = ⌊q⌋ then toString ⌊q⌋ else toString ⌊q⌋ ++ ".5"

/-- The label namespaces of `buildFilterComplex`, used to reason about the label
strings: `Label.str` gives the string the source writes. -/
inductive Label where
  | base
  | scaledV (i : Nat)
  | v (i : Nat)
  | scaledImg (i : Nat)
  | img (i : Nat)
  | txt (i : Nat)
  | outv
  deriving DecidableEq, Repr

/-- The string of a label, as the template strings of the source build it. -/
def Label.str : Label → String
  | .base => "base"
  | .scaledV i => "scaled_v" ++ toString i
  | .v i => "v" ++ toString i
  | .scaledImg i => "scaled_img" ++ toString i
  | .img i => "img" ++ toString i
  | .txt i => "txt" ++ toString i
  | .outv => "outv"

/-- The label of the text loop at index `i`, in structured form. -/
def textLabelOf (n m k i : Nat) : Label :=
  if i = k - 1 ∧ m = 0 ∧ n = 1 then .outv else .txt i

/-- The output labels of the nodes emitted before the closing copy node, for `n` videos,
`m` images and `k` texts. -/
def labelPlan (n m k : Nat) : List Label :=
  Label.base ::
    ((((List.range n).drop 1).flatMap fun i => [Label.scaledV i, Label.v i])
      ++ ((List.range m).flatMap fun i => [Label.scaledImg i, Label.img i])
      ++ (List.range k).map (textLabelOf n m k))

/-- The loop state keeps `currentStream` equal to the output label of the last node. -/
def BuildState.Tracks (st : BuildState) : Prop :=
  (outputLabels st.filters).getLast? = some st.currentStream

/-! ## Theorems -/

/-! ### Binary64 arithmetic -/

theorem roundHalfEven_intCast (z : ℤ) : roundHalfEven (z : ℚ) = z := by
  simp [roundHalfEven]

theorem ulpExponent_dyadic (n : ℤ) (j : ℕ) (h0 : n ≠ 0) (hn : |n| < 2 ^ 53)
    (hj : j ≤ 1074) : ulpExponent (n / 2 ^ j) ≤ -(j : ℤ) := by
  unfold ulpExponent
  have hlog : Int.log 2 |(n : ℚ) / 2 ^ j| < 53 - (j : ℤ) := by
    · have hpos : (0 : ℚ) < |(n : ℚ) / 2 ^ j| := by
        apply abs_pos.2
        have : (n : ℚ) ≠ 0 := by exact_mod_cast h0
        positivity
      rw [← Int.lt_zpow_iff_log_lt (by norm_num) hpos]
      have hn' : |(n : ℚ)| < 2 ^ 53 := by exact_mod_cast hn
      rw [abs_div, abs_of_pos (by positivity : (0 : ℚ) < 2 ^ j), zpow_sub₀ (by norm_num)]
      simp only [Nat.cast_ofNat, zpow_natCast]
      rw [div_lt_div_iff_of_pos_right (by positivity)]
      exact_mod_cast hn'
  have : max (Int.log 2 |(n : ℚ) / 2 ^ j|) (-1022) ≤ 52 - (j : ℤ) := by
    apply max_le <;> omega
  omega

theorem toDouble_dyadic (n : ℤ) (j : ℕ) (hn : |n| < 2 ^ 53) (hj : j ≤ 1074) :
    toDouble (n / 2 ^ j) = n / 2 ^ j := by
  by_cases h0 : n = 0
  · subst h0
    simp [toDouble, roundHalfEven]
  have hu := ulpExponent_dyadic n j h0 hn hj
  unfold toDouble
  generalize ulpExponent ((n : ℚ) / 2 ^ j) = u at hu
  obtain ⟨k, hk⟩ : ∃ k : ℕ, u = -((j + k : ℕ) : ℤ) := ⟨(-(j : ℤ) - u).toNat, by
    push_cast
    rw [Int.toNat_of_nonneg (by omega)]
    ring⟩
  subst hk
  have hz : (n : ℚ) / 2 ^ j / 2 ^ (-((j + k : ℕ) : ℤ)) = ((n * 2 ^ k : ℤ) : ℚ) := by
    rw [zpow_neg, zpow_natCast, pow_add]
    push_cast
    field_simp
    ring
  rw [hz, roundHalfEven_intCast, zpow_neg, zpow_natCast, pow_add]
  push_cast
  field_simp
  ring

theorem toDouble_intCast (n : ℤ) (hn : |n| < 2 ^ 53) : toDouble n = n := by
  have := toDouble_dyadic n 0 hn (by omega)
  simpa using this

theorem fsub_fdiv_two (a b : ℤ) (ha : |a| < 2 ^ 51) (hb : |b| < 2 ^ 51) :
    fsub a (fdiv b 2) = a - b / 2 := by
  have h2 : toDouble 2 = 2 := by
    have := toDouble_intCast 2 (by norm_num)
    simpa using this
  have hbd : toDouble (b : ℚ) = b := toDouble_intCast b (by omega)
  have had : toDouble (a : ℚ) = a := toDouble_intCast a (by omega)
  have hhalf : toDouble ((b : ℚ) / 2) = b / 2 := by
    have := toDouble_dyadic b 1 (by omega) (by omega)
    simpa using this
  have hdiff : toDouble ((a : ℚ) - b / 2) = a - b / 2 := by
    have hab : |2 * a - b| < 2 ^ 53 := by
      have := abs_sub (2 * a) b
      have h2a : |2 * a| = 2 * |a| := by rw [abs_mul]; simp
      omega
    have := toDouble_dyadic (2 * a - b) 1 hab (by omega)
    have he : (((2 * a - b : ℤ) : ℚ)) / 2 ^ 1 = a - b / 2 := by
      push_cast
      ring
    rw [he] at this
    exact this
  unfold fsub fdiv
  rw [hbd, h2, hhalf, had, hhalf, hdiff]

theorem roundHalfEven_near (m : ℚ) (z : ℤ) (h : |m - z| < 1 / 2) : roundHalfEven m = z := by
  rw [abs_lt] at h
  unfold roundHalfEven
  by_cases hm : (z : ℚ) ≤ m
  · have hf : ⌊m⌋ = z := by
      rw [Int.floor_eq_iff]
      constructor
      · exact hm
      · linarith
    rw [hf, if_pos (by linarith)]
  · have hf : ⌊m⌋ = z - 1 := by
      rw [Int.floor_eq_iff]
      push_cast
      constructor <;> linarith
    rw [hf]
    push_cast
    rw [if_neg (by linarith), if_pos (by linarith)]
    ring

theorem toDouble_normal (q : ℚ) (e z : ℤ) (hlo : (2 : ℚ) ^ e ≤ |q|)
    (hhi : |q| < (2 : ℚ) ^ (e + 1)) (he : -1022 ≤ e)
    (hz : |q / 2 ^ (e - 52) - z| < 1 / 2) : toDouble q = z * 2 ^ (e - 52) := by
  have hpos : (0 : ℚ) < |q| := lt_of_lt_of_le (by positivity) hlo
  have hlog : Int.log 2 |q| = e := by
    have h1 : e ≤ Int.log 2 |q| := by
      rw [← Int.zpow_le_iff_le_log (by norm_num) hpos]
      simpa using hlo
    have h2 : Int.log 2 |q| < e + 1 := by
      rw [← Int.lt_zpow_iff_log_lt (by norm_num) hpos]
      simpa using hhi
    omega
  have hu : ulpExponent q = e - 52 := by
    unfold ulpExponent
    rw [hlog, max_eq_left he]
  unfold toDouble
  rw [hu, roundHalfEven_near _ z hz]

theorem toDouble_seven_tenths : toDouble (7 / 10) = 6305039478318694 / 2 ^ 53 := by
  have h := toDouble_normal (7 / 10) (-1) 6305039478318694
    (by rw [abs_of_pos (by norm_num)]; norm_num)
    (by rw [abs_of_pos (by norm_num)]; norm_num) (by norm_num)
    (by rw [abs_lt]; constructor <;> norm_num)
  rw [h]
  norm_num

theorem toDouble_four_tenths : toDouble (4 / 10) = 7205759403792794 / 2 ^ 54 := by
  have h := toDouble_normal (4 / 10) (-2) 7205759403792794
    (by rw [abs_of_pos (by norm_num)]; norm_num)
    (by rw [abs_of_pos (by norm_num)]; norm_num) (by norm_num)
    (by rw [abs_lt]; constructor <;> norm_num)
  rw [h]
  norm_num

theorem position_seven_tenths : mathRound (fsub (7 / 10) (fdiv (4 / 10) 2)) = 0 := by
  have h2 : toDouble 2 = 2 := by
    simpa using toDouble_intCast 2 (by norm_num)
  have hq : toDouble ((7205759403792794 : ℚ) / 2 ^ 54 / 2) = 7205759403792794 / 2 ^ 55 := by
    have := toDouble_dyadic 7205759403792794 55 (by norm_num) (by norm_num)
    have he : (7205759403792794 : ℚ) / 2 ^ 54 / 2 = ((7205759403792794 : ℤ) : ℚ) / 2 ^ 55 := by
      norm_num
    rw [he, this]
    norm_num
  have hq2 : toDouble ((7205759403792794 : ℚ) / 2 ^ 55) = 7205759403792794 / 2 ^ 55 := by
    simpa using toDouble_dyadic 7205759403792794 55 (by norm_num) (by norm_num)
  have hd : toDouble ((6305039478318694 : ℚ) / 2 ^ 53 - 7205759403792794 / 2 ^ 55) =
      9007199254740991 / 2 ^ 54 := by
    have := toDouble_dyadic 9007199254740991 54 (by norm_num) (by norm_num)
    have he : (6305039478318694 : ℚ) / 2 ^ 53 - 7205759403792794 / 2 ^ 55 =
        ((9007199254740991 : ℤ) : ℚ) / 2 ^ 54 := by norm_num
    rw [he, this]
    norm_num
  unfold fsub fdiv
  rw [toDouble_four_tenths, h2, hq, hq2, toDouble_seven_tenths, hd]
  unfold mathRound
  rw [Int.floor_eq_iff]
  constructor <;> norm_num

theorem roundHalfEven_le (m : ℚ) (d : ℤ) (h : m ≤ d) : roundHalfEven m ≤ d := by
  have hf : ⌊m⌋ ≤ d := Int.floor_le_iff.2 (by linarith)
  unfold roundHalfEven
  by_cases h1 : m - ⌊m⌋ < 1 / 2
  · rw [if_pos h1]
    exact hf
  · have hlt : (⌊m⌋ : ℚ) < m := by linarith
    have hfd : ⌊m⌋ < d := by
      have : (⌊m⌋ : ℚ) < d := lt_of_lt_of_le hlt h
      exact_mod_cast this
    rw [if_neg h1]
    split
    · omega
    · split <;> omega

theorem roundHalfEven_nonneg (m : ℚ) (h : 0 ≤ m) : 0 ≤ roundHalfEven m := by
  have hf : 0 ≤ ⌊m⌋ := Int.floor_nonneg.2 h
  unfold roundHalfEven
  split
  · exact hf
  · split
    · omega
    · split <;> omega

theorem toDouble_nonneg (q : ℚ) (h : 0 ≤ q) : 0 ≤ toDouble q := by
  unfold toDouble
  have hm : 0 ≤ roundHalfEven (q / 2 ^ ulpExponent q) :=
    roundHalfEven_nonneg _ (by positivity)
  have : (0 : ℚ) ≤ roundHalfEven (q / 2 ^ ulpExponent q) := by exact_mod_cast hm
  positivity

theorem toDouble_le_natCast (q : ℚ) (d : ℕ) (hq : q ≤ d) (hd : d ≤ 2 ^ 52) :
    toDouble q ≤ d := by
  by_cases h0 : q ≤ 0
  · unfold toDouble
    have hm : roundHalfEven (q / 2 ^ ulpExponent q) ≤ 0 := by
      apply roundHalfEven_le
      have : (0 : ℚ) < 2 ^ ulpExponent q := by positivity
      simpa using div_nonpos_of_nonpos_of_nonneg h0 this.le
    have hm' : (roundHalfEven (q / 2 ^ ulpExponent q) : ℚ) ≤ 0 := by exact_mod_cast hm
    have hp : (0 : ℚ) < 2 ^ ulpExponent q := by positivity
    have : (roundHalfEven (q / 2 ^ ulpExponent q) : ℚ) * 2 ^ ulpExponent q ≤ 0 :=
      mul_nonpos_of_nonpos_of_nonneg hm' hp.le
    exact le_trans this (by positivity)
  · push_neg at h0
    have habs : |q| = q := abs_of_pos h0
    have hu : ulpExponent q ≤ 0 := by
      unfold ulpExponent
      have hlog : Int.log 2 |q| < 53 := by
        rw [← Int.lt_zpow_iff_log_lt (by norm_num) (by rw [habs]; exact h0), habs]
        have hd' : (d : ℚ) ≤ 2 ^ 52 := by exact_mod_cast hd
        have : (2 : ℚ) ^ 52 < 2 ^ 53 := by norm_num
        have h53 : ((2 : ℕ) : ℚ) ^ (53 : ℤ) = 2 ^ 53 := by norm_num
        rw [h53]
        linarith
      have : max (Int.log 2 |q|) (-1022) ≤ 52 := max_le (by omega) (by norm_num)
      omega
    unfold toDouble
    generalize ulpExponent q = u at hu
    obtain ⟨k, hk⟩ : ∃ k : ℕ, u = -(k : ℤ) := ⟨(-u).toNat, by
      rw [Int.toNat_of_nonneg (by omega)]
      ring⟩
    subst hk
    have hpow : (2 : ℚ) ^ (-(k : ℤ)) = 1 / 2 ^ k := by
      rw [zpow_neg, zpow_natCast, one_div]
    rw [hpow]
    have hm : roundHalfEven (q / (1 / 2 ^ k)) ≤ ((d * 2 ^ k : ℕ) : ℤ) := by
      apply roundHalfEven_le
      push_cast
      rw [div_div_eq_mul_div, div_one]
      exact mul_le_mul_of_nonneg_right hq (by positivity)
    have hm' : (roundHalfEven (q / (1 / 2 ^ k)) : ℚ) ≤ (d : ℚ) * 2 ^ k := by
      exact_mod_cast hm
    rw [mul_one_div, div_le_iff₀ (by positivity)]
    exact hm'

theorem fmul_hundred_range (p : ℚ) (h0 : 0 ≤ p) (h1 : p ≤ 1) :
    0 ≤ fmul p 100 ∧ fmul p 100 ≤ 100 := by
  have h100 : toDouble 100 = 100 := by
    simpa using toDouble_intCast 100 (by norm_num)
  have hp0 := toDouble_nonneg p h0
  have hp1 : toDouble p ≤ 1 := by
    simpa using toDouble_le_natCast p 1 (by simpa using h1) (by norm_num)
  unfold fmul
  rw [h100]
  constructor
  · exact toDouble_nonneg _ (by positivity)
  · have := toDouble_le_natCast (toDouble p * 100) 100 (by push_cast; linarith) (by norm_num)
    simpa using this

theorem fmul_quarter : fmul (1 / 4) 100 = 25 := by
  have h100 : toDouble 100 = 100 := by
    simpa using toDouble_intCast 100 (by norm_num)
  have hq : toDouble (1 / 4) = 1 / 4 := by
    have := toDouble_dyadic 1 2 (by norm_num) (by norm_num)
    norm_num at this
    norm_num
    exact this
  have h25 : toDouble 25 = 25 := by
    simpa using toDouble_intCast 25 (by norm_num)
  unfold fmul
  rw [h100, hq]
  norm_num
  exact h25

theorem replaceChars_append (c : Char) (r a b : List Char) :
    replaceChars c r (a ++ b) = replaceChars c r a ++ replaceChars c r b := by
  induction a with
  | nil => rfl
  | cons x xs ih =>
    by_cases h : x = c <;> simp [replaceChars, h, ih]

theorem sequential_chars_eq (l : List Char) :
    replaceChars ':' colonReplacement.data
        (replaceChars '\'' quoteReplacement.data
          (replaceChars '\\' backslashReplacement.data l)) = substChars l := by
  have hb : backslashReplacement.data = ['\\', '\\'] := rfl
  have hq : quoteReplacement.data = ['\'', '\\', '\\', '\\', '\'', '\''] := rfl
  have hc : colonReplacement.data = ['\\', ':'] := rfl
  rw [hb, hq, hc]
  induction l with
  | nil => rfl
  | cons x xs ih =>
    by_cases h1 : x = '\\'
    · subst h1
      simp [replaceChars, substChars, substChar, replaceChars_append, ih]
    · by_cases h2 : x = '\''
      · subst h2
        simp [replaceChars, substChars, substChar, replaceChars_append, ih]
      · by_cases h3 : x = ':'
        · subst h3
          simp [replaceChars, substChars, substChar, replaceChars_append, ih]
        · simp [replaceChars, substChars, substChar, h1, h2, h3, ih]

theorem escapeText_data (s : String) : (escapeText s).data = substChars s.data := by
  simp [escapeText, replaceAll, sequential_chars_eq]

theorem unescapeChars_substChars (l : List Char) : unescapeChars (substChars l) = l := by
  induction l with
  | nil => rfl
  | cons x xs ih =>
    by_cases h1 : x = '\\'
    · subst h1
      simp [substChars, substChar, unescapeChars, ih]
    · by_cases h2 : x = '\''
      · subst h2
        simp [substChars, substChar, unescapeChars, ih]
      · by_cases h3 : x = ':'
        · subst h3
          simp [substChars, substChar, unescapeChars, ih]
        · simp only [substChars, substChar, h1, h2, h3, if_false, List.singleton_append]
          rw [unescapeChars.eq_def]
          split
          · simp_all
          · simp_all
          · simp_all
          · simp_all

/-- C6: the three sequential global replacements of `buildFilterComplex` equal the
single-pass character-wise substitution, for every description. -/
theorem escapeText_eq_singlePass (s : String) : escapeText s = escapeSinglePass s := by
  apply String.ext
  simp [escapeSinglePass, escapeText_data]

/-- C3: the escaping has a left inverse, `unescapeText`, and is therefore injective. -/
theorem unescape_escape_roundtrip :
    (∀ s : String, unescapeText (escapeText s) = s) ∧ Function.Injective escapeText := by
  have h : ∀ s : String, unescapeText (escapeText s) = s := by
    intro s
    apply String.ext
    simp [unescapeText, escapeText_data, unescapeChars_substChars]
  exact ⟨h, Function.LeftInverse.injective h⟩

theorem runParity_append_singleton (p : Bool) (l : List Char) (c : Char) :
    runParity p (l ++ [c]) = if c = '\\' then !(runParity p l) else false := by
  simp [runParity, List.foldl_append]

theorem trailingBackslashes_append_singleton (l : List Char) (c : Char) :
    trailingBackslashes (l ++ [c]) = if c = '\\' then trailingBackslashes l + 1 else 0 := by
  by_cases h : c = '\\' <;> simp [trailingBackslashes, List.takeWhile_cons, h]

theorem runParity_iff_odd (l : List Char) :
    runParity false l = true ↔ Odd (trailingBackslashes l) := by
  induction l using List.reverseRecOn with
  | nil => simp [runParity, trailingBackslashes]
  | append_singleton l c ih =>
    rw [runParity_append_singleton, trailingBackslashes_append_singleton]
    by_cases h : c = '\\'
    · simp only [h, if_true, Nat.odd_add_one, ← ih]
      simp
    · simp [h]

theorem colonsOk_split (pre : List Char) :
    ∀ (p : Bool) (l post : List Char), colonsOk p l = true → l = pre ++ ':' :: post →
      runParity p pre = true := by
  induction pre with
  | nil =>
    intro p l post h hl
    subst hl
    simp [colonsOk] at h
    simpa [runParity] using h.1
  | cons c pre ih =>
    intro p l post h hl
    subst hl
    by_cases hc : c = ':'
    · subst hc
      simp [colonsOk] at h
      have := ih false _ post h.2 rfl
      simpa [runParity] using this
    · simp only [List.cons_append, colonsOk, hc, if_false] at h
      have := ih _ _ post h rfl
      simpa [runParity] using this

theorem colonsOk_substChars (l : List Char) : colonsOk false (substChars l) = true := by
  induction l with
  | nil => rfl
  | cons x xs ih =>
    by_cases h1 : x = '\\'
    · subst h1
      simp [substChars, substChar, colonsOk, ih]
    · by_cases h2 : x = '\''
      · subst h2
        simp [substChars, substChar, colonsOk, ih]
      · by_cases h3 : x = ':'
        · subst h3
          simp [substChars, substChar, colonsOk, ih]
        · simp [substChars, substChar, colonsOk, h1, h2, h3, ih]

theorem filter_substChars (l : List Char) :
    (substChars l).filter (fun c => !isMeta c) = l.filter (fun c => !isMeta c) := by
  induction l with
  | nil => rfl
  | cons x xs ih =>
    by_cases h1 : x = '\\'
    · subst h1
      simpa [substChars, substChar, isMeta] using ih
    · by_cases h2 : x = '\''
      · subst h2
        simpa [substChars, substChar, isMeta] using ih
      · by_cases h3 : x = ':'
        · subst h3
          simpa [substChars, substChar, isMeta] using ih
        · simpa [substChars, substChar, isMeta, h1, h2, h3] using ih

theorem quoteScan_substChars (l rest : List Char) :
    quoteScan .quoted (substChars l ++ rest) = quoteScan .quoted rest := by
  induction l with
  | nil => rfl
  | cons x xs ih =>
    by_cases h1 : x = '\\'
    · subst h1
      simp [substChars, substChar, quoteScan, quoteStep, ih]
    · by_cases h2 : x = '\''
      · subst h2
        simp [substChars, substChar, quoteScan, quoteStep, ih]
      · by_cases h3 : x = ':'
        · subst h3
          simp [substChars, substChar, quoteScan, quoteStep, ih]
        · simp [substChars, substChar, quoteScan, quoteStep, h1, h2, h3, ih]

/-- C4: the field `'` + escape(s) + `'` of the drawtext node is one well-formed quoted
token: the scan never stops at an unprotected separator, it is inside quotes just
before the final quote, and the final quote leaves it in the unquoted state. -/
theorem textField_wellQuoted (s : String) :
    (textField s).data = '\'' :: ((escapeText s).data ++ ['\'']) ∧
    quoteScan .unquoted ('\'' :: (escapeText s).data) = some .quoted ∧
    quoteScan .unquoted (textField s).data = some .unquoted := by
  have hd : (textField s).data = '\'' :: ((escapeText s).data ++ ['\'']) := by
    simp [textField, String.data_append]
  refine ⟨hd, ?_, ?_⟩
  · have := quoteScan_substChars s.data []
    simpa [quoteScan, quoteStep, escapeText_data] using this
  · rw [hd, escapeText_data]
    have := quoteScan_substChars s.data ['\'']
    simpa [quoteScan, quoteStep] using this

/-- C5: in the escaped text every colon is preceded by an odd-length run of
backslashes, the characters other than backslash, quote and colon are kept unchanged
and in order, and "50% off: now!" becomes "50% off\: now!". -/
theorem escapeText_colons_protected (s : String) :
    (∀ pre post : List Char, (escapeText s).data = pre ++ ':' :: post →
      Odd (trailingBackslashes pre)) ∧
    (escapeText s).data.filter (fun c => !isMeta c) = s.data.filter (fun c => !isMeta c) ∧
    escapeText "50% off: now!" = "50% off\\: now!" := by
  refine ⟨?_, ?_, by decide⟩
  · intro pre post h
    rw [escapeText_data] at h
    exact (runParity_iff_odd pre).1
      (colonsOk_split pre false _ post (colonsOk_substChars s.data) h)
  · rw [escapeText_data]
    exact filter_substChars s.data

/-- Witness for C5 at the description `\:b`, whose escaped form is `\\\:b`. -/
theorem escapeText_colons_protected_witness :
    (escapeText "\\:b").data = ['\\', '\\', '\\'] ++ ':' :: ['b'] ∧
    Odd (trailingBackslashes ['\\', '\\', '\\']) :=
  ⟨by decide,
    (escapeText_colons_protected "\\:b").1 ['\\', '\\', '\\'] ['b'] (by decide)⟩

/-! ### Decimal strings of naturals are injective -/

theorem digitChar_toNat (d : Nat) (h : d < 10) : (Nat.digitChar d).toNat - 48 = d := by
  interval_cases d <;> rfl

theorem toDigitsCore_decode (fuel : Nat) :
    ∀ (n : Nat) (ds : List Char), n < fuel →
      (Nat.toDigitsCore 10 fuel n ds).foldl (fun acc c => acc * 10 + (c.toNat - 48)) 0 =
        ds.foldl (fun acc c => acc * 10 + (c.toNat - 48)) n := by
  induction fuel with
  | zero => intro n ds h; omega
  | succ fuel ih =>
    intro n ds h
    rw [Nat.toDigitsCore]
    by_cases h0 : n / 10 = 0
    · simp only [h0, if_true, List.foldl_cons, Nat.zero_mul, Nat.zero_add]
      rw [digitChar_toNat _ (Nat.mod_lt _ (by decide))]
      have : n % 10 = n := Nat.mod_eq_of_lt (by omega)
      rw [this]
    · simp only [h0, if_false]
      rw [ih (n / 10) _ (by omega)]
      simp only [List.foldl_cons]
      rw [digitChar_toNat _ (Nat.mod_lt _ (by decide))]
      have : n / 10 * 10 + n % 10 = n := by omega
      rw [this]

theorem toString_nat_injective : Function.Injective (fun n : Nat => toString n) := by
  intro a b h
  have h2 : Nat.toDigits 10 a = Nat.toDigits 10 b := by
    have := congrArg String.data h
    simpa [toString, Nat.repr, List.asString] using this
  have ha := toDigitsCore_decode (a + 1) a [] (by omega)
  have hb := toDigitsCore_decode (b + 1) b [] (by omega)
  simp only [List.foldl_nil] at ha hb
  rw [← ha, ← hb]
  unfold Nat.toDigits at h2
  rw [h2]

theorem toString_nat_data_inj (a b : Nat) :
    (toString a).data = (toString b).data ↔ a = b := by
  constructor
  · intro h
    exact toString_nat_injective (String.ext h)
  · intro h; rw [h]

/-! ### Labels -/

theorem Label.str_injective : Function.Injective Label.str := by
  intro a b h
  cases a <;> cases b <;>
    simp [Label.str, String.ext_iff, String.data_append, toString_nat_data_inj] at h ⊢ <;>
    exact h

theorem textLabel_eq_str (n m k i : Nat) : textLabel n m k i = (textLabelOf n m k i).str := by
  unfold textLabel textLabelOf
  split <;> rfl

theorem textLabelOf_injective (n m k : Nat) : Function.Injective (textLabelOf n m k) := by
  intro i j h
  unfold textLabelOf at h
  split at h <;> split at h <;> simp_all

theorem mem_pairs {f g : Nat → Label} {l : List Nat} {x : Label} :
    x ∈ l.flatMap (fun i => [f i, g i]) ↔ ∃ i ∈ l, x = f i ∨ x = g i := by
  simp [List.mem_flatMap]

theorem nodup_pairs (f g : Nat → Label) (hf : Function.Injective f)
    (hg : Function.Injective g) (hfg : ∀ i j, f i ≠ g j) (l : List Nat) (hl : l.Nodup) :
    (l.flatMap fun i => [f i, g i]).Nodup := by
  induction l with
  | nil => simp
  | cons a l ih =>
    rw [List.nodup_cons] at hl
    have hrest := ih hl.2
    simp only [List.flatMap_cons, List.cons_append, List.nil_append, List.nodup_cons,
      List.mem_cons, mem_pairs, not_or, not_exists, not_and]
    refine ⟨⟨hfg a a, ?_⟩, ?_, hrest⟩
    · intro i hi
      exact ⟨fun h => hl.1 (hf h ▸ hi), hfg a i⟩
    · intro i hi
      exact ⟨fun h => hfg i a h.symm, fun h => hl.1 (hg h ▸ hi)⟩

theorem labelPlan_nodup (n m k : Nat) : (labelPlan n m k).Nodup := by
  have hA : (((List.range n).drop 1).flatMap fun i => [Label.scaledV i, Label.v i]).Nodup :=
    nodup_pairs _ _ (fun i j h => by injection h) (fun i j h => by injection h)
      (fun i j h => by cases h) _
      ((List.nodup_range n).sublist (List.drop_sublist 1 _))
  have hB : ((List.range m).flatMap fun i => [Label.scaledImg i, Label.img i]).Nodup :=
    nodup_pairs _ _ (fun i j h => by injection h) (fun i j h => by injection h)
      (fun i j h => by cases h) _ (List.nodup_range m)
  have hC : ((List.range k).map (textLabelOf n m k)).Nodup :=
    (List.nodup_range k).map (textLabelOf_injective n m k)
  unfold labelPlan
  rw [List.nodup_cons]
  refine ⟨?_, ?_⟩
  · simp only [List.mem_append, mem_pairs, List.mem_map, not_or, not_exists, not_and]
    refine ⟨⟨?_, ?_⟩, ?_⟩
    · intro i _; simp
    · intro i _; simp
    · intro i _ h
      unfold textLabelOf at h
      split at h <;> simp at h
  · rw [List.nodup_append, List.nodup_append]
    refine ⟨⟨hA, hB, ?_⟩, hC, ?_⟩
    · intro x hx hy
      rw [mem_pairs] at hx hy
      obtain ⟨i, _, hi⟩ := hx
      obtain ⟨j, _, hj⟩ := hy
      rcases hi with rfl | rfl <;> rcases hj with hj | hj <;> cases hj
    · intro x hx hy
      rw [List.mem_append, mem_pairs, mem_pairs] at hx
      rw [List.mem_map] at hy
      obtain ⟨j, _, rfl⟩ := hy
      unfold textLabelOf at hx
      split at hx
      · rcases hx with ⟨i, _, hi⟩ | ⟨i, _, hi⟩ <;> rcases hi with hi | hi <;> cases hi
      · rcases hx with ⟨i, _, hi⟩ | ⟨i, _, hi⟩ <;> rcases hi with hi | hi <;> cases hi

/-! ### The loops of `buildFilterComplex` -/

theorem foldl_addVideo_labels (l : List (Nat × Video)) :
    ∀ st : BuildState, outputLabels (l.foldl addVideo st).filters =
      outputLabels st.filters ++
        ((l.map Prod.fst).flatMap fun i => [Label.scaledV i, Label.v i]).map Label.str := by
  induction l with
  | nil => intro st; simp
  | cons a l ih =>
    intro st
    rw [List.foldl_cons, ih]
    simp [addVideo, outputLabels, Label.str]

theorem foldl_addImage_labels (l : List (Nat × Image)) :
    ∀ st : BuildState, outputLabels (l.foldl addImage st).filters =
      outputLabels st.filters ++
        ((l.map Prod.fst).flatMap fun i => [Label.scaledImg i, Label.img i]).map
          Label.str := by
  induction l with
  | nil => intro st; simp
  | cons a l ih =>
    intro st
    rw [List.foldl_cons, ih]
    simp [addImage, outputLabels, Label.str]

theorem foldl_addText_labels (n m k : Nat) (l : List (Nat × Text)) :
    ∀ st : BuildState, outputLabels (l.foldl (addText n m k) st).filters =
      outputLabels st.filters ++
        ((l.map Prod.fst).map (textLabelOf n m k)).map Label.str := by
  induction l with
  | nil => intro st; simp
  | cons a l ih =>
    intro st
    rw [List.foldl_cons, ih]
    simp [addText, outputLabels, textLabel_eq_str]

theorem tracks_addVideo (st : BuildState) (iv : Nat × Video) : (addVideo st iv).Tracks := by
  simp [BuildState.Tracks, addVideo, outputLabels]

theorem tracks_addImage (st : BuildState) (ii : Nat × Image) : (addImage st ii).Tracks := by
  simp [BuildState.Tracks, addImage, outputLabels]

theorem tracks_addText (n m k : Nat) (st : BuildState) (it : Nat × Text) :
    (addText n m k st it).Tracks := by
  simp [BuildState.Tracks, addText, outputLabels]

theorem tracks_foldl {α : Type} (f : BuildState → α → BuildState)
    (hf : ∀ st a, (f st a).Tracks) (l : List α) :
    ∀ st : BuildState, st.Tracks → (l.foldl f st).Tracks := by
  induction l with
  | nil => intro st h; exact h
  | cons a l ih => intro st _; exact ih _ (hf st a)

/-- The state of `buildFilterComplex` after the three loops. -/
theorem loops_labels (videos : List Video) (images : List Image) (texts : List Text)
    (st0 : BuildState) (h0 : outputLabels st0.filters = ["base"]) (ht : st0.Tracks) :
    let st3 := texts.enum.foldl (addText videos.length images.length texts.length)
      (images.enum.foldl addImage ((videos.enum.drop 1).foldl addVideo st0))
    outputLabels st3.filters =
        (labelPlan videos.length images.length texts.length).map Label.str ∧
      st3.Tracks := by
  intro st3
  refine ⟨?_, ?_⟩
  · simp only [st3, foldl_addText_labels, foldl_addImage_labels, foldl_addVideo_labels, h0,
      List.map_drop, List.enum_map_fst, labelPlan]
    simp [Label.str]
  · exact tracks_foldl _ (tracks_addText _ _ _) _ _
      (tracks_foldl _ tracks_addImage _ _ (tracks_foldl _ tracks_addVideo _ _ ht))

theorem outv_mem_labelPlan (n m k : Nat) (h : Label.outv ∈ labelPlan n m k) :
    (labelPlan n m k).getLast? = some Label.outv := by
  unfold labelPlan at h ⊢
  simp only [List.mem_cons, List.mem_append, mem_pairs, List.mem_map] at h
  rcases h with h | ⟨⟨i, _, h⟩ | ⟨i, _, h⟩⟩ | ⟨i, hi, h⟩
  · cases h
  · rcases h with h | h <;> cases h
  · rcases h with h | h <;> cases h
  · have hk : k = (k - 1) + 1 := by
      have := List.mem_range.1 hi
      omega
    have hcond : (k - 1) = k - 1 ∧ m = 0 ∧ n = 1 := by
      unfold textLabelOf at h
      split at h
      · rename_i hc; exact ⟨rfl, hc.2⟩
      · cases h
    have hlast : textLabelOf n m k (k - 1) = Label.outv := by
      unfold textLabelOf
      rw [if_pos hcond]
    rw [hk, List.range_succ, List.map_append, ← hk, List.map_singleton, hlast,
      ← List.append_assoc, ← List.cons_append]
    exact List.getLast?_concat _

/-- The output labels of the node list: the labels of the three loops, closed by `outv`
from the copy node unless the last text node already wrote it. -/
theorem build_labels (videos : List Video) (images : List Image) (texts : List Text)
    (canvasWidth canvasHeight : ℚ) :
    ∃ plan : List Label, plan.Nodup ∧ plan.getLast? = some Label.outv ∧
      outputLabels (buildFilterComplex videos images texts canvasWidth canvasHeight) =
        plan.map Label.str := by
  obtain ⟨hl, ht⟩ := loops_labels videos images texts
    { filters := [ { inputs := ["0:v"]
                     operation := .scale canvasWidth canvasHeight true
                     output := "base" } ]
      currentStream := "base"
      videoInputIndex := 1 } rfl rfl
  by_cases hmem : Label.outv ∈ labelPlan videos.length images.length texts.length
  · refine ⟨labelPlan videos.length images.length texts.length, labelPlan_nodup _ _ _,
      outv_mem_labelPlan _ _ _ hmem, ?_⟩
    have hcur := ht
    unfold BuildState.Tracks at hcur
    rw [hl, List.getLast?_map, outv_mem_labelPlan _ _ _ hmem] at hcur
    simp only [Option.map_some', Option.some.injEq] at hcur
    unfold buildFilterComplex
    simp only [← hcur, Label.str, ne_eq, not_true_eq_false, if_false]
    exact hl
  · refine ⟨labelPlan videos.length images.length texts.length ++ [Label.outv], ?_, ?_, ?_⟩
    · rw [List.nodup_append]
      exact ⟨labelPlan_nodup _ _ _, List.nodup_singleton _, by
        intro x hx hy
        rw [List.mem_singleton] at hy
        exact hmem (hy ▸ hx)⟩
    · simp
    · have hcur : ¬ ((texts.enum.foldl
          (addText videos.length images.length texts.length)
          (images.enum.foldl addImage ((videos.enum.drop 1).foldl addVideo
            { filters := [ { inputs := ["0:v"]
                             operation := .scale canvasWidth canvasHeight true
                             output := "base" } ]
              currentStream := "base"
              videoInputIndex := 1 }))).currentStream = "outv") := by
        intro hc
        unfold BuildState.Tracks at ht
        rw [hl, hc] at ht
        have hm := List.mem_of_getLast?_eq_some ht
        rw [List.mem_map] at hm
        obtain ⟨x, hx, hxs⟩ := hm
        have : x = Label.outv := Label.str_injective (by rw [hxs]; rfl)
        exact hmem (this ▸ hx)
      unfold buildFilterComplex
      simp only [ne_eq, hcur, not_false_eq_true, if_true]
      simp only [outputLabels, List.map_append] at hl ⊢
      rw [hl]
      simp [Label.str]

/-- C1: for all lists of videos, images and texts and every canvas size, no two nodes
built by `buildFilterComplex` share an output label; the label strings `base`,
`scaled_v<i>`, `v<i>`, `scaled_img<i>`, `img<i>`, `txt<i>` and `outv` are pairwise
distinct. -/
theorem buildFilterComplex_labels_nodup (videos : List Video) (images : List Image)
    (texts : List Text) (canvasWidth canvasHeight : ℚ) :
    (outputLabels (buildFilterComplex videos images texts canvasWidth canvasHeight)).Nodup ∧
      Function.Injective Label.str := by
  obtain ⟨plan, hnd, _, hl⟩ := build_labels videos images texts canvasWidth canvasHeight
  rw [hl]
  exact ⟨hnd.map Label.str_injective, Label.str_injective⟩

/-- C2: for every timeline with at least one clip, exactly one node of
`buildFilterComplex` has output label `outv`, and it is the last node. -/
theorem buildFilterComplex_single_terminal (videos : List Video) (images : List Image)
    (texts : List Text) (canvasWidth canvasHeight : ℚ) (_h : 1 ≤ videos.length) :
    ((buildFilterComplex videos images texts canvasWidth canvasHeight).filter
        (fun nd => nd.output = "outv")).length = 1 ∧
      ((buildFilterComplex videos images texts canvasWidth canvasHeight).getLast?.map
        Node.output) = some "outv" := by
  obtain ⟨plan, hnd, hlast, hl⟩ := build_labels videos images texts canvasWidth canvasHeight
  have hcount : List.count "outv"
      (outputLabels (buildFilterComplex videos images texts canvasWidth canvasHeight)) = 1 := by
    rw [hl]
    have : List.count (Label.str Label.outv) (plan.map Label.str) = 1 := by
      rw [List.count_map_of_injective _ _ Label.str_injective]
      exact List.count_eq_one_of_mem hnd (List.mem_of_getLast?_eq_some hlast)
    exact this
  refine ⟨?_, ?_⟩
  · rw [← hcount, outputLabels, List.count, List.countP_map, List.countP_eq_length_filter]
    congr 1
  · rw [← List.getLast?_map]
    have := hl
    unfold outputLabels at this
    rw [this, List.getLast?_map, hlast]
    rfl

/-- Witness for C2: one clip, no image, two texts. -/
theorem buildFilterComplex_single_terminal_witness :
    1 ≤ ([{}] : List Video).length ∧
    ((buildFilterComplex [{}] [] [{}, {}] 640 360).filter
        (fun nd => nd.output = "outv")).length = 1 ∧
      ((buildFilterComplex [{}] [] [{}, {}] 640 360).getLast?.map Node.output) =
        some "outv" :=
  ⟨by decide, buildFilterComplex_single_terminal [{}] [] [{}, {}] 640 360 (by decide)⟩

/-! ### Size routing -/

theorem mode_mem_client (script : EngineScript) (svc : Service) (job : Job) (mode : Mode) :
    Effect.setExportMode mode ∈ (exportClientSide script svc job).effects ↔
      mode = Mode.client := by
  cases hres : (processVideo script true svc job.videos job.images job.texts
      job.canvasWidth job.canvasHeight).result <;>
    simp [exportClientSide, hres, eq_comm]

theorem mode_mem_cloud (script : CloudScript) (svc : Service) (job : Job) (mode : Mode) :
    Effect.setExportMode mode ∈ (exportCloudSide script svc job).effects ↔
      mode = Mode.cloud := by
  have hbody : ∀ m, Effect.setExportMode m ∉ (cloudBody script job).1 := by
    intro m
    unfold cloudBody
    repeat' split
    all_goals simp
  unfold exportCloudSide
  split <;> rename_i effects _ heq <;>
    · have := hbody mode
      rw [heq] at this
      simp [eq_comm, this]

theorem result_mode_client (script : EngineScript) (svc : Service) (job : Job)
    (r : ExportResult) (h : (exportClientSide script svc job).result = .ok r) :
    r.mode = Mode.client := by
  cases hres : (processVideo script true svc job.videos job.images job.texts
      job.canvasWidth job.canvasHeight).result <;>
    simp [exportClientSide, hres] at h
  rw [← h]

theorem result_mode_cloud (script : CloudScript) (svc : Service) (job : Job)
    (r : ExportResult) (h : (exportCloudSide script svc job).result = .ok r) :
    r.mode = Mode.cloud := by
  unfold exportCloudSide at h
  split at h
  · simp at h; rw [← h]
  · simp at h

/-- C7: when the size measurement succeeds with `totalSize`, `exportVideo` takes the
client path exactly when `totalSize ≤ MAX_CLIENT_SIZE = 20971520` and the cloud path
otherwise, and the mode of a successful result is the path taken. -/
theorem exportVideo_routes_by_size (env : Env) (svc : Service) (job : Job)
    (totalSize : Nat)
    (h : calculateTotalSize env.blobSize job.videos job.images = .ok totalSize) :
    MAX_CLIENT_SIZE = 20971520 ∧
    (Effect.setExportMode Mode.client ∈ (exportVideo env svc job).effects ↔
      totalSize ≤ 20971520) ∧
    (Effect.setExportMode Mode.cloud ∈ (exportVideo env svc job).effects ↔
      20971520 < totalSize) ∧
    (∀ r, (exportVideo env svc job).result = .ok r →
      r.mode = if totalSize ≤ 20971520 then Mode.client else Mode.cloud) := by
  have hmax : MAX_CLIENT_SIZE = 20971520 := by decide
  refine ⟨hmax, ?_⟩
  by_cases hle : totalSize ≤ 20971520
  · have hrun : exportVideo env svc job =
        { exportClientSide env.engine svc job with
          effects := [Effect.setIsExporting true, Effect.setExportProgress 0] ++
            (exportClientSide env.engine svc job).effects } := by
      simp [exportVideo, h, checkFileSize, hmax, hle]
    rw [hrun]
    refine ⟨?_, ?_, ?_⟩
    · simp [mode_mem_client, hle]
    · simp [mode_mem_client]
      omega
    · intro r hr
      rw [if_pos hle]
      exact result_mode_client _ _ _ _ hr
  · have hrun : exportVideo env svc job =
        { exportCloudSide env.cloud svc job with
          effects := [Effect.setIsExporting true, Effect.setExportProgress 0] ++
            (exportCloudSide env.cloud svc job).effects } := by
      simp [exportVideo, h, checkFileSize, hmax, hle]
    rw [hrun]
    refine ⟨?_, ?_, ?_⟩
    · simp [mode_mem_cloud, hle]
    · simp [mode_mem_cloud]
      omega
    · intro r hr
      rw [if_neg hle]
      exact result_mode_cloud _ _ _ _ hr

/-- Witness for C7 at the boundary: one clip of exactly 20971520 bytes. -/
theorem exportVideo_routes_by_size_witness :
    calculateTotalSize (fun _ => Except.ok 20971520) sampleJob.videos sampleJob.images =
      .ok 20971520 ∧
    (Effect.setExportMode Mode.client ∈
      (exportVideo { blobSize := fun _ => .ok 20971520 } {} sampleJob).effects ↔
        20971520 ≤ 20971520) :=
  ⟨rfl, (exportVideo_routes_by_size { blobSize := fun _ => .ok 20971520 } {} sampleJob
    20971520 rfl).2.1⟩

/-- C8 (as stated, refuted): when no payload can be measured, `checkFileSize` answers
size `0`, and `exportVideo` does not fail but runs the cloud path and resolves. -/
theorem exportVideo_unmeasured_counterexample :
    calculateTotalSize unreachableEnv.blobSize sampleJob.videos sampleJob.images =
      .error "Failed to fetch" ∧
    (checkFileSize
      (calculateTotalSize unreachableEnv.blobSize sampleJob.videos sampleJob.images)).totalSize
        = 0 ∧
    (exportVideo unreachableEnv {} sampleJob).result =
      .ok { success := true, mode := Mode.cloud } ∧
    (exportVideo unreachableEnv {} sampleJob).effects =
      [Effect.setIsExporting true, Effect.setExportProgress 0,
        Effect.setExportMode Mode.cloud, Effect.setExportProgress 10,
        Effect.setExportProgress 30, Effect.setExportProgress 50,
        Effect.setExportProgress 90, Effect.setExportProgress 100] :=
  ⟨rfl, rfl, rfl, rfl⟩

/-- C8 (amended): when `calculateTotalSize` throws, `checkFileSize` catches the failure
and answers size `0` with `canProcessLocally = false`; `exportVideo` then runs the cloud
path, never the client path, and its outcome is the outcome of the cloud path. -/
theorem exportVideo_unmeasured_goes_cloud (env : Env) (svc : Service) (job : Job)
    (e : String)
    (h : calculateTotalSize env.blobSize job.videos job.images = .error e) :
    checkFileSize (calculateTotalSize env.blobSize job.videos job.images) =
      { totalSize := 0, canProcessLocally := false, sizeMB := 0 } ∧
    exportVideo env svc job =
      { exportCloudSide env.cloud svc job with
        effects := [Effect.setIsExporting true, Effect.setExportProgress 0] ++
          (exportCloudSide env.cloud svc job).effects } ∧
    Effect.setExportMode Mode.client ∉ (exportVideo env svc job).effects ∧
    Effect.setExportMode Mode.cloud ∈ (exportVideo env svc job).effects := by
  have hrun : exportVideo env svc job =
      { exportCloudSide env.cloud svc job with
        effects := [Effect.setIsExporting true, Effect.setExportProgress 0] ++
          (exportCloudSide env.cloud svc job).effects } := by
    simp [exportVideo, h, checkFileSize]
  refine ⟨by simp [h, checkFileSize], hrun, ?_, ?_⟩
  · rw [hrun]; simp [mode_mem_cloud]
  · rw [hrun]; simp [mode_mem_cloud]

/-- Witness for C8 (amended): an environment in which no payload can be measured. -/
theorem exportVideo_unmeasured_goes_cloud_witness :
    calculateTotalSize unreachableEnv.blobSize sampleJob.videos sampleJob.images =
      .error "Failed to fetch" ∧
    Effect.setExportMode Mode.cloud ∈ (exportVideo unreachableEnv {} sampleJob).effects :=
  ⟨rfl, (exportVideo_unmeasured_goes_cloud unreachableEnv {} sampleJob "Failed to fetch"
    rfl).2.2.2⟩

/-! ### Progress values -/

theorem progressValues_append (a b : List Effect) :
    progressValues (a ++ b) = progressValues a ++ progressValues b := by
  simp [progressValues, List.filterMap_append]

theorem progressValues_map (l : List ℤ) :
    progressValues (l.map Effect.setExportProgress) = l := by
  induction l with
  | nil => rfl
  | cons a l ih =>
    simp only [progressValues, List.map_cons, List.filterMap_cons] at ih ⊢
    rw [ih]

theorem processBody_progress (script : EngineScript) (svc : Service) (videos : List Video)
    (images : List Image) (texts : List Text) (canvasWidth canvasHeight : ℚ) :
    (processBody script true svc videos images texts canvasWidth canvasHeight).2.1 <+:
        [10, 25, 40, 50] ++ forwarded script svc ++ [90, 100] ∧
      ((processBody script true svc videos images texts canvasWidth canvasHeight).2.2 = .ok () →
        (processBody script true svc videos images texts canvasWidth canvasHeight).2.1 =
          [10, 25, 40, 50] ++ forwarded script svc ++ [90, 100]) := by
  unfold processBody
  simp only [emit, if_true]
  split
  · exact ⟨⟨[25, 40, 50] ++ forwarded script svc ++ [90, 100], by simp⟩, by simp⟩
  · split
    · exact ⟨⟨[40, 50] ++ forwarded script svc ++ [90, 100], by simp⟩, by simp⟩
    · split
      · exact ⟨⟨[90, 100], by simp⟩, by simp⟩
      · split
        · exact ⟨⟨[100], by simp⟩, by simp⟩
        · exact ⟨⟨[], by simp⟩, by simp⟩

theorem processVideo_progress (script : EngineScript) (svc : Service) (videos : List Video)
    (images : List Image) (texts : List Text) (canvasWidth canvasHeight : ℚ) :
    (processVideo script true svc videos images texts canvasWidth canvasHeight).progress <+:
        [10, 25, 40, 50] ++ forwardedDuring script svc ++ [90, 100] ∧
      (∀ u, (processVideo script true svc videos images texts canvasWidth
          canvasHeight).result = .ok u →
        (processVideo script true svc videos images texts canvasWidth canvasHeight).progress =
          [10, 25, 40, 50] ++ forwardedDuring script svc ++ [90, 100]) := by
  have hsvc : (if (!svc.isLoaded) = true then load script true svc else (svc, Except.ok ())).1 =
      (if svc.isLoaded then svc else (load script true svc).1) := by
    cases svc.isLoaded <;> simp
  unfold processVideo forwardedDuring
  simp only []
  rw [← hsvc]
  generalize (if (!svc.isLoaded) = true then load script true svc else (svc, Except.ok ())) = ld
  obtain ⟨svc1, res⟩ := ld
  cases res with
  | error message => exact ⟨List.nil_prefix, by simp⟩
  | ok u =>
    have hb := processBody_progress script svc1 videos images texts canvasWidth canvasHeight
    dsimp only
    generalize processBody script true svc1 videos images texts canvasWidth canvasHeight = body
      at hb ⊢
    obtain ⟨files, progress, r⟩ := body
    cases r with
    | error message => exact ⟨hb.1, by simp⟩
    | ok u2 => exact ⟨hb.1, fun _ _ => hb.2 rfl⟩

theorem exportVideo_local_progress (env : Env) (svc : Service) (job : Job)
    (hloc : (checkFileSize (calculateTotalSize env.blobSize job.videos
      job.images)).canProcessLocally = true) :
    progressValues (exportVideo env svc job).effects <+:
        [0, 5, 10, 25, 40, 50] ++ forwardedDuring env.engine svc ++ [90, 100, 100] ∧
      (∀ r, (exportVideo env svc job).result = .ok r →
        progressValues (exportVideo env svc job).effects =
          [0, 5, 10, 25, 40, 50] ++ forwardedDuring env.engine svc ++ [90, 100, 100]) := by
  have hp := processVideo_progress env.engine svc job.videos job.images job.texts
    job.canvasWidth job.canvasHeight
  have hrun : exportVideo env svc job =
      { exportClientSide env.engine svc job with
        effects := [Effect.setIsExporting true, Effect.setExportProgress 0] ++
          (exportClientSide env.engine svc job).effects } := by
    simp [exportVideo, hloc]
  rw [hrun]
  unfold exportClientSide
  dsimp only
  generalize processVideo env.engine true svc job.videos job.images job.texts
    job.canvasWidth job.canvasHeight = run at hp ⊢
  obtain ⟨svc1, progress, result⟩ := run
  cases result with
  | ok u =>
    have heq := hp.2 u rfl
    dsimp only at heq ⊢
    subst heq
    simp only [progressValues_append, progressValues_map]
    simp [progressValues]
  | error message =>
    obtain ⟨rest, hrest⟩ := hp.1
    dsimp only at hrest ⊢
    refine ⟨⟨rest ++ [100], ?_⟩, by simp⟩
    simp only [progressValues_append, progressValues_map]
    simp only [progressValues, List.filterMap_cons, List.filterMap_nil]
    have hre : [0] ++ ([5] ++ progress) ++ (rest ++ [100]) =
        [0, 5] ++ (progress ++ rest) ++ [100] := by simp
    rw [hre, hrest]
    simp

theorem exportVideo_cloud_progress (env : Env) (svc : Service) (job : Job)
    (hloc : (checkFileSize (calculateTotalSize env.blobSize job.videos
      job.images)).canProcessLocally = false) :
    progressValues (exportVideo env svc job).effects <+: [0, 10, 30, 50, 90, 100] ∧
      (∀ r, (exportVideo env svc job).result = .ok r →
        progressValues (exportVideo env svc job).effects = [0, 10, 30, 50, 90, 100]) := by
  have hrun : exportVideo env svc job =
      { exportCloudSide env.cloud svc job with
        effects := [Effect.setIsExporting true, Effect.setExportProgress 0] ++
          (exportCloudSide env.cloud svc job).effects } := by
    simp [exportVideo, hloc]
  have hbody : ((cloudBody env.cloud job).2 = .ok () →
        progressValues (cloudBody env.cloud job).1 = [30, 50, 90, 100]) ∧
      progressValues (cloudBody env.cloud job).1 <+: [30, 50, 90, 100] := by
    unfold cloudBody
    repeat' split
    all_goals simp [progressValues]
  rw [hrun]
  unfold exportCloudSide
  dsimp only
  generalize cloudBody env.cloud job = body at hbody ⊢
  obtain ⟨effects, result⟩ := body
  cases result with
  | ok u =>
    have heq := hbody.1 rfl
    dsimp only at heq ⊢
    simp only [progressValues_append, heq]
    simp [progressValues]
  | error message =>
    obtain ⟨rest, hrest⟩ := hbody.2
    dsimp only at hrest ⊢
    refine ⟨⟨rest, ?_⟩, by simp⟩
    simp only [progressValues_append]
    have hre : progressValues [Effect.setIsExporting true, Effect.setExportProgress 0] ++
        (progressValues [Effect.setExportMode Mode.cloud, Effect.setExportProgress 10] ++
          progressValues effects) ++ rest =
        [0, 10] ++ (progressValues effects ++ rest) := by simp [progressValues]
    rw [hre, hrest]
    simp

theorem sorted_local_iff (fwd : List ℤ) :
    ([0, 5, 10, 25, 40, 50] ++ fwd ++ [90, 100, 100]).Sorted (· ≤ ·) ↔
      fwd.Sorted (· ≤ ·) ∧ ∀ v ∈ fwd, 50 ≤ v ∧ v ≤ 90 := by
  simp only [List.Sorted, List.pairwise_append, List.pairwise_cons, List.mem_append,
    List.mem_cons]
  constructor
  · intro h
    refine ⟨h.1.2.1, fun v hv => ⟨?_, ?_⟩⟩
    · exact h.1.2.2 50 (by simp) v hv
    · exact h.2.2 v (Or.inr hv) 90 (by simp)
  · intro h
    refine ⟨⟨by simp, h.1, ?_⟩, by simp, ?_⟩
    · intro a ha b hb
      have := (h.2 b hb).1
      simp at ha
      omega
    · intro a ha b hb
      simp at hb
      rcases ha with ha | ha
      · simp at ha
        omega
      · have := (h.2 a ha).2
        omega

theorem forwarded_range (script : EngineScript) (svc : Service)
    (h : ∀ p ∈ script.execProgress, 0 ≤ p ∧ p ≤ 1) :
    ∀ v ∈ forwarded script svc, 0 ≤ v ∧ v ≤ 100 := by
  intro v hv
  unfold forwarded at hv
  split at hv
  · rw [List.mem_map] at hv
    obtain ⟨p, hp, rfl⟩ := hv
    have hp01 := h p hp
    have hr := fmul_hundred_range p hp01.1 hp01.2
    unfold mathRound
    constructor
    · apply Int.floor_nonneg.2
      linarith
    · have : ⌊fmul p 100 + 1 / 2⌋ < 101 := by
        apply Int.floor_lt.2
        push_cast
        linarith
      omega
  · simp at hv

/-- C9 (as stated, refuted): a successful local export in which the engine reports
progress `1/4` during `exec` passes `50` and then `25` to `setExportProgress`. -/
theorem exportVideo_progress_counterexample :
    (exportVideo quarterEnv {} sampleJob).result =
      .ok { success := true, mode := Mode.client } ∧
    progressValues (exportVideo quarterEnv {} sampleJob).effects =
      [0, 5, 10, 25, 40, 50, 25, 90, 100, 100] ∧
    ¬ (progressValues (exportVideo quarterEnv {} sampleJob).effects).Sorted (· ≤ ·) := by
  have hres : (exportVideo quarterEnv {} sampleJob).result =
      .ok { success := true, mode := Mode.client } := rfl
  have hval : progressValues (exportVideo quarterEnv {} sampleJob).effects =
      [0, 5, 10, 25, 40, 50, 25, 90, 100, 100] := by
    have hfwd : forwardedDuring quarterEnv.engine {} = [mathRound (fmul (1 / 4) 100)] := rfl
    have hround : mathRound (fmul (1 / 4) 100) = 25 := by
      rw [fmul_quarter]
      unfold mathRound
      rw [Int.floor_eq_iff]
      constructor <;> norm_num
    rw [(exportVideo_local_progress quarterEnv {} sampleJob rfl).2 _ hres, hfwd, hround]
    rfl
  refine ⟨hres, hval, ?_⟩
  rw [hval]
  decide

/-- C9 (amended): the milestones the code itself passes to `setExportProgress` are
non-decreasing and end at `100` on success (local: 0, 5, 10, 25, 40, 50, 90, 100, 100;
cloud: 0, 10, 30, 50, 90, 100). The values forwarded from the engine's progress events
are inserted unchanged between the milestones 50 and 90: they lie in `[0, 100]` for
engine progress in `[0, 1]`, and the local sequence is non-decreasing exactly when they
are non-decreasing and lie between 50 and 90. -/
theorem exportVideo_progress_milestones (env : Env) (svc : Service) (job : Job) :
    ((checkFileSize (calculateTotalSize env.blobSize job.videos
        job.images)).canProcessLocally = true →
      progressValues (exportVideo env svc job).effects <+:
        [0, 5, 10, 25, 40, 50] ++ forwardedDuring env.engine svc ++ [90, 100, 100] ∧
      (∀ r, (exportVideo env svc job).result = .ok r →
        progressValues (exportVideo env svc job).effects =
          [0, 5, 10, 25, 40, 50] ++ forwardedDuring env.engine svc ++ [90, 100, 100] ∧
        (progressValues (exportVideo env svc job).effects).getLast? = some 100) ∧
      (([0, 5, 10, 25, 40, 50] ++ forwardedDuring env.engine svc
          ++ [90, 100, 100]).Sorted (· ≤ ·) ↔
        (forwardedDuring env.engine svc).Sorted (· ≤ ·) ∧
          ∀ v ∈ forwardedDuring env.engine svc, 50 ≤ v ∧ v ≤ 90) ∧
      ((forwardedDuring env.engine svc).Sorted (· ≤ ·) →
        (∀ v ∈ forwardedDuring env.engine svc, 50 ≤ v ∧ v ≤ 90) →
        (progressValues (exportVideo env svc job).effects).Sorted (· ≤ ·)) ∧
      ((∀ p ∈ env.engine.execProgress, 0 ≤ p ∧ p ≤ 1) →
        ∀ v ∈ forwardedDuring env.engine svc, 0 ≤ v ∧ v ≤ 100)) ∧
    ((checkFileSize (calculateTotalSize env.blobSize job.videos
        job.images)).canProcessLocally = false →
      progressValues (exportVideo env svc job).effects <+: [0, 10, 30, 50, 90, 100] ∧
      (progressValues (exportVideo env svc job).effects).Sorted (· ≤ ·) ∧
      (∀ r, (exportVideo env svc job).result = .ok r →
        progressValues (exportVideo env svc job).effects = [0, 10, 30, 50, 90, 100] ∧
        (progressValues (exportVideo env svc job).effects).getLast? = some 100)) := by
  refine ⟨fun hloc => ?_, fun hloc => ?_⟩
  · obtain ⟨hpre, heq⟩ := exportVideo_local_progress env svc job hloc
    refine ⟨hpre, ?_, sorted_local_iff _, ?_, ?_⟩
    · intro r hr
      refine ⟨heq r hr, ?_⟩
      rw [heq r hr]
      have : [0, 5, 10, 25, 40, 50] ++ forwardedDuring env.engine svc ++ [90, 100, 100] =
          ([0, 5, 10, 25, 40, 50] ++ forwardedDuring env.engine svc ++ [90, 100]) ++
            [(100 : ℤ)] := by simp
      rw [this]
      exact List.getLast?_concat _
    · intro hs hb
      exact List.Pairwise.sublist hpre.sublist ((sorted_local_iff _).2 ⟨hs, hb⟩)
    · intro h
      exact forwarded_range env.engine _ h
  · obtain ⟨hpre, heq⟩ := exportVideo_cloud_progress env svc job hloc
    refine ⟨hpre, ?_, ?_⟩
    · exact List.Pairwise.sublist hpre.sublist (by decide)
    · intro r hr
      refine ⟨heq r hr, ?_⟩
      rw [heq r hr]
      rfl

/-- Witness for C9 (amended): the sample export, which takes the client path. -/
theorem exportVideo_progress_milestones_witness :
    (checkFileSize (calculateTotalSize quarterEnv.blobSize sampleJob.videos
      sampleJob.images)).canProcessLocally = true ∧
    progressValues (exportVideo quarterEnv {} sampleJob).effects <+:
      [0, 5, 10, 25, 40, 50] ++ forwardedDuring quarterEnv.engine {} ++ [90, 100, 100] :=
  ⟨rfl, ((exportVideo_progress_milestones quarterEnv {} sampleJob).1 rfl).1⟩

/-! ### Workspace cleanup -/

theorem mem_cleanup_fold (entries : List String) :
    ∀ (files : List String) (f : String),
      f ∈ entries.foldl
          (fun files name =>
            if name ≠ "" ∧ name ≠ "." ∧ name ≠ ".." then deleteFile files name else files)
          files ↔
        f ∈ files ∧ ¬ (f ∈ entries ∧ f ≠ "" ∧ f ≠ "." ∧ f ≠ "..") := by
  induction entries with
  | nil => intro files f; simp
  | cons a l ih =>
    intro files f
    rw [List.foldl_cons, ih]
    by_cases hdel : a ≠ "" ∧ a ≠ "." ∧ a ≠ ".."
    · rw [if_pos hdel]
      simp only [deleteFile, List.mem_filter, List.mem_cons, decide_eq_true_eq]
      constructor
      · rintro ⟨⟨hf, hne⟩, hl⟩
        refine ⟨hf, ?_⟩
        rintro ⟨h1 | h1, h2⟩
        · exact hne h1
        · exact hl ⟨h1, h2⟩
      · rintro ⟨hf, hn⟩
        refine ⟨⟨hf, ?_⟩, fun h => hn ⟨Or.inr h.1, h.2⟩⟩
        intro hfa
        exact hn ⟨Or.inl hfa, hfa ▸ hdel⟩
    · rw [if_neg hdel]
      simp only [List.mem_cons]
      constructor
      · rintro ⟨hf, hl⟩
        refine ⟨hf, ?_⟩
        rintro ⟨h1 | h1, h2⟩
        · exact hdel (h1 ▸ h2)
        · exact hl ⟨h1, h2⟩
      · rintro ⟨hf, hn⟩
        exact ⟨hf, fun h => hn ⟨Or.inr h.1, h.2⟩⟩

/-! ### The node list in closed form -/

theorem foldl_addVideo_enumFrom (vs : List Video) :
    ∀ (j : Nat) (st : BuildState), 1 ≤ j → st.currentStream = streamAfterVideos j →
      st.videoInputIndex = j →
      (List.enumFrom j vs).foldl addVideo st =
        { filters := st.filters ++ (List.enumFrom j vs).flatMap (fun iv => videoPair iv.1 iv.2)
          currentStream := streamAfterVideos (j + vs.length)
          videoInputIndex := j + vs.length } := by
  induction vs with
  | nil =>
    intro j st _ hc hv
    cases st
    simp_all
  | cons v vs ih =>
    intro j st hj hc hv
    have hnext : streamAfterVideos (j + 1) = "v" ++ toString j := by
      unfold streamAfterVideos
      rw [if_neg (by omega)]
      simp
    rw [List.enumFrom_cons, List.foldl_cons,
      ih (j + 1) (addVideo st (j, v)) (by omega) (by simp [addVideo, hnext])
        (by simp [addVideo, hv])]
    simp [addVideo, videoPair, hc, hv, Nat.add_assoc, Nat.add_comm 1]

theorem foldl_addImage_enumFrom (n : Nat) (is : List Image) :
    ∀ (j : Nat) (st : BuildState), st.currentStream = streamAfterImages n j →
      st.videoInputIndex = 1 + (n - 1) →
      (List.enumFrom j is).foldl addImage st =
        { filters := st.filters ++
            (List.enumFrom j is).flatMap (fun ii => imagePair n ii.1 ii.2)
          currentStream := streamAfterImages n (j + is.length)
          videoInputIndex := 1 + (n - 1) } := by
  induction is with
  | nil =>
    intro j st hc hv
    cases st
    simp_all
  | cons a is ih =>
    intro j st hc hv
    have hnext : streamAfterImages n (j + 1) = "img" ++ toString j := by
      unfold streamAfterImages
      rw [if_neg (by omega)]
      simp
    rw [List.enumFrom_cons, List.foldl_cons,
      ih (j + 1) (addImage st (j, a)) (by simp [addImage, hnext]) (by simp [addImage, hv])]
    simp [addImage, imagePair, hc, hv, Nat.add_assoc, Nat.add_comm 1]

theorem foldl_addText_enumFrom (n m k : Nat) (ts : List Text) :
    ∀ (j : Nat) (st : BuildState), st.currentStream = streamAfterTexts n m k j →
      (List.enumFrom j ts).foldl (addText n m k) st =
        { filters := st.filters ++
            (List.enumFrom j ts).map (fun it => textNode n m k it.1 it.2)
          currentStream := streamAfterTexts n m k (j + ts.length)
          videoInputIndex := st.videoInputIndex } := by
  induction ts with
  | nil =>
    intro j st hc
    cases st
    simp_all
  | cons a ts ih =>
    intro j st hc
    have hnext : streamAfterTexts n m k (j + 1) = textLabel n m k j := by
      unfold streamAfterTexts
      rw [if_neg (by omega)]
      simp
    rw [List.enumFrom_cons, List.foldl_cons,
      ih (j + 1) (addText n m k st (j, a)) (by simp [addText, hnext])]
    simp [addText, textNode, hc, Nat.add_assoc, Nat.add_comm 1]

/-- The node list of `buildFilterComplex`, entry by entry. -/
theorem buildFilterComplex_eq (videos : List Video) (images : List Image)
    (texts : List Text) (canvasWidth canvasHeight : ℚ) :
    buildFilterComplex videos images texts canvasWidth canvasHeight =
      baseNode canvasWidth canvasHeight ::
        ((videos.enum.drop 1).flatMap (fun iv => videoPair iv.1 iv.2)
          ++ images.enum.flatMap (fun ii => imagePair videos.length ii.1 ii.2)
          ++ texts.enum.map
            (fun it => textNode videos.length images.length texts.length it.1 it.2))
        ++ closingNodes videos.length images.length texts.length := by
  have hdrop : videos.enum.drop 1 = List.enumFrom 1 (videos.drop 1) := by
    cases videos <;> simp [List.enum]
  have hlen : 1 + (videos.drop 1).length = 1 + (videos.length - 1) := by simp
  have hsv : streamAfterVideos (1 + (videos.length - 1)) = streamAfterVideos videos.length := by
    cases videos with
    | nil => simp [streamAfterVideos]
    | cons v vs =>
      have : 1 + ((v :: vs).length - 1) = (v :: vs).length := by simp [Nat.add_comm]
      rw [this]
  unfold buildFilterComplex
  simp only [hdrop]
  rw [foldl_addVideo_enumFrom (videos.drop 1) 1 _ (le_refl 1) rfl rfl]
  simp only [List.enum]
  rw [foldl_addImage_enumFrom videos.length images 0 _
    (by simp [streamAfterImages, hlen, hsv]) (by simp)]
  rw [foldl_addText_enumFrom videos.length images.length texts.length texts 0 _
    (by simp [streamAfterTexts])]
  simp only [Nat.zero_add, closingNodes, baseNode]
  split <;> simp

theorem length_flatMap_pairs {α : Type} (f : α → List Node) (hf : ∀ a, (f a).length = 2)
    (l : List α) : (l.flatMap f).length = 2 * l.length := by
  induction l with
  | nil => rfl
  | cons a l ih =>
    rw [List.flatMap_cons, List.length_append, hf, ih, List.length_cons]
    omega

theorem closingNodes_length (n m k : Nat) : (closingNodes n m k).length ≤ 1 := by
  unfold closingNodes
  split <;> simp

/-- C13: with exactly one clip, no images and no texts, `buildFilterComplex` returns
two nodes: the scale node from `[0:v]` to the canvas size labelled `base`, then the
pass-through node `[base]copy[outv]`. -/
theorem buildFilterComplex_single_clip (video : Video) (canvasWidth canvasHeight : ℚ)
    (num : ℚ → String) :
    buildFilterComplex [video] [] [] canvasWidth canvasHeight =
      [ { inputs := ["0:v"], operation := .scale canvasWidth canvasHeight true,
          output := "base" },
        { inputs := ["base"], operation := .copy, output := "outv" } ] ∧
    (buildFilterComplex [video] [] [] canvasWidth canvasHeight).map (Node.render num) =
      [ "[0:v]" ++ ("scale=" ++ num canvasWidth ++ ":" ++ num canvasHeight ++ ",setsar=1")
          ++ "[base]",
        "[base]copy[outv]" ] := by
  have h : buildFilterComplex [video] [] [] canvasWidth canvasHeight =
      [ { inputs := ["0:v"], operation := .scale canvasWidth canvasHeight true,
          output := "base" },
        { inputs := ["base"], operation := .copy, output := "outv" } ] := rfl
  refine ⟨h, ?_⟩
  rw [h]
  simp only [List.map_cons, List.map_nil, Node.render, Operation.render, if_true]
  refine congrArg₂ _ ?_ (congrArg₂ _ ?_ rfl)
  · apply String.ext
    simp [String.join, String.data_append]
  · decide

/-- C14: for `n ≥ 1` clips, `m` images and `k` texts the node list is, in order, the base
scale node, a scale and an overlay node for every additional clip, a scale and an
overlay node for every image, one drawtext node for every text, then at most one copy
node: `1 + 2 (n - 1) + 2 m + k` nodes plus the copy node when present. -/
theorem buildFilterComplex_layout (videos : List Video) (images : List Image)
    (texts : List Text) (canvasWidth canvasHeight : ℚ) (_h : 1 ≤ videos.length) :
    buildFilterComplex videos images texts canvasWidth canvasHeight =
      baseNode canvasWidth canvasHeight ::
        ((videos.enum.drop 1).flatMap (fun iv => videoPair iv.1 iv.2)
          ++ images.enum.flatMap (fun ii => imagePair videos.length ii.1 ii.2)
          ++ texts.enum.map
            (fun it => textNode videos.length images.length texts.length it.1 it.2))
        ++ closingNodes videos.length images.length texts.length ∧
    (closingNodes videos.length images.length texts.length = [] ∨
      ∃ cur, closingNodes videos.length images.length texts.length =
        [ { inputs := [cur], operation := .copy, output := "outv" } ]) ∧
    (buildFilterComplex videos images texts canvasWidth canvasHeight).length =
      1 + 2 * (videos.length - 1) + 2 * images.length + texts.length
        + (closingNodes videos.length images.length texts.length).length ∧
    (closingNodes videos.length images.length texts.length).length ≤ 1 := by
  refine ⟨buildFilterComplex_eq videos images texts canvasWidth canvasHeight, ?_, ?_,
    closingNodes_length _ _ _⟩
  · unfold closingNodes
    split
    · exact Or.inr ⟨_, rfl⟩
    · exact Or.inl rfl
  · rw [buildFilterComplex_eq]
    simp only [List.length_cons, List.length_append, List.length_map, List.enum_length]
    rw [length_flatMap_pairs (fun iv : Nat × Video => videoPair iv.1 iv.2) (fun _ => rfl),
      length_flatMap_pairs (fun ii : Nat × Image => imagePair videos.length ii.1 ii.2)
        (fun _ => rfl)]
    simp only [List.length_drop, List.enum_length]
    omega

/-- Witness for C14: two clips, one image, one text. -/
theorem buildFilterComplex_layout_witness :
    1 ≤ ([{}, {}] : List Video).length ∧
    (buildFilterComplex [{}, {}] [{}] [{}] 640 360).length =
      1 + 2 * (([{}, {}] : List Video).length - 1) + 2 * ([{}] : List Image).length
        + ([{}] : List Text).length + (closingNodes 2 1 1).length :=
  ⟨by decide, (buildFilterComplex_layout [{}, {}] [{}] [{}] 640 360 (by decide)).2.2.1⟩

/-! ### Geometry and gates -/

theorem images_enum_split (n : Nat) (before after : List Image) (img : Image) :
    (before ++ img :: after).enum.flatMap (fun ii => imagePair n ii.1 ii.2) =
      before.enum.flatMap (fun ii => imagePair n ii.1 ii.2)
        ++ imagePair n before.length img
        ++ (List.enumFrom (before.length + 1) after).flatMap
          (fun ii => imagePair n ii.1 ii.2) := by
  rw [List.enum_append, List.enumFrom_cons, List.flatMap_append, List.flatMap_cons,
    List.append_assoc]

theorem texts_enum_split (n m k : Nat) (before after : List Text) (text : Text) :
    (before ++ text :: after).enum.map (fun it => textNode n m k it.1 it.2) =
      before.enum.map (fun it => textNode n m k it.1 it.2)
        ++ textNode n m k before.length text
        :: (List.enumFrom (before.length + 1) after).map
          (fun it => textNode n m k it.1 it.2) := by
  rw [List.enum_append, List.enumFrom_cons, List.map_append, List.map_cons]

theorem scenarioB_nodes (canvasWidth canvasHeight : ℚ) :
    buildFilterComplex [{}] [scenarioImage] [] canvasWidth canvasHeight =
      [ baseNode canvasWidth canvasHeight,
        { inputs := ["1:v"], operation := .scale 50 50 false, output := "scaled_img0" },
        { inputs := ["base", "scaled_img0"], operation := .overlay 75 75 2 5,
          output := "img0" },
        { inputs := ["img0"], operation := .copy, output := "outv" } ] := by
  have h1 : toString 1 ++ ":v" = "1:v" := by decide
  have h2 : "scaled_img" ++ toString 0 = "scaled_img0" := by decide
  have h3 : "img" ++ toString 0 = "img0" := by decide
  rw [buildFilterComplex_eq]
  simp [List.enum, videoPair, imagePair, closingNodes, streamAfterTexts, streamAfterImages,
    streamAfterVideos, baseNode, scenarioImage, h1, h2, h3]
  norm_num

/-- C12: for every image overlay `i`, `buildFilterComplex` emits a scale node to
`width:height` labelled `scaled_img<i>` followed by an overlay node placed at exactly
`(x - width/2, y - height/2)`, for all values (no clamping), gated by the window
`(startTime, endTime)`; for centre (100, 100), size 50 by 50 and window 2..5 the
placement is 75:75 and the gate is `between(t,2,5)`. -/
theorem buildFilterComplex_image_overlay (videos : List Video) (before after : List Image)
    (img : Image) (texts : List Text) (canvasWidth canvasHeight : ℚ) (num : ℚ → String) :
    (∃ pre post cur,
      buildFilterComplex videos (before ++ img :: after) texts canvasWidth canvasHeight =
        pre ++
          [ { inputs := [toString (1 + (videos.length - 1) + before.length) ++ ":v"]
              operation := .scale img.width img.height false
              output := "scaled_img" ++ toString before.length },
            { inputs := [cur, "scaled_img" ++ toString before.length]
              operation := .overlay (img.x - img.width / 2) (img.y - img.height / 2)
                img.startTime img.endTime
              output := "img" ++ toString before.length } ] ++ post ∧
      pre.length = 1 + 2 * (videos.length - 1) + 2 * before.length) ∧
    buildFilterComplex [{}] [scenarioImage] [] canvasWidth canvasHeight =
      [ baseNode canvasWidth canvasHeight,
        { inputs := ["1:v"], operation := .scale 50 50 false, output := "scaled_img0" },
        { inputs := ["base", "scaled_img0"], operation := .overlay 75 75 2 5,
          output := "img0" },
        { inputs := ["img0"], operation := .copy, output := "outv" } ] ∧
    Operation.render num (.overlay 75 75 2 5) =
      "overlay=" ++ num 75 ++ ":" ++ num 75 ++ ":enable='between(t," ++ num 2 ++ ","
        ++ num 5 ++ ")'" := by
  refine ⟨?_, ?_, rfl⟩
  · refine ⟨baseNode canvasWidth canvasHeight ::
        ((videos.enum.drop 1).flatMap (fun iv => videoPair iv.1 iv.2)
          ++ before.enum.flatMap (fun ii => imagePair videos.length ii.1 ii.2)),
      (List.enumFrom (before.length + 1) after).flatMap
          (fun ii => imagePair videos.length ii.1 ii.2)
        ++ texts.enum.map (fun it =>
          textNode videos.length (before ++ img :: after).length texts.length it.1 it.2)
        ++ closingNodes videos.length (before ++ img :: after).length texts.length,
      streamAfterImages videos.length before.length, ?_, ?_⟩
    · rw [buildFilterComplex_eq, images_enum_split]
      simp [imagePair, List.append_assoc]
    · simp only [List.length_cons, List.length_append]
      rw [length_flatMap_pairs (fun iv : Nat × Video => videoPair iv.1 iv.2) (fun _ => rfl),
        length_flatMap_pairs (fun ii : Nat × Image => imagePair videos.length ii.1 ii.2)
          (fun _ => rfl)]
      simp only [List.length_drop, List.enum_length]
      omega
  · exact scenarioB_nodes canvasWidth canvasHeight

/-- The position of a text centred at `x = 0.7` with width `0.4`: the Numbers are the
binary64 values nearest to `0.7` and `0.4`, the difference is just below `0.5`, and it is
rounded to `0`. -/
theorem position_rounds_double : mathRound (fsub (7 / 10) (fdiv (4 / 10) 2)) = 0 :=
  position_seven_tenths

/-- C16 (as stated, refuted): for a text centred at (200, 100) with width 0 and height 0
the drawtext node is placed at (150, 75), while `round(x - width/2)` is 200 and
`round(y - height/2)` is 100. -/
theorem drawtext_position_counterexample :
    (buildFilterComplex [{}] [] [zeroSizeText] 640 360).map Node.operation =
      [.scale 640 360 true, .drawtext "" 24 "FFFFFF" 150 75 0 0] ∧
    zeroSizeText.width = some 0 ∧ zeroSizeText.height = some 0 ∧
    mathRound (zeroSizeText.x - 0 / 2) = 200 ∧ mathRound (zeroSizeText.y - 0 / 2) = 100 := by
  have hx : mathRound (fsub 200 (fdiv 100 2)) = 150 := by
    have h := fsub_fdiv_two 200 100 (by norm_num) (by norm_num)
    norm_num at h
    rw [h]
    unfold mathRound
    rw [Int.floor_eq_iff]
    constructor <;> norm_num
  have hy : mathRound (fsub 100 (fdiv 50 2)) = 75 := by
    have h := fsub_fdiv_two 100 50 (by norm_num) (by norm_num)
    norm_num at h
    rw [h]
    unfold mathRound
    rw [Int.floor_eq_iff]
    constructor <;> norm_num
  have hx0 : mathRound (200 - 0 / 2) = 200 := by
    unfold mathRound
    rw [Int.floor_eq_iff]
    constructor <;> norm_num
  have hy0 : mathRound (100 - 0 / 2) = 100 := by
    unfold mathRound
    rw [Int.floor_eq_iff]
    constructor <;> norm_num
  have he : escapeText "" = "" := by decide
  have hc : replaceFirst '#' "" "#FFFFFF" = "FFFFFF" := by decide
  refine ⟨?_, rfl, rfl, hx0, hy0⟩
  rw [buildFilterComplex_eq]
  simp [List.enum, textNode, closingNodes, streamAfterTexts, textLabel, baseNode,
    zeroSizeText, orNumber, orString, he, hc, hx, hy]

/-- C16 (amended): the drawtext node of every text overlay has `x = Math.round(x - w/2)`
and `y = Math.round(y - h/2)` in binary64 arithmetic (the quotient and the difference are
each rounded to the nearest Number), where `w` is the width of the overlay when it is
present and not 0 and 100 otherwise, and `h` is its height when it is present and not 0
and 50 otherwise; for integers `x`, `w`, `y`, `h` below `2 ^ 51` in magnitude the
arithmetic is exact, so the position is `round(x - w/2)`, `round(y - h/2)` with halves
rounded up. -/
theorem buildFilterComplex_text_position (videos : List Video) (images : List Image)
    (before after : List Text) (text : Text) (canvasWidth canvasHeight : ℚ) :
    (∃ pre post nd escapedText fontsize fontcolor,
      buildFilterComplex videos images (before ++ text :: after) canvasWidth canvasHeight =
        pre ++ nd :: post ∧
      pre.length = 1 + 2 * (videos.length - 1) + 2 * images.length + before.length ∧
      nd.operation = .drawtext escapedText fontsize fontcolor
        (mathRound (fsub text.x (fdiv (orNumber text.width 100) 2)))
        (mathRound (fsub text.y (fdiv (orNumber text.height 50) 2)))
        text.startTime text.endTime) ∧
    (∀ w, text.width = some w → w ≠ 0 → orNumber text.width 100 = w) ∧
    (text.width = none ∨ text.width = some 0 → orNumber text.width 100 = 100) ∧
    (∀ h, text.height = some h → h ≠ 0 → orNumber text.height 50 = h) ∧
    (text.height = none ∨ text.height = some 0 → orNumber text.height 50 = 50) ∧
    (∀ a w : ℤ, |a| < 2 ^ 51 → |w| < 2 ^ 51 → text.x = a → orNumber text.width 100 = w →
      mathRound (fsub text.x (fdiv (orNumber text.width 100) 2)) =
        mathRound ((a : ℚ) - w / 2)) ∧
    (∀ a h : ℤ, |a| < 2 ^ 51 → |h| < 2 ^ 51 → text.y = a → orNumber text.height 50 = h →
      mathRound (fsub text.y (fdiv (orNumber text.height 50) 2)) =
        mathRound ((a : ℚ) - h / 2)) := by
  refine ⟨?_, ?_, ?_, ?_, ?_, ?_, ?_⟩
  · refine ⟨baseNode canvasWidth canvasHeight ::
        ((videos.enum.drop 1).flatMap (fun iv => videoPair iv.1 iv.2)
          ++ images.enum.flatMap (fun ii => imagePair videos.length ii.1 ii.2)
          ++ before.enum.map (fun it =>
            textNode videos.length images.length (before ++ text :: after).length it.1 it.2)),
      (List.enumFrom (before.length + 1) after).map (fun it =>
            textNode videos.length images.length (before ++ text :: after).length it.1 it.2)
        ++ closingNodes videos.length images.length (before ++ text :: after).length,
      textNode videos.length images.length (before ++ text :: after).length before.length text,
      _, _, _, ?_, ?_, rfl⟩
    · rw [buildFilterComplex_eq, texts_enum_split]
      simp [List.append_assoc]
    · simp only [List.length_cons, List.length_append, List.length_map, List.enum_length]
      rw [length_flatMap_pairs (fun iv : Nat × Video => videoPair iv.1 iv.2) (fun _ => rfl),
        length_flatMap_pairs (fun ii : Nat × Image => imagePair videos.length ii.1 ii.2)
          (fun _ => rfl)]
      simp only [List.length_drop, List.enum_length]
      omega
  · intro w hw h0
    simp [orNumber, hw, h0]
  · rintro (hw | hw) <;> simp [orNumber, hw]
  · intro h hh h0
    simp [orNumber, hh, h0]
  · rintro (hh | hh) <;> simp [orNumber, hh]
  · intro a w ha hw hx hwidth
    rw [hx, hwidth, fsub_fdiv_two a w ha hw]
  · intro a h ha hh hy hheight
    rw [hy, hheight, fsub_fdiv_two a h ha hh]

/-- Witness for C16 (amended): a text at `x = 200` of width 40 keeps its own width and is
placed at `x = 180`. -/
theorem buildFilterComplex_text_position_witness :
    ({ x := 200, width := some 40 } : Text).width = some 40 ∧ (40 : ℚ) ≠ 0 ∧
    orNumber ({ x := 200, width := some 40 } : Text).width 100 = 40 ∧
    mathRound (fsub ({ x := 200, width := some 40 } : Text).x
      (fdiv (orNumber ({ x := 200, width := some 40 } : Text).width 100) 2)) =
        mathRound (((200 : ℤ) : ℚ) - (40 : ℤ) / 2) :=
  ⟨rfl, by norm_num,
    (buildFilterComplex_text_position [{}] [] [] [] { x := 200, width := some 40 } 640
      360).2.1 40 rfl (by norm_num),
    (buildFilterComplex_text_position [{}] [] [] [] { x := 200, width := some 40 } 640
      360).2.2.2.2.2.1 200 40 (by norm_num) (by norm_num) (by simp)
      (by simp [orNumber])⟩

theorem enabledAt_iff (op : Operation) (s e t : ℚ) (h : op.window = some (s, e)) :
    op.enabledAt t = true ↔ s ≤ t ∧ t ≤ e := by
  unfold Operation.enabledAt
  rw [h]
  simp [between]

/-- C11 (as stated, refuted): the overlay node of an image with window 2..5 is enabled
at render time 5, the end of its window. -/
theorem gate_at_endTime_counterexample :
    ∃ nd ∈ buildFilterComplex [{}] [scenarioImage] [] 640 360,
      nd.output = "img0" ∧
      nd.operation.window = some (scenarioImage.startTime, scenarioImage.endTime) ∧
      nd.operation.enabledAt scenarioImage.endTime = true := by
  rw [scenarioB_nodes]
  refine ⟨({ inputs := ["base", "scaled_img0"]
             operation := .overlay 75 75 2 5
             output := "img0" } : Node), by simp, rfl, rfl, ?_⟩
  rw [enabledAt_iff (.overlay 75 75 2 5) 2 5 scenarioImage.endTime rfl]
  simp only [scenarioImage]
  norm_num

/-- C11 (amended): every overlay clip, image overlay and text overlay gets a node whose
gate is `between(t,startTime,endTime)` with its own window, and the gate of every node
is true at render time `t` exactly when `startTime ≤ t ≤ endTime`; in particular it is
true at `t = endTime` when `startTime ≤ endTime`. -/
theorem gate_closed_window (videos : List Video) (images : List Image) (texts : List Text)
    (canvasWidth canvasHeight : ℚ) :
    (∀ iv ∈ videos.enum.drop 1,
      ∃ nd ∈ buildFilterComplex videos images texts canvasWidth canvasHeight,
        nd.output = "v" ++ toString iv.1 ∧
        nd.operation.window = some (iv.2.startTime, iv.2.endTime)) ∧
    (∀ ii ∈ images.enum,
      ∃ nd ∈ buildFilterComplex videos images texts canvasWidth canvasHeight,
        nd.output = "img" ++ toString ii.1 ∧
        nd.operation.window = some (ii.2.startTime, ii.2.endTime)) ∧
    (∀ it ∈ texts.enum,
      ∃ nd ∈ buildFilterComplex videos images texts canvasWidth canvasHeight,
        nd.output = textLabel videos.length images.length texts.length it.1 ∧
        nd.operation.window = some (it.2.startTime, it.2.endTime)) ∧
    (∀ nd ∈ buildFilterComplex videos images texts canvasWidth canvasHeight,
      ∀ s e t, nd.operation.window = some (s, e) →
        ((nd.operation.enabledAt t = true ↔ s ≤ t ∧ t ≤ e) ∧
          (s ≤ e → nd.operation.enabledAt e = true))) := by
  refine ⟨?_, ?_, ?_, ?_⟩
  · intro iv hiv
    refine ⟨{ inputs := [streamAfterVideos iv.1, "scaled_v" ++ toString iv.1]
              operation := .overlay (iv.2.x - iv.2.width / 2) (iv.2.y - iv.2.height / 2)
                iv.2.startTime iv.2.endTime
              output := "v" ++ toString iv.1 }, ?_, rfl, rfl⟩
    rw [buildFilterComplex_eq]
    exact List.mem_append_left _ (List.mem_cons_of_mem _ (List.mem_append_left _
      (List.mem_append_left _ (List.mem_flatMap.2 ⟨iv, hiv, by simp [videoPair]⟩))))
  · intro ii hii
    refine ⟨{ inputs := [streamAfterImages videos.length ii.1, "scaled_img" ++ toString ii.1]
              operation := .overlay (ii.2.x - ii.2.width / 2) (ii.2.y - ii.2.height / 2)
                ii.2.startTime ii.2.endTime
              output := "img" ++ toString ii.1 }, ?_, rfl, rfl⟩
    rw [buildFilterComplex_eq]
    exact List.mem_append_left _ (List.mem_cons_of_mem _ (List.mem_append_left _
      (List.mem_append_right _ (List.mem_flatMap.2 ⟨ii, hii, by simp [imagePair]⟩))))
  · intro it hit
    refine ⟨textNode videos.length images.length texts.length it.1 it.2, ?_, rfl, rfl⟩
    rw [buildFilterComplex_eq]
    exact List.mem_append_left _ (List.mem_cons_of_mem _ (List.mem_append_right _
      (List.mem_map.2 ⟨it, hit, rfl⟩)))
  · intro nd _ s e t hw
    refine ⟨enabledAt_iff _ s e t hw, fun hse => ?_⟩
    rw [enabledAt_iff _ s e e hw]
    exact ⟨hse, le_refl e⟩

/-- Witness for C11 (amended): the image overlay of scenario B. -/
theorem gate_closed_window_witness :
    ((0, scenarioImage) : Nat × Image) ∈ [scenarioImage].enum ∧
    ∃ nd ∈ buildFilterComplex [{}] [scenarioImage] [] 640 360,
      nd.output = "img" ++ toString 0 ∧
      nd.operation.window = some (scenarioImage.startTime, scenarioImage.endTime) :=
  ⟨by simp [List.enum],
    (gate_closed_window [{}] [scenarioImage] [] 640 360).2.1 (0, scenarioImage)
      (by simp [List.enum])⟩

/-! ### The chain invariant -/

theorem toDigitsCore_mem (fuel : Nat) :
    ∀ (n : Nat) (ds : List Char) (c : Char), c ∈ Nat.toDigitsCore 10 fuel n ds →
      c ∈ ds ∨ ∃ d, d < 10 ∧ c = Nat.digitChar d := by
  induction fuel with
  | zero => intro n ds c h; exact Or.inl (by simpa [Nat.toDigitsCore] using h)
  | succ fuel ih =>
    intro n ds c h
    rw [Nat.toDigitsCore] at h
    by_cases h0 : n / 10 = 0
    · simp only [h0, if_true, List.mem_cons] at h
      rcases h with h | h
      · exact Or.inr ⟨n % 10, Nat.mod_lt _ (by decide), h⟩
      · exact Or.inl h
    · simp only [h0, if_false] at h
      rcases ih _ _ c h with h | h
      · rw [List.mem_cons] at h
        rcases h with h | h
        · exact Or.inr ⟨n % 10, Nat.mod_lt _ (by decide), h⟩
        · exact Or.inl h
      · exact Or.inr h

theorem toString_nat_digit (j : Nat) (c : Char) (h : c ∈ (toString j).data) :
    ∃ d, d < 10 ∧ c = Nat.digitChar d := by
  have h2 : c ∈ Nat.toDigits 10 j := by
    simpa [toString, Nat.repr, List.asString] using h
  unfold Nat.toDigits at h2
  rcases toDigitsCore_mem _ _ _ _ h2 with h3 | h3
  · simp at h3
  · exact h3

theorem Label.str_ne_streamRef (lab : Label) : ¬ isStreamRef lab.str := by
  rintro ⟨j, h⟩
  have hdata := congrArg String.data h
  rw [String.data_append] at hdata
  have hdig := toString_nat_digit j
  rcases hj : (toString j).data with _ | ⟨c, cs⟩
  · rw [hj] at hdata
    cases lab <;> simp [Label.str, String.data_append] at hdata
  · rw [hj] at hdata hdig
    obtain ⟨d, hd, hc⟩ := hdig c (List.mem_cons_self _ _)
    have hletter : c = 'b' ∨ c = 's' ∨ c = 'v' ∨ c = 'i' ∨ c = 't' ∨ c = 'o' := by
      cases lab <;> simp [Label.str, String.data_append] at hdata <;> simp [← hdata.1]
    rw [hc] at hletter
    interval_cases d <;> simp [Nat.digitChar] at hletter

theorem inputsResolved_append (a : List Node) :
    ∀ (seen : List String) (b : List Node),
      inputsResolved seen (a ++ b) ↔
        inputsResolved seen a ∧ inputsResolved (seen ++ outputLabels a) b := by
  induction a with
  | nil => intro seen b; simp [inputsResolved, outputLabels]
  | cons nd a ih =>
    intro seen b
    show inputsResolved seen (nd :: (a ++ b)) ↔ _
    simp only [inputsResolved]
    rw [ih]
    simp [outputLabels, List.append_assoc, and_assoc]

theorem inputsResolved_split (seen : List String) (pre post : List Node) (nd : Node)
    (h : inputsResolved seen (pre ++ nd :: post)) :
    ∀ l ∈ nd.inputs, isStreamRef l ∨ l ∈ seen ++ outputLabels pre :=
  ((inputsResolved_append pre seen (nd :: post)).1 h).2.1

theorem chainInv_pair (filters : List Node) (cur sl nxt : String) (j : Nat)
    (w h x y s e : ℚ) (hinv : ChainInv filters)
    (hcur : (outputLabels filters).getLast? = some cur) :
    ChainInv (filters ++
      [ { inputs := [toString j ++ ":v"], operation := .scale w h false, output := sl },
        { inputs := [cur, sl], operation := .overlay x y s e, output := nxt } ]) := by
  obtain ⟨h1, h2, h3⟩ := hinv
  have hmem : cur ∈ outputLabels filters := List.mem_of_getLast?_eq_some hcur
  refine ⟨?_, ?_, ?_⟩
  · rw [inputsResolved_append]
    refine ⟨h1, ?_⟩
    simp only [inputsResolved, and_true]
    refine ⟨?_, ?_⟩
    · intro l hl
      have : l = toString j ++ ":v" := by simpa using hl
      exact Or.inl ⟨j, this⟩
    · intro l hl
      have : l = cur ∨ l = sl := by simpa using hl
      refine Or.inr ?_
      rcases this with rfl | rfl
      · simp [hmem]
      · simp
  · have hsplit := List.dropLast_append_getLast? cur hcur
    have hout : outputLabels (filters ++
        [ { inputs := [toString j ++ ":v"], operation := .scale w h false, output := sl },
          { inputs := [cur, sl], operation := .overlay x y s e, output := nxt } ]) =
        (outputLabels filters ++ [sl]) ++ [nxt] := by
      simp [outputLabels]
    rw [hout, List.dropLast_concat, List.flatMap_append, h2, ← hsplit]
    simp [Node.labelInputs]
  · intro nd hnd l hl
    rw [List.mem_append] at hnd
    rcases hnd with hnd | hnd
    · exact h3 nd hnd l hl
    · simp only [List.mem_cons, List.mem_singleton, List.not_mem_nil, or_false] at hnd
      rcases hnd with rfl | rfl
      · exact Or.inr ⟨j, by simpa using hl⟩
      · exact Or.inl (by simpa [Node.labelInputs] using hl)

theorem chainInv_single (filters : List Node) (cur nxt : String) (op : Operation)
    (hop : ({ inputs := [cur], operation := op, output := nxt } : Node).labelInputs = [cur])
    (hinv : ChainInv filters) (hcur : (outputLabels filters).getLast? = some cur) :
    ChainInv (filters ++ [ { inputs := [cur], operation := op, output := nxt } ]) := by
  obtain ⟨h1, h2, h3⟩ := hinv
  have hmem : cur ∈ outputLabels filters := List.mem_of_getLast?_eq_some hcur
  refine ⟨?_, ?_, ?_⟩
  · rw [inputsResolved_append]
    refine ⟨h1, ?_⟩
    simp only [inputsResolved, and_true]
    intro l hl
    have : l = cur := by simpa using hl
    exact Or.inr (by simp [this, hmem])
  · have hsplit := List.dropLast_append_getLast? cur hcur
    have hout : outputLabels (filters ++
        [ { inputs := [cur], operation := op, output := nxt } ]) =
        outputLabels filters ++ [nxt] := by
      simp [outputLabels]
    rw [hout, List.dropLast_concat, List.flatMap_append, h2, ← hsplit]
    simp [hop]
  · intro nd hnd l hl
    rw [List.mem_append] at hnd
    rcases hnd with hnd | hnd
    · exact h3 nd hnd l hl
    · rw [List.mem_singleton] at hnd
      subst hnd
      exact Or.inl (by rw [hop]; exact hl)

theorem foldl_invariant {α : Type} (P : BuildState → Prop) (f : BuildState → α → BuildState)
    (hf : ∀ st a, P st → P (f st a)) (l : List α) :
    ∀ st : BuildState, P st → P (l.foldl f st) := by
  induction l with
  | nil => intro st h; exact h
  | cons a l ih => intro st h; exact ih _ (hf st a h)

theorem buildFilterComplex_chainInv (videos : List Video) (images : List Image)
    (texts : List Text) (canvasWidth canvasHeight : ℚ) :
    ChainInv (buildFilterComplex videos images texts canvasWidth canvasHeight) := by
  have h0 : ChainInv [baseNode canvasWidth canvasHeight] ∧
      ({ filters := [baseNode canvasWidth canvasHeight], currentStream := "base",
         videoInputIndex := 1 } : BuildState).Tracks := by
    refine ⟨⟨?_, rfl, ?_⟩, rfl⟩
    · simp only [inputsResolved, and_true]
      intro l hl
      exact Or.inl ⟨0, by simpa [baseNode] using hl⟩
    · intro nd hnd l hl
      rw [List.mem_singleton] at hnd
      subst hnd
      exact Or.inr ⟨0, by simpa [baseNode] using hl⟩
  have h1 := foldl_invariant (fun st => ChainInv st.filters ∧ st.Tracks) addVideo
    (fun st iv h => ⟨chainInv_pair _ _ _ _ _ _ _ _ _ _ _ h.1 h.2, tracks_addVideo st iv⟩)
    (videos.enum.drop 1)
    { filters := [baseNode canvasWidth canvasHeight], currentStream := "base",
      videoInputIndex := 1 } h0
  have h2 := foldl_invariant (fun st => ChainInv st.filters ∧ st.Tracks) addImage
    (fun st ii h => ⟨chainInv_pair _ _ _ _ _ _ _ _ _ _ _ h.1 h.2, tracks_addImage st ii⟩)
    images.enum _ h1
  have h3 := foldl_invariant (fun st => ChainInv st.filters ∧ st.Tracks)
    (addText videos.length images.length texts.length)
    (fun st it h => ⟨chainInv_single _ _ _ _ rfl h.1 h.2, tracks_addText _ _ _ st it⟩)
    texts.enum _ h2
  unfold buildFilterComplex
  dsimp only
  split
  · exact chainInv_single _ _ _ _ rfl h3.1 h3.2
  · exact h3.1

theorem count_consumed_eq (o : String) (ho : ¬ isStreamRef o) (nodes : List Node)
    (h : ∀ nd ∈ nodes, ∀ l ∈ nd.inputs, l ∈ nd.labelInputs ∨ isStreamRef l) :
    (consumedLabels nodes).count o = (nodes.flatMap Node.labelInputs).count o := by
  induction nodes with
  | nil => rfl
  | cons nd nodes ih =>
    have hrest := ih (fun x hx => h x (List.mem_cons_of_mem _ hx))
    have hnd := h nd (List.mem_cons_self _ _)
    unfold consumedLabels at hrest ⊢
    rw [List.flatMap_cons, List.flatMap_cons, List.count_append, List.count_append, hrest]
    congr 1
    by_cases hmem : o ∈ nd.inputs
    · have hlab : o ∈ nd.labelInputs := (hnd o hmem).resolve_right ho
      have : nd.labelInputs = nd.inputs := by
        unfold Node.labelInputs at hlab ⊢
        split
        · rename_i heq
          rw [heq] at hlab
          simp at hlab
        · rfl
      rw [this]
    · have hmem2 : o ∉ nd.labelInputs := by
        intro hc
        apply hmem
        unfold Node.labelInputs at hc
        split at hc
        · simp at hc
        · exact hc
      rw [List.count_eq_zero_of_not_mem hmem, List.count_eq_zero_of_not_mem hmem2]

/-- C15: for every timeline with at least one clip the graph of `buildFilterComplex` is
a chain: a label that a node consumes is an input-stream reference `<j>:v` or the output
label of a strictly earlier node, and every output label other than `outv` is consumed
by no node up to its own and exactly once by the later nodes. -/
theorem buildFilterComplex_chain (videos : List Video) (images : List Image)
    (texts : List Text) (canvasWidth canvasHeight : ℚ) (_h : 1 ≤ videos.length) :
    ∀ (pre post : List Node) (nd : Node),
      buildFilterComplex videos images texts canvasWidth canvasHeight = pre ++ nd :: post →
      (∀ l ∈ nd.inputs, isStreamRef l ∨ l ∈ outputLabels pre) ∧
      (nd.output ≠ "outv" →
        nd.output ∉ consumedLabels (pre ++ [nd]) ∧
        (consumedLabels post).count nd.output = 1) := by
  intro pre post nd hsplit
  obtain ⟨hres, hflat, hrefs⟩ :=
    buildFilterComplex_chainInv videos images texts canvasWidth canvasHeight
  obtain ⟨plan, hnd, hlast, hl⟩ := build_labels videos images texts canvasWidth canvasHeight
  rw [hsplit] at hres hflat hrefs hl
  have hA : ∀ l ∈ nd.inputs, isStreamRef l ∨ l ∈ outputLabels pre := by
    intro l hl'
    simpa using inputsResolved_split [] pre post nd hres l hl'
  refine ⟨hA, fun hne => ?_⟩
  have houts : outputLabels (pre ++ nd :: post) =
      outputLabels pre ++ nd.output :: outputLabels post := by
    simp [outputLabels]
  have hnodup : (outputLabels (pre ++ nd :: post)).Nodup := by
    rw [hl]
    exact hnd.map Label.str_injective
  have hnotref : ¬ isStreamRef nd.output := by
    have hmem : nd.output ∈ plan.map Label.str := by
      rw [← hl, houts]
      simp
    obtain ⟨lab, _, hlab⟩ := List.mem_map.1 hmem
    rw [← hlab]
    exact Label.str_ne_streamRef lab
  have hnotpre : nd.output ∉ outputLabels pre := by
    intro hc
    rw [houts, List.nodup_append] at hnodup
    exact hnodup.2.2 hc (List.mem_cons_self _ _)
  have hbefore : nd.output ∉ consumedLabels (pre ++ [nd]) := by
    intro hc
    unfold consumedLabels at hc
    obtain ⟨x, hx, hxin⟩ := List.mem_flatMap.1 hc
    rw [List.mem_append, List.mem_singleton] at hx
    rcases hx with hx | hx
    · obtain ⟨p1, p2, hp⟩ := List.append_of_mem hx
      have hres2 : inputsResolved [] (p1 ++ x :: (p2 ++ nd :: post)) := by
        have : pre ++ nd :: post = p1 ++ x :: (p2 ++ nd :: post) := by
          rw [hp]; simp
        rw [← this]; exact hres
      rcases inputsResolved_split [] p1 _ x hres2 _ hxin with h1 | h1
      · exact hnotref h1
      · apply hnotpre
        rw [hp]
        simp only [List.nil_append] at h1
        simp [outputLabels] at h1 ⊢
        exact Or.inl h1
    · subst hx
      rcases hA _ hxin with h1 | h1
      · exact hnotref h1
      · exact hnotpre h1
  refine ⟨hbefore, ?_⟩
  have htotal : (consumedLabels (pre ++ nd :: post)).count nd.output = 1 := by
    rw [count_consumed_eq _ hnotref _ hrefs, hflat]
    have hlastout : (outputLabels (pre ++ nd :: post)).getLast? = some "outv" := by
      rw [hl, List.getLast?_map, hlast]
      rfl
    have hsplit2 := List.dropLast_append_getLast? "outv" hlastout
    have hmem : nd.output ∈ (outputLabels (pre ++ nd :: post)).dropLast := by
      have : nd.output ∈ outputLabels (pre ++ nd :: post) := by
        rw [houts]; simp
      rw [← hsplit2, List.mem_append, List.mem_singleton] at this
      exact this.resolve_right hne
    exact List.count_eq_one_of_mem (hnodup.sublist (List.dropLast_sublist _)) hmem
  have hcat : consumedLabels (pre ++ nd :: post) =
      consumedLabels (pre ++ [nd]) ++ consumedLabels post := by
    simp [consumedLabels]
  rw [hcat, List.count_append, List.count_eq_zero_of_not_mem hbefore] at htotal
  omega

/-- Witness for C15: the graph of a single clip; `base` is consumed by the copy node
only. -/
theorem buildFilterComplex_chain_witness :
    1 ≤ ([{}] : List Video).length ∧
    buildFilterComplex [{}] [] [] 640 360 =
      [] ++ baseNode 640 360 ::
        [ { inputs := ["base"], operation := .copy, output := "outv" } ] ∧
    (baseNode 640 360).output ≠ "outv" ∧
    (consumedLabels [ { inputs := ["base"], operation := .copy, output := "outv" } ]).count
      (baseNode 640 360).output = 1 :=
  ⟨by decide, rfl, by decide,
    ((buildFilterComplex_chain [{}] [] [] 640 360 (by decide) []
      [ { inputs := ["base"], operation := .copy, output := "outv" } ] (baseNode 640 360)
      rfl).2 (by decide)).2⟩

/-! ### The remote worker -/

theorem serverLoops_no_outv (videos : List Video) (images : List Image)
    (canvasWidth canvasHeight : ℚ) :
    ∀ nd ∈ serverFilters videos images [] canvasWidth canvasHeight, nd.output ≠ "outv" := by
  have hne : ∀ lab : Label, lab ≠ Label.outv → lab.str ≠ "outv" := by
    intro lab hlab hstr
    exact hlab (Label.str_injective (by rw [hstr]; rfl))
  have h0 : ∀ nd ∈ ({ filters := [ { inputs := ["0:v"]
                                     operation := .scale (truncate canvasWidth)
                                       (truncate canvasHeight) true
                                     output := "base" } ]
                      currentStream := "base"
                      videoInputIndex := 1 } : BuildState).filters, nd.output ≠ "outv" := by
    intro nd hnd
    simp only [List.mem_singleton] at hnd
    subst hnd
    exact hne Label.base (by simp)
  have h1 := foldl_invariant (fun st => ∀ nd ∈ st.filters, nd.output ≠ "outv") addVideo
    (fun st iv h nd hnd => by
      simp only [addVideo, List.mem_append, List.mem_cons, List.mem_singleton,
        List.not_mem_nil, or_false] at hnd
      rcases hnd with hnd | rfl | rfl
      · exact h nd hnd
      · exact hne (Label.scaledV iv.1) (by simp)
      · exact hne (Label.v iv.1) (by simp))
    (videos.enum.drop 1) _ h0
  have h2 := foldl_invariant (fun st => ∀ nd ∈ st.filters, nd.output ≠ "outv")
    addServerImage
    (fun st ii h nd hnd => by
      simp only [addServerImage, List.mem_append, List.mem_cons, List.mem_singleton,
        List.not_mem_nil, or_false] at hnd
      rcases hnd with hnd | rfl | rfl
      · exact h nd hnd
      · exact hne (Label.scaledImg ii.1) (by simp)
      · exact hne (Label.img ii.1) (by simp))
    images.enum _ h1
  exact h2

/-- C17 (the code at the failing input): for one video, no images and no texts the
worker builds the single node `base`; no node has output label `outv`, while the
command maps `[outv]`. The same holds for every list of videos and images when there
is no text. -/
theorem serverFilters_no_terminal (video : Video) (canvasWidth canvasHeight : ℚ)
    (num : ℚ → String) (videoPath outputPath : String) :
    serverFilters [video] [] [] canvasWidth canvasHeight =
      [ { inputs := ["0:v"]
          operation := .scale (truncate canvasWidth) (truncate canvasHeight) true
          output := "base" } ] ∧
    (serverFilters [video] [] [] canvasWidth canvasHeight).filter
      (fun nd => nd.output = "outv") = [] ∧
    buildFFmpegCommand num [videoPath] [] [video] [] [] canvasWidth canvasHeight outputPath =
      [ "-y", "-i", videoPath, "-filter_complex",
        Node.render num { inputs := ["0:v"]
                          operation := .scale (truncate canvasWidth)
                            (truncate canvasHeight) true
                          output := "base" },
        "-map", "[outv]", "-map", "0:a?", "-c:v", "libx264", "-preset", "medium",
        "-crf", "23", "-c:a", "aac", "-b:a", "128k", "-movflags", "+faststart",
        outputPath ] ∧
    (∀ (videos : List Video) (images : List Image),
      (serverFilters videos images [] canvasWidth canvasHeight).filter
        (fun nd => nd.output = "outv") = []) := by
  have h : serverFilters [video] [] [] canvasWidth canvasHeight =
      [ { inputs := ["0:v"]
          operation := .scale (truncate canvasWidth) (truncate canvasHeight) true
          output := "base" } ] := rfl
  refine ⟨h, ?_, ?_, ?_⟩
  · rw [h]
    simp
  · unfold buildFFmpegCommand
    rw [h]
    simp [String.intercalate, String.intercalate.go]
  · intro videos images
    rw [List.filter_eq_nil_iff]
    intro nd hnd
    simpa using serverLoops_no_outv videos images canvasWidth canvasHeight nd hnd

/-! ### The metadata block -/

theorem truncate_half : truncate (201 / 2) = 100 := by
  unfold truncate
  rw [if_pos (by norm_num), Int.floor_eq_iff]
  constructor <;> norm_num

/-- C18 (as stated, refuted): a video entry whose `x` is 100.5 keeps `x = 100.5` in the
metadata block, and a text entry whose `width` is 100.5 keeps it, while integer parsing
gives 100. -/
theorem cloudForm_pixel_counterexample :
    ((cloudForm (fun _ => "") nanParsers { videos := [halfPixelEntry] }).videos.map
      (fun o => o "x")) = [.number (201 / 2)] ∧
    ((cloudForm (fun _ => "") nanParsers { texts := [halfPixelEntry] }).texts.map
      (fun o => o "width")) = [.number (201 / 2)] ∧
    parseIntValue nanParsers (halfPixelEntry "x") = .number 100 ∧
    parseIntValue nanParsers (halfPixelEntry "width") = .number 100 ∧
    JsValue.number (201 / 2) ≠ JsValue.number 100 := by
  refine ⟨by simp [cloudForm, normalizeVideo, JsObject.set, halfPixelEntry],
    by simp [cloudForm, normalizeText, JsObject.set, halfPixelEntry], ?_, ?_, ?_⟩
  · simp [parseIntValue, halfPixelEntry, truncate_half]
  · simp [parseIntValue, halfPixelEntry, truncate_half]
  · intro h
    injection h with h
    norm_num at h

/-- C18 (amended): in the metadata block every time field (`startTime`, `endTime`) of
every video, image and text entry, and `duration` of every video, is obtained by float
parsing; the fields `x`, `y`, `width`, `height` (and `opacity`) of every image entry and
`x`, `y`, `fontSize` (and `opacity`) of every text entry are obtained by integer parsing;
`canvas_width` and `canvas_height` are the decimal strings of the canvas dimensions. -/
theorem cloudForm_normalized (num : ℚ → String) (ps : Parsers) (job : RawJob) :
    (cloudForm num ps job).videos = job.videos.map (normalizeVideo ps) ∧
    (cloudForm num ps job).images = job.images.map (normalizeImage ps) ∧
    (cloudForm num ps job).texts = job.texts.map (normalizeText ps) ∧
    (∀ video : JsObject,
      normalizeVideo ps video "startTime" = parseFloatValue ps (video "startTime") ∧
      normalizeVideo ps video "endTime" = parseFloatValue ps (video "endTime") ∧
      normalizeVideo ps video "duration" = parseFloatValue ps (video "duration")) ∧
    (∀ image : JsObject,
      normalizeImage ps image "startTime" = parseFloatValue ps (image "startTime") ∧
      normalizeImage ps image "endTime" = parseFloatValue ps (image "endTime") ∧
      normalizeImage ps image "x" = parseIntValue ps (image "x") ∧
      normalizeImage ps image "y" = parseIntValue ps (image "y") ∧
      normalizeImage ps image "width" = parseIntValue ps (image "width") ∧
      normalizeImage ps image "height" = parseIntValue ps (image "height") ∧
      normalizeImage ps image "opacity" = parseIntValue ps (image "opacity")) ∧
    (∀ text : JsObject,
      normalizeText ps text "startTime" = parseFloatValue ps (text "startTime") ∧
      normalizeText ps text "endTime" = parseFloatValue ps (text "endTime") ∧
      normalizeText ps text "x" = parseIntValue ps (text "x") ∧
      normalizeText ps text "y" = parseIntValue ps (text "y") ∧
      normalizeText ps text "fontSize" = parseIntValue ps (text "fontSize") ∧
      normalizeText ps text "opacity" = parseIntValue ps (text "opacity")) ∧
    (cloudForm num ps job).canvas_width = num job.canvasWidth ∧
    (cloudForm num ps job).canvas_height = num job.canvasHeight := by
  refine ⟨rfl, rfl, rfl, ?_, ?_, ?_, rfl, rfl⟩
  · intro video
    simp [normalizeVideo, JsObject.set]
  · intro image
    simp [normalizeImage, JsObject.set]
  · intro text
    simp [normalizeText, JsObject.set]

/-! ### Empty clip list -/

/-- C19 (as stated, refuted): `exportVideo` with an empty clip list runs the client path
through the compile step and `exec`, and fails only when the output cannot be read;
`buildFilterComplex` emits a two-node graph for an empty clip list. -/
theorem exportVideo_empty_clips_counterexample :
    emptyJob.videos = [] ∧
    (exportVideo noOutputEnv {} emptyJob).effects =
      [Effect.setIsExporting true, Effect.setExportProgress 0,
        Effect.setExportMode Mode.client, Effect.setExportProgress 5,
        Effect.setExportProgress 10, Effect.setExportProgress 25,
        Effect.setExportProgress 40, Effect.setExportProgress 50,
        Effect.setExportProgress 90] ∧
    (exportVideo noOutputEnv {} emptyJob).result =
      .error "Client-side export failed: Video processing failed: output.mp4: no such file" ∧
    buildFilterComplex [] [] [] 640 360 =
      [ baseNode 640 360, { inputs := ["base"], operation := .copy, output := "outv" } ] :=
  ⟨rfl, rfl, rfl, rfl⟩

/-- C19 (amended): `exportVideo` does not validate the clip list. With `videos = []` it
measures the images and runs the client path when their total size is at most
`MAX_CLIENT_SIZE`, and the cloud path otherwise; `buildFilterComplex` emits for an empty
clip list a graph that starts with the base scale node of `[0:v]` and ends with a node
labelled `outv`. -/
theorem exportVideo_empty_clips_not_rejected (env : Env) (svc : Service) (job : Job)
    (h : job.videos = []) :
    ((checkFileSize (calculateTotalSize env.blobSize [] job.images)).canProcessLocally = true →
      exportVideo env svc job =
        { exportClientSide env.engine svc job with
          effects := [Effect.setIsExporting true, Effect.setExportProgress 0] ++
            (exportClientSide env.engine svc job).effects }) ∧
    ((checkFileSize (calculateTotalSize env.blobSize [] job.images)).canProcessLocally = false →
      exportVideo env svc job =
        { exportCloudSide env.cloud svc job with
          effects := [Effect.setIsExporting true, Effect.setExportProgress 0] ++
            (exportCloudSide env.cloud svc job).effects }) ∧
    (Effect.setExportMode Mode.client ∈ (exportVideo env svc job).effects ∨
      Effect.setExportMode Mode.cloud ∈ (exportVideo env svc job).effects) ∧
    buildFilterComplex [] job.images job.texts job.canvasWidth job.canvasHeight =
      baseNode job.canvasWidth job.canvasHeight ::
        (job.images.enum.flatMap (fun ii => imagePair 0 ii.1 ii.2)
          ++ job.texts.enum.map
            (fun it => textNode 0 job.images.length job.texts.length it.1 it.2))
        ++ closingNodes 0 job.images.length job.texts.length ∧
    ((buildFilterComplex [] job.images job.texts job.canvasWidth job.canvasHeight).getLast?.map
      Node.output) = some "outv" := by
  have hclient : (checkFileSize (calculateTotalSize env.blobSize [] job.images)).canProcessLocally
      = true →
      exportVideo env svc job =
        { exportClientSide env.engine svc job with
          effects := [Effect.setIsExporting true, Effect.setExportProgress 0] ++
            (exportClientSide env.engine svc job).effects } := by
    intro hc
    simp [exportVideo, h, hc]
  have hcloud : (checkFileSize (calculateTotalSize env.blobSize [] job.images)).canProcessLocally
      = false →
      exportVideo env svc job =
        { exportCloudSide env.cloud svc job with
          effects := [Effect.setIsExporting true, Effect.setExportProgress 0] ++
            (exportCloudSide env.cloud svc job).effects } := by
    intro hc
    simp [exportVideo, h, hc]
  refine ⟨hclient, hcloud, ?_, ?_, ?_⟩
  · cases hc : (checkFileSize (calculateTotalSize env.blobSize [] job.images)).canProcessLocally
    · right
      rw [hcloud hc]
      simp [mode_mem_cloud]
    · left
      rw [hclient hc]
      simp [mode_mem_client]
  · rw [buildFilterComplex_eq]
    simp
  · obtain ⟨plan, _, hlast, hl⟩ := build_labels [] job.images job.texts job.canvasWidth
      job.canvasHeight
    unfold outputLabels at hl
    rw [← List.getLast?_map, hl, List.getLast?_map, hlast]
    rfl

/-- Witness for C19 (amended): the empty job, whose images measure 0 bytes. -/
theorem exportVideo_empty_clips_not_rejected_witness :
    emptyJob.videos = [] ∧
    (Effect.setExportMode Mode.client ∈ (exportVideo noOutputEnv {} emptyJob).effects ∨
      Effect.setExportMode Mode.cloud ∈ (exportVideo noOutputEnv {} emptyJob).effects) :=
  ⟨rfl, (exportVideo_empty_clips_not_rejected noOutputEnv {} emptyJob rfl).2.2.1⟩

/-! ### Engine load -/

/-- C20: a failed load throws `Failed to load FFmpeg: <message>` and leaves
`isLoaded = false` and `isLoading = false`; the next call to `load` makes a fresh
attempt, which ends with `isLoaded = true` when it succeeds and throws its own message
when it fails. -/
theorem load_failure_not_cached (script : EngineScript) (hasCallback : Bool) (svc : Service)
    (message : String) (hl : svc.isLoaded = false) (hg : svc.isLoading = false)
    (he : script.loadError = some message) :
    (load script hasCallback svc).2 = .error ("Failed to load FFmpeg: " ++ message) ∧
    (load script hasCallback svc).1.isLoaded = false ∧
    (load script hasCallback svc).1.isLoading = false ∧
    (∀ (next : EngineScript) (callback : Bool), next.loadError = none →
      (load next callback (load script hasCallback svc).1).2 = .ok () ∧
      (load next callback (load script hasCallback svc).1).1.isLoaded = true ∧
      (load next callback (load script hasCallback svc).1).1.isLoading = false) ∧
    (∀ (next : EngineScript) (callback : Bool) (again : String),
      next.loadError = some again →
      (load next callback (load script hasCallback svc).1).2 =
        .error ("Failed to load FFmpeg: " ++ again)) := by
  have hfirst : load script hasCallback svc =
      ({ hasEngine := true, isLoaded := false, isLoading := false, forwards := hasCallback,
         files := [] }, .error ("Failed to load FFmpeg: " ++ message)) := by
    simp [load, hl, hg, he]
  rw [hfirst]
  refine ⟨rfl, rfl, rfl, ?_, ?_⟩
  · intro next callback hn
    simp [load, hn]
  · intro next callback again hn
    simp [load, hn]

/-- Witness for C20: a fresh service whose first load is rejected with `network`. -/
theorem load_failure_not_cached_witness :
    ({} : Service).isLoaded = false ∧ ({} : Service).isLoading = false ∧
    ({ loadError := some "network" } : EngineScript).loadError = some "network" ∧
    (load { loadError := some "network" } true {}).2 =
      .error ("Failed to load FFmpeg: " ++ "network") :=
  ⟨rfl, rfl, rfl,
    (load_failure_not_cached { loadError := some "network" } true {} "network" rfl rfl rfl).1⟩

/-! ### Text style, terminal rule, windows -/

theorem replaceFirst_hash (hex : String) : replaceFirst '#' "" ("#" ++ hex) = hex := by
  apply String.ext
  simp [replaceFirst, replaceFirstChars, String.data_append]

/-- C26: the drawtext node of every text overlay uses `fontsize` = the overlay's
`fontSize` when it is positive and 24 when it is absent, and `fontcolor=0x` followed by
the overlay's colour without its leading `#`, or `0xFFFFFF` when the colour is absent. -/
theorem buildFilterComplex_text_style (videos : List Video) (images : List Image)
    (before after : List Text) (text : Text) (canvasWidth canvasHeight : ℚ)
    (num : ℚ → String) :
    (∃ pre post nd escapedText x y,
      buildFilterComplex videos images (before ++ text :: after) canvasWidth canvasHeight =
        pre ++ nd :: post ∧
      pre.length = 1 + 2 * (videos.length - 1) + 2 * images.length + before.length ∧
      nd.operation = .drawtext escapedText (orNumber text.fontSize 24)
        (replaceFirst '#' "" (orString text.color "#FFFFFF")) x y text.startTime
        text.endTime ∧
      Operation.render num nd.operation =
        "drawtext=text='" ++ escapedText ++ "':fontsize=" ++ num (orNumber text.fontSize 24)
          ++ ":fontcolor=0x" ++ replaceFirst '#' "" (orString text.color "#FFFFFF")
          ++ ":x=" ++ toString x ++ ":y=" ++ toString y
          ++ ":enable='between(t," ++ num text.startTime ++ "," ++ num text.endTime
          ++ ")'") ∧
    (∀ q, text.fontSize = some q → 0 < q → orNumber text.fontSize 24 = q) ∧
    (text.fontSize = none → orNumber text.fontSize 24 = 24) ∧
    (∀ hex, text.color = some ("#" ++ hex) →
      replaceFirst '#' "" (orString text.color "#FFFFFF") = hex) ∧
    (text.color = none → replaceFirst '#' "" (orString text.color "#FFFFFF") = "FFFFFF") := by
  refine ⟨?_, ?_, ?_, ?_, ?_⟩
  · refine ⟨baseNode canvasWidth canvasHeight ::
        ((videos.enum.drop 1).flatMap (fun iv => videoPair iv.1 iv.2)
          ++ images.enum.flatMap (fun ii => imagePair videos.length ii.1 ii.2)
          ++ before.enum.map (fun it =>
            textNode videos.length images.length (before ++ text :: after).length it.1 it.2)),
      (List.enumFrom (before.length + 1) after).map (fun it =>
            textNode videos.length images.length (before ++ text :: after).length it.1 it.2)
        ++ closingNodes videos.length images.length (before ++ text :: after).length,
      textNode videos.length images.length (before ++ text :: after).length before.length text,
      _, _, _, ?_, ?_, rfl, rfl⟩
    · rw [buildFilterComplex_eq, texts_enum_split]
      simp [List.append_assoc]
    · simp only [List.length_cons, List.length_append, List.length_map, List.enum_length]
      rw [length_flatMap_pairs (fun iv : Nat × Video => videoPair iv.1 iv.2) (fun _ => rfl),
        length_flatMap_pairs (fun ii : Nat × Image => imagePair videos.length ii.1 ii.2)
          (fun _ => rfl)]
      simp only [List.length_drop, List.enum_length]
      omega
  · intro q hq hpos
    simp [orNumber, hq, ne_of_gt hpos]
  · intro hq
    simp [orNumber, hq]
  · intro hex hc
    have hne : ("#" ++ hex) ≠ "" := by
      intro h
      have := congrArg String.data h
      simp [String.data_append] at this
    rw [hc]
    simp only [orString, hne, if_false]
    exact replaceFirst_hash hex
  · intro hc
    rw [hc]
    decide

/-- Witness for C26: a text of size 32 and colour `#FF0000`. -/
theorem buildFilterComplex_text_style_witness :
    ({ fontSize := some 32, color := some "#FF0000" } : Text).fontSize = some 32 ∧
    (0 : ℚ) < 32 ∧
    orNumber ({ fontSize := some 32, color := some "#FF0000" } : Text).fontSize 24 = 32 :=
  ⟨rfl, by norm_num,
    (buildFilterComplex_text_style [{}] [] [] []
      { fontSize := some 32, color := some "#FF0000" } 640 360 (fun _ => "")).2.1 32 rfl
      (by norm_num)⟩

theorem textLabel_last (n m k : Nat) (_hk : 1 ≤ k) :
    (textLabel n m k (k - 1) = "outv" ↔ m = 0 ∧ n = 1) ∧
    (¬ (m = 0 ∧ n = 1) → textLabel n m k (k - 1) = "txt" ++ toString (k - 1)) := by
  unfold textLabel
  by_cases h : m = 0 ∧ n = 1
  · simp [h]
  · have hne : ("txt" ++ toString (k - 1)) ≠ "outv" := by
      intro hc
      have := congrArg String.data hc
      simp [String.data_append] at this
    have hif : ¬ (k - 1 = k - 1 ∧ m = 0 ∧ n = 1) := fun hc => h hc.2
    rw [if_neg hif]
    exact ⟨⟨fun hc => absurd hc hne, fun hc => absurd hc h⟩, fun _ => rfl⟩

/-- C27: with `k ≥ 1` texts the last text node writes `outv` if and only if there are
no images and exactly one clip; otherwise it writes `txt<k-1>` and the copy node
`[txt<k-1>]copy[outv]` follows as the only further node; and for every timeline a copy
node is appended if and only if the label of the last node of the loops is not `outv`. -/
theorem buildFilterComplex_terminal_rule (videos : List Video) (images : List Image)
    (texts : List Text) (canvasWidth canvasHeight : ℚ) :
    (∀ (before : List Text) (last : Text), texts = before ++ [last] →
      (∃ pre nd,
        buildFilterComplex videos images texts canvasWidth canvasHeight =
          pre ++ nd :: closingNodes videos.length images.length texts.length ∧
        nd = textNode videos.length images.length texts.length (texts.length - 1) last ∧
        (nd.output = "outv" ↔ images.length = 0 ∧ videos.length = 1) ∧
        (images.length = 0 ∧ videos.length = 1 →
          closingNodes videos.length images.length texts.length = []) ∧
        (¬ (images.length = 0 ∧ videos.length = 1) →
          nd.output = "txt" ++ toString (texts.length - 1) ∧
          closingNodes videos.length images.length texts.length =
            [ { inputs := ["txt" ++ toString (texts.length - 1)], operation := .copy,
                output := "outv" } ]))) ∧
    (∃ body cur,
      (outputLabels body).getLast? = some cur ∧
      buildFilterComplex videos images texts canvasWidth canvasHeight =
        body ++ (if cur ≠ "outv" then
          [ { inputs := [cur], operation := .copy, output := "outv" } ] else [])) := by
  refine ⟨?_, ?_⟩
  · intro before last htexts
    have hk : 1 ≤ texts.length := by rw [htexts]; simp
    have hlen : before.length = texts.length - 1 := by rw [htexts]; simp
    obtain ⟨hiff, hne⟩ := textLabel_last videos.length images.length texts.length hk
    have hstream : streamAfterTexts videos.length images.length texts.length texts.length =
        textLabel videos.length images.length texts.length (texts.length - 1) := by
      unfold streamAfterTexts
      rw [if_neg (by omega)]
    refine ⟨baseNode canvasWidth canvasHeight ::
        ((videos.enum.drop 1).flatMap (fun iv => videoPair iv.1 iv.2)
          ++ images.enum.flatMap (fun ii => imagePair videos.length ii.1 ii.2)
          ++ before.enum.map (fun it =>
            textNode videos.length images.length texts.length it.1 it.2)),
      _, ?_, rfl, hiff, ?_, ?_⟩
    · rw [buildFilterComplex_eq]
      have hsplit := texts_enum_split videos.length images.length texts.length before []
        last
      rw [← htexts] at hsplit
      rw [hsplit, ← hlen]
      simp [List.append_assoc]
    · intro hc
      unfold closingNodes
      rw [hstream, hiff.2 hc]
      simp
    · intro hc
      refine ⟨hne hc, ?_⟩
      unfold closingNodes
      rw [hstream, hne hc]
      have hne2 : ("txt" ++ toString (texts.length - 1)) ≠ "outv" := by
        rw [← hne hc]
        exact fun h => hc (hiff.1 h)
      simp [hne2]
  · obtain ⟨_, ht⟩ := loops_labels videos images texts
      { filters := [ { inputs := ["0:v"]
                       operation := .scale canvasWidth canvasHeight true
                       output := "base" } ]
        currentStream := "base"
        videoInputIndex := 1 } rfl rfl
    refine ⟨_, _, ht, ?_⟩
    unfold buildFilterComplex
    dsimp only
    split <;> simp

/-- Witness for C27: one clip and one text, where the text node writes `outv`. -/
theorem buildFilterComplex_terminal_rule_witness :
    ([({} : Text)] : List Text) = [] ++ [({} : Text)] ∧
    ∃ pre nd,
      buildFilterComplex [{}] [] [({} : Text)] 640 360 =
        pre ++ nd :: closingNodes 1 0 1 ∧
      nd = textNode 1 0 1 (1 - 1) ({} : Text) ∧
      (nd.output = "outv" ↔
        ([] : List Image).length = 0 ∧ ([{}] : List Video).length = 1) ∧
      (([] : List Image).length = 0 ∧ ([{}] : List Video).length = 1 →
        closingNodes 1 0 1 = []) ∧
      (¬ (([] : List Image).length = 0 ∧ ([{}] : List Video).length = 1) →
        nd.output = "txt" ++ toString (1 - 1) ∧
        closingNodes 1 0 1 =
          [ { inputs := ["txt" ++ toString (1 - 1)], operation := .copy,
              output := "outv" } ]) :=
  ⟨rfl, (buildFilterComplex_terminal_rule [{}] [] [({} : Text)] 640 360).1 []
    ({} : Text) rfl⟩

theorem gate_windows_emitted (videos : List Video) (images : List Image) (texts : List Text)
    (canvasWidth canvasHeight : ℚ) :
    (∀ iv ∈ videos.enum.drop 1,
      ∃ nd ∈ buildFilterComplex videos images texts canvasWidth canvasHeight,
        nd.output = "v" ++ toString iv.1 ∧
        nd.operation.window = some (iv.2.startTime, iv.2.endTime)) ∧
    (∀ ii ∈ images.enum,
      ∃ nd ∈ buildFilterComplex videos images texts canvasWidth canvasHeight,
        nd.output = "img" ++ toString ii.1 ∧
        nd.operation.window = some (ii.2.startTime, ii.2.endTime)) ∧
    (∀ it ∈ texts.enum,
      ∃ nd ∈ buildFilterComplex videos images texts canvasWidth canvasHeight,
        nd.output = textLabel videos.length images.length texts.length it.1 ∧
        nd.operation.window = some (it.2.startTime, it.2.endTime)) := by
  refine ⟨?_, ?_, ?_⟩
  · intro iv hiv
    refine ⟨{ inputs := [streamAfterVideos iv.1, "scaled_v" ++ toString iv.1]
              operation := .overlay (iv.2.x - iv.2.width / 2) (iv.2.y - iv.2.height / 2)
                iv.2.startTime iv.2.endTime
              output := "v" ++ toString iv.1 }, ?_, rfl, rfl⟩
    rw [buildFilterComplex_eq]
    exact List.mem_append_left _ (List.mem_cons_of_mem _ (List.mem_append_left _
      (List.mem_append_left _ (List.mem_flatMap.2 ⟨iv, hiv, by simp [videoPair]⟩))))
  · intro ii hii
    refine ⟨{ inputs := [streamAfterImages videos.length ii.1, "scaled_img" ++ toString ii.1]
              operation := .overlay (ii.2.x - ii.2.width / 2) (ii.2.y - ii.2.height / 2)
                ii.2.startTime ii.2.endTime
              output := "img" ++ toString ii.1 }, ?_, rfl, rfl⟩
    rw [buildFilterComplex_eq]
    exact List.mem_append_left _ (List.mem_cons_of_mem _ (List.mem_append_left _
      (List.mem_append_right _ (List.mem_flatMap.2 ⟨ii, hii, by simp [imagePair]⟩))))
  · intro it hit
    refine ⟨textNode videos.length images.length texts.length it.1 it.2, ?_, rfl, rfl⟩
    rw [buildFilterComplex_eq]
    exact List.mem_append_left _ (List.mem_cons_of_mem _ (List.mem_append_right _
      (List.mem_map.2 ⟨it, hit, rfl⟩)))

/-- C25 (as stated, refuted): for an image overlay with `startTime = 5` and
`endTime = 2` the graph holds an overlay node gated by the window (5, 2). -/
theorem reversed_window_counterexample :
    reversedImage.endTime ≤ reversedImage.startTime ∧
    ∃ nd ∈ buildFilterComplex [{}] [reversedImage] [] 640 360,
      nd.output = "img" ++ toString 0 ∧ nd.operation.window = some (5, 2) :=
  ⟨by simp only [reversedImage]; norm_num,
    (gate_windows_emitted [{}] [reversedImage] [] 640 360).2.1 (0, reversedImage)
      (by simp [List.enum])⟩

/-- C25 (amended): `buildFilterComplex` neither rejects nor clamps: for every overlay
clip, image overlay and text overlay it emits the gate `between(t,startTime,endTime)`
with the values of the entity, whatever their order; a gate with `endTime < startTime`
is true at no render time, and a gate with `startTime = endTime` only at that time. -/
theorem windows_not_validated (videos : List Video) (images : List Image)
    (texts : List Text) (canvasWidth canvasHeight : ℚ) :
    (∀ iv ∈ videos.enum.drop 1,
      ∃ nd ∈ buildFilterComplex videos images texts canvasWidth canvasHeight,
        nd.output = "v" ++ toString iv.1 ∧
        nd.operation.window = some (iv.2.startTime, iv.2.endTime)) ∧
    (∀ ii ∈ images.enum,
      ∃ nd ∈ buildFilterComplex videos images texts canvasWidth canvasHeight,
        nd.output = "img" ++ toString ii.1 ∧
        nd.operation.window = some (ii.2.startTime, ii.2.endTime)) ∧
    (∀ it ∈ texts.enum,
      ∃ nd ∈ buildFilterComplex videos images texts canvasWidth canvasHeight,
        nd.output = textLabel videos.length images.length texts.length it.1 ∧
        nd.operation.window = some (it.2.startTime, it.2.endTime)) ∧
    (∀ nd ∈ buildFilterComplex videos images texts canvasWidth canvasHeight,
      ∀ s e, nd.operation.window = some (s, e) →
        (e < s → ∀ t, nd.operation.enabledAt t = false) ∧
        (s = e → ∀ t, (nd.operation.enabledAt t = true ↔ t = s))) := by
  obtain ⟨hv, hi, ht⟩ := gate_windows_emitted videos images texts canvasWidth canvasHeight
  refine ⟨hv, hi, ht, ?_⟩
  intro nd _ s e hw
  refine ⟨fun hlt t => ?_, fun heq t => ?_⟩
  · cases hen : nd.operation.enabledAt t
    · rfl
    · have := (enabledAt_iff _ s e t hw).1 hen
      exact absurd (le_trans this.1 this.2) (not_le.2 hlt)
  · rw [enabledAt_iff _ s e t hw, ← heq]
    exact ⟨fun h => le_antisymm h.2 h.1, fun h => by rw [h]; exact ⟨le_refl _, le_refl _⟩⟩

/-- Witness for C25 (amended): the reversed image overlay. -/
theorem windows_not_validated_witness :
    ((0, reversedImage) : Nat × Image) ∈ [reversedImage].enum ∧
    ∃ nd ∈ buildFilterComplex [{}] [reversedImage] [] 640 360,
      nd.output = "img" ++ toString 0 ∧
      nd.operation.window = some (reversedImage.startTime, reversedImage.endTime) :=
  ⟨by simp [List.enum],
    (windows_not_validated [{}] [reversedImage] [] 640 360).2.1 (0, reversedImage)
      (by simp [List.enum])⟩

/-! ### Failure messages and cleanup -/

theorem writeFiles_ok (script : EngineScript) (h : ∀ src, script.fetchError src = none)
    (l : List (String × String)) :
    ∀ files, ∃ files', writeFiles script l files = (files', .ok ()) := by
  induction l with
  | nil => intro files; exact ⟨files, rfl⟩
  | cons a l ih =>
    intro files
    obtain ⟨name, src⟩ := a
    simp only [writeFiles, h src]
    exact ih _

theorem processBody_exec_failure (script : EngineScript) (onProgress : Bool) (svc : Service)
    (videos : List Video) (images : List Image) (texts : List Text)
    (canvasWidth canvasHeight : ℚ) (e : String)
    (hfetch : ∀ src, script.fetchError src = none) (hexec : script.execError = some e) :
    (processBody script onProgress svc videos images texts canvasWidth canvasHeight).2.2 =
      .error e := by
  unfold processBody
  obtain ⟨f1, h1⟩ := writeFiles_ok script hfetch
    (videos.enum.map fun iv => (inputName iv.1, iv.2.src)) svc.files
  obtain ⟨f2, h2⟩ := writeFiles_ok script hfetch
    (images.enum.map fun ii => (imageName ii.1, ii.2.src)) f1
  simp only [h1, h2, hexec]

theorem processVideo_exec_failure (script : EngineScript) (onProgress : Bool) (svc : Service)
    (videos : List Video) (images : List Image) (texts : List Text)
    (canvasWidth canvasHeight : ℚ) (e : String)
    (hload : svc.isLoaded = true ∨ svc.isLoading = true ∨ script.loadError = none)
    (hfetch : ∀ src, script.fetchError src = none) (hexec : script.execError = some e) :
    (processVideo script onProgress svc videos images texts canvasWidth canvasHeight).result =
      .error ("Video processing failed: " ++ e) := by
  have hld : ∃ svc1, (if (!svc.isLoaded) = true then load script onProgress svc
      else (svc, Except.ok ())) = (svc1, .ok ()) := by
    cases hl : svc.isLoaded
    · cases hg : svc.isLoading
      · rcases hload with h | h | h
        · rw [hl] at h; cases h
        · rw [hg] at h; cases h
        · exact ⟨{ hasEngine := true, isLoaded := true, isLoading := false,
                   forwards := onProgress, files := [] }, by simp [load, hl, hg, h]⟩
      · exact ⟨{ script.afterWait with isLoading := false }, by simp [load, hl, hg]⟩
    · exact ⟨svc, by simp⟩
  obtain ⟨svc1, hsvc1⟩ := hld
  unfold processVideo
  simp only [hsvc1]
  have hb := processBody_exec_failure script onProgress svc1 videos images texts canvasWidth
    canvasHeight e hfetch hexec
  generalize processBody script onProgress svc1 videos images texts canvasWidth canvasHeight
    = body at hb ⊢
  obtain ⟨files, progress, r⟩ := body
  simp only at hb
  subst hb
  rfl

theorem firstFetchError_none (fetchError : String → Option String)
    (h : ∀ src, fetchError src = none) (srcs : List String) :
    firstFetchError fetchError srcs = none := by
  unfold firstFetchError
  induction srcs with
  | nil => rfl
  | cons a l ih => simp [List.findSome?, h a, ih]

/-- C23: when the engine fails with message `e`, the local export throws
`Client-side export failed: Video processing failed: ` + `e`; when the endpoint answers
with a non-success status, the cloud export throws `Cloud export failed: ` + `m`, where
`m` is the message of the body if present and non-empty and
`Cloud export failed with status ` + status otherwise; the other backend is not
tried. -/
theorem export_failure_messages (env : Env) (svc : Service) (job : Job) :
    (∀ e, (checkFileSize (calculateTotalSize env.blobSize job.videos
        job.images)).canProcessLocally = true →
      (svc.isLoaded = true ∨ svc.isLoading = true ∨ env.engine.loadError = none) →
      (∀ src, env.engine.fetchError src = none) → env.engine.execError = some e →
      (exportVideo env svc job).result =
        .error ("Client-side export failed: Video processing failed: " ++ e) ∧
      Effect.setExportMode Mode.cloud ∉ (exportVideo env svc job).effects) ∧
    ((checkFileSize (calculateTotalSize env.blobSize job.videos
        job.images)).canProcessLocally = false →
      (∀ src, env.cloud.fetchError src = none) → env.cloud.postError = none →
      env.cloud.responseOk = false →
      (exportVideo env svc job).result =
        .error ("Cloud export failed: " ++ orString env.cloud.responseMessage
          ("Cloud export failed with status " ++ toString env.cloud.responseStatus)) ∧
      Effect.setExportMode Mode.client ∉ (exportVideo env svc job).effects) ∧
    (∀ m, env.cloud.responseMessage = some m → m ≠ "" →
      orString env.cloud.responseMessage
        ("Cloud export failed with status " ++ toString env.cloud.responseStatus) = m) ∧
    (env.cloud.responseMessage = none ∨ env.cloud.responseMessage = some "" →
      orString env.cloud.responseMessage
        ("Cloud export failed with status " ++ toString env.cloud.responseStatus) =
        "Cloud export failed with status " ++ toString env.cloud.responseStatus) := by
  refine ⟨?_, ?_, ?_, ?_⟩
  · intro e hloc hload hfetch hexec
    have hrun : exportVideo env svc job =
        { exportClientSide env.engine svc job with
          effects := [Effect.setIsExporting true, Effect.setExportProgress 0] ++
            (exportClientSide env.engine svc job).effects } := by
      simp [exportVideo, hloc]
    have hp := processVideo_exec_failure env.engine true svc job.videos job.images job.texts
      job.canvasWidth job.canvasHeight e hload hfetch hexec
    refine ⟨?_, ?_⟩
    · rw [hrun]
      simp only [exportClientSide, hp]
      rw [← String.append_assoc]
      rfl
    · rw [hrun]
      simp [mode_mem_client]
  · intro hloc hfetch hpost hok
    have hrun : exportVideo env svc job =
        { exportCloudSide env.cloud svc job with
          effects := [Effect.setIsExporting true, Effect.setExportProgress 0] ++
            (exportCloudSide env.cloud svc job).effects } := by
      simp [exportVideo, hloc]
    refine ⟨?_, ?_⟩
    · rw [hrun]
      simp [exportCloudSide, cloudBody, firstFetchError_none _ hfetch, hpost, hok]
    · rw [hrun]
      simp [mode_mem_cloud]
  · intro m hm hne
    simp [orString, hm, hne]
  · rintro (h | h) <;> simp [orString, h]

/-- Witness for C23: an engine whose `exec` rejects with `exit code 1`. -/
theorem export_failure_messages_witness :
    (checkFileSize (calculateTotalSize
      ({ engine := { execError := some "exit code 1" } } : Env).blobSize sampleJob.videos
      sampleJob.images)).canProcessLocally = true ∧
    (exportVideo { engine := { execError := some "exit code 1" } } {} sampleJob).result =
      .error ("Client-side export failed: Video processing failed: " ++ "exit code 1") :=
  ⟨rfl, ((export_failure_messages { engine := { execError := some "exit code 1" } } {}
    sampleJob).1 "exit code 1" rfl (Or.inr (Or.inr rfl)) (fun _ => rfl) rfl).1⟩

theorem cleanupScripted_ok (cs : CleanupScript) (svc : Service) :
    (cleanupScripted cs svc).2 = .ok () := by
  unfold cleanupScripted
  split
  · rfl
  · split <;> rfl

theorem cleanupLoop_default (entries : List String) :
    ∀ files : List String,
      cleanupLoop {} entries files =
        .ok (entries.foldl
          (fun files name =>
            if name ≠ "" ∧ name ≠ "." ∧ name ≠ ".." then deleteFile files name else files)
          files) := by
  induction entries with
  | nil => intro files; rfl
  | cons a l ih =>
    intro files
    by_cases h : a ≠ "" ∧ a ≠ "." ∧ a ≠ ".."
    · rw [cleanupLoop, if_pos h, List.foldl_cons, if_pos h]
      simp only [deleteFileScripted]
      exact ih _
    · rw [cleanupLoop, if_neg h, List.foldl_cons, if_neg h]
      exact ih _

theorem cleanupLoop_spec (cs : CleanupScript) (entries : List String) :
    ∀ files : List String, ∃ files', cleanupLoop cs entries files = .ok files' ∧
      ∀ f, f ∈ files' ↔
        f ∈ files ∧
          ¬ (f ∈ entries ∧ (f ≠ "" ∧ f ≠ "." ∧ f ≠ "..") ∧ cs.deleteError f = none) := by
  induction entries with
  | nil => intro files; exact ⟨files, rfl, by simp⟩
  | cons a l ih =>
    intro files
    by_cases hdel : a ≠ "" ∧ a ≠ "." ∧ a ≠ ".."
    · cases herr : cs.deleteError a with
      | none =>
        obtain ⟨files', hrun, hmem⟩ := ih (deleteFile files a)
        refine ⟨files', ?_, ?_⟩
        · rw [cleanupLoop, if_pos hdel]
          simp only [deleteFileScripted, herr]
          exact hrun
        · intro f
          rw [hmem]
          simp only [deleteFile, List.mem_filter, List.mem_cons, decide_eq_true_eq]
          constructor
          · rintro ⟨⟨hf, hne⟩, hl⟩
            refine ⟨hf, ?_⟩
            rintro ⟨h1 | h1, h2, h3⟩
            · exact hne h1
            · exact hl ⟨h1, h2, h3⟩
          · rintro ⟨hf, hn⟩
            refine ⟨⟨hf, ?_⟩, fun h => hn ⟨Or.inr h.1, h.2⟩⟩
            intro hfa
            exact hn ⟨Or.inl hfa, hfa ▸ hdel, hfa ▸ herr⟩
      | some message =>
        obtain ⟨files', hrun, hmem⟩ := ih files
        refine ⟨files', ?_, ?_⟩
        · rw [cleanupLoop, if_pos hdel]
          simp only [deleteFileScripted, herr]
          exact hrun
        · intro f
          rw [hmem]
          simp only [List.mem_cons]
          constructor
          · rintro ⟨hf, hl⟩
            refine ⟨hf, ?_⟩
            rintro ⟨h1 | h1, h2, h3⟩
            · rw [h1, herr] at h3
              cases h3
            · exact hl ⟨h1, h2, h3⟩
          · rintro ⟨hf, hn⟩
            exact ⟨hf, fun h => hn ⟨Or.inr h.1, h.2⟩⟩
    · obtain ⟨files', hrun, hmem⟩ := ih files
      refine ⟨files', ?_, ?_⟩
      · rw [cleanupLoop, if_neg hdel]
        exact hrun
      · intro f
        rw [hmem]
        simp only [List.mem_cons]
        constructor
        · rintro ⟨hf, hl⟩
          refine ⟨hf, ?_⟩
          rintro ⟨h1 | h1, h2, h3⟩
          · exact hdel (h1 ▸ h2)
          · exact hl ⟨h1, h2, h3⟩
        · rintro ⟨hf, hn⟩
          exact ⟨hf, fun h => hn ⟨Or.inr h.1, h.2⟩⟩

theorem cleanupScripted_files (cs : CleanupScript) (svc : Service)
    (he : svc.hasEngine = true) :
    (cs.listError = none →
      ∀ f, f ∈ (cleanupScripted cs svc).1.files ↔
        f ∈ svc.files ∧ (f = "" ∨ f = "." ∨ f = ".." ∨ cs.deleteError f ≠ none)) ∧
    (∀ message, cs.listError = some message → (cleanupScripted cs svc).1 = svc) := by
  constructor
  · intro hlist f
    obtain ⟨files', hrun, hmem⟩ := cleanupLoop_spec cs (listDir svc.files) svc.files
    have hsvc : (cleanupScripted cs svc).1.files = files' := by
      simp [cleanupScripted, he, listDirScripted, hlist, Except.bind, hrun]
    rw [hsvc, hmem]
    constructor
    · rintro ⟨hf, hn⟩
      refine ⟨hf, ?_⟩
      by_contra hc
      simp only [not_or, not_not] at hc
      exact hn ⟨by simp [listDir, hf], ⟨hc.1, hc.2.1, hc.2.2.1⟩, hc.2.2.2⟩
    · rintro ⟨hf, hkeep⟩
      refine ⟨hf, ?_⟩
      rintro ⟨_, ⟨h1, h2, h3⟩, h4⟩
      rcases hkeep with h | h | h | h
      · exact h1 h
      · exact h2 h
      · exact h3 h
      · exact h h4
  · intro message hlist
    simp [cleanupScripted, he, listDirScripted, hlist, Except.bind]

theorem processVideoScripted_loaded_svc (cs : CleanupScript) (script : EngineScript)
    (onProgress : Bool) (svc : Service) (videos : List Video) (images : List Image)
    (texts : List Text) (canvasWidth canvasHeight : ℚ) (hl : svc.isLoaded = true) :
    (processVideoScripted cs script onProgress svc videos images texts canvasWidth
      canvasHeight).svc =
      (cleanupScripted cs { svc with files := (processBody script onProgress svc videos
        images texts canvasWidth canvasHeight).1 }).1 := by
  have hok : ∀ s : Service, ∃ s2, cleanupScripted cs s = (s2, .ok ()) := by
    intro s
    have h := cleanupScripted_ok cs s
    generalize cleanupScripted cs s = c at h
    obtain ⟨s2, r⟩ := c
    simp only at h
    subst h
    exact ⟨s2, rfl⟩
  have hld : (if (!svc.isLoaded) = true then load script onProgress svc
      else (svc, Except.ok ())) = (svc, .ok ()) := by
    simp [hl]
  unfold processVideoScripted
  dsimp only
  rw [hld]
  dsimp only
  generalize processBody script onProgress svc videos images texts canvasWidth
    canvasHeight = body
  obtain ⟨files, progress, r2⟩ := body
  obtain ⟨s2, hs2⟩ := hok { svc with files := files }
  cases r2 <;> simp [hs2]

/-- C10 (as stated, refuted): on a loaded engine whose `listDir` rejects, a successful
export leaves `input0.mp4` and `output.mp4` in the workspace; and on an engine whose
`deleteFile` rejects for `output.mp4`, a failed export leaves the partial `output.mp4`. -/
theorem cleanup_residue_counterexample :
    (processVideoScripted { listError := some "EIO" } {} true
      { hasEngine := true, isLoaded := true } sampleJob.videos [] [] 640 360).result
      = .ok () ∧
    (processVideoScripted { listError := some "EIO" } {} true
      { hasEngine := true, isLoaded := true } sampleJob.videos [] [] 640 360).svc.files
      = ["input0.mp4", "output.mp4"] ∧
    (processVideoScripted
      { deleteError := fun name => if name = "output.mp4" then some "EBUSY" else none }
      { execError := some "exit code 1" } true
      { hasEngine := true, isLoaded := true } sampleJob.videos [] [] 640 360).result
      = .error "Video processing failed: exit code 1" ∧
    (processVideoScripted
      { deleteError := fun name => if name = "output.mp4" then some "EBUSY" else none }
      { execError := some "exit code 1" } true
      { hasEngine := true, isLoaded := true } sampleJob.videos [] [] 640 360).svc.files
      = ["output.mp4"] := by
  refine ⟨rfl, ?_, rfl, ?_⟩ <;> decide

/-- C10 (amended): after `processVideo` on a loaded engine, whether it returns or throws,
`cleanup` has run on the workspace the `try` block left. When `listDir` resolves, a file
remains exactly when its name is empty, `.` or `..`, or its `deleteFile` rejected; so when
no `deleteFile` rejects either, the workspace holds no `input<i>.mp4`, no `image<i>.png`
and no `output.mp4`. When `listDir` rejects, the workspace is left as it was. -/
theorem processVideo_cleanup_residue (cs : CleanupScript) (script : EngineScript)
    (onProgress : Bool) (svc : Service) (videos : List Video) (images : List Image)
    (texts : List Text) (canvasWidth canvasHeight : ℚ) (hl : svc.isLoaded = true)
    (he : svc.hasEngine = true) :
    (cs.listError = none →
      ∀ f, f ∈ (processVideoScripted cs script onProgress svc videos images texts
          canvasWidth canvasHeight).svc.files ↔
        f ∈ (processBody script onProgress svc videos images texts canvasWidth
          canvasHeight).1 ∧ (f = "" ∨ f = "." ∨ f = ".." ∨ cs.deleteError f ≠ none)) ∧
    (cs.listError = none → (∀ name, cs.deleteError name = none) →
      (∀ f ∈ (processVideoScripted cs script onProgress svc videos images texts
          canvasWidth canvasHeight).svc.files, f = "" ∨ f = "." ∨ f = "..") ∧
      (∀ i, inputName i ∉ (processVideoScripted cs script onProgress svc videos images
          texts canvasWidth canvasHeight).svc.files) ∧
      (∀ i, imageName i ∉ (processVideoScripted cs script onProgress svc videos images
          texts canvasWidth canvasHeight).svc.files) ∧
      "output.mp4" ∉ (processVideoScripted cs script onProgress svc videos images texts
          canvasWidth canvasHeight).svc.files) ∧
    (∀ message, cs.listError = some message →
      (processVideoScripted cs script onProgress svc videos images texts canvasWidth
          canvasHeight).svc.files =
        (processBody script onProgress svc videos images texts canvasWidth
          canvasHeight).1) := by
  have hsvc := processVideoScripted_loaded_svc cs script onProgress svc videos images texts
    canvasWidth canvasHeight hl
  have hfiles := cleanupScripted_files cs { svc with files := (processBody script
    onProgress svc videos images texts canvasWidth canvasHeight).1 } he
  have hiff : cs.listError = none →
      ∀ f, f ∈ (processVideoScripted cs script onProgress svc videos images texts
          canvasWidth canvasHeight).svc.files ↔
        f ∈ (processBody script onProgress svc videos images texts canvasWidth
          canvasHeight).1 ∧ (f = "" ∨ f = "." ∨ f = ".." ∨ cs.deleteError f ≠ none) := by
    intro hlist f
    rw [hsvc]
    exact hfiles.1 hlist f
  refine ⟨hiff, ?_, ?_⟩
  · intro hlist hdel
    have hall : ∀ f ∈ (processVideoScripted cs script onProgress svc videos images texts
        canvasWidth canvasHeight).svc.files, f = "" ∨ f = "." ∨ f = ".." := by
      intro f hf
      rcases ((hiff hlist f).1 hf).2 with h | h | h | h
      · exact Or.inl h
      · exact Or.inr (Or.inl h)
      · exact Or.inr (Or.inr h)
      · exact absurd (hdel f) h
    refine ⟨hall, ?_, ?_, ?_⟩
    · intro i hmem
      have := hall _ hmem
      simp [inputName, String.ext_iff, String.data_append] at this
    · intro i hmem
      have := hall _ hmem
      simp [imageName, String.ext_iff, String.data_append] at this
    · intro hmem
      have := hall _ hmem
      simp [String.ext_iff] at this
  · intro message hlist
    rw [hsvc, hfiles.2 message hlist]

/-- Witness for C10 (amended): a loaded engine with a stale file, one clip, an `exec`
that fails after writing a partial output, and a cleanup in which nothing rejects. -/
theorem processVideo_cleanup_residue_witness :
    ({ hasEngine := true, isLoaded := true, files := ["stale.bin"] } : Service).isLoaded
      = true ∧
    ({ hasEngine := true, isLoaded := true, files := ["stale.bin"] } : Service).hasEngine
      = true ∧
    "output.mp4" ∉ (processVideoScripted {} { execError := some "exec failed" } true
      { hasEngine := true, isLoaded := true, files := ["stale.bin"] }
      sampleJob.videos [] [] 640 360).svc.files :=
  ⟨rfl, rfl, ((processVideo_cleanup_residue {} { execError := some "exec failed" } true
    { hasEngine := true, isLoaded := true, files := ["stale.bin"] }
    sampleJob.videos [] [] 640 360 rfl rfl).2.1 rfl (fun _ => rfl)).2.2.2⟩

/-- C22: `cleanup` never throws, whatever `listDir` and `deleteFile` do, so
`processVideo` returns the blob on success and throws the same
`Video processing failed: <message>` on failure, with the same progress values, whether
or not any workspace file could be listed or deleted. -/
theorem cleanup_keeps_outcome (cs : CleanupScript) (script : EngineScript)
    (onProgress : Bool) (svc : Service) (videos : List Video) (images : List Image)
    (texts : List Text) (canvasWidth canvasHeight : ℚ) :
    (∀ s : Service, (cleanupScripted cs s).2 = .ok ()) ∧
    (processVideoScripted cs script onProgress svc videos images texts canvasWidth
        canvasHeight).result =
      (processVideo script onProgress svc videos images texts canvasWidth
        canvasHeight).result ∧
    (processVideoScripted cs script onProgress svc videos images texts canvasWidth
        canvasHeight).progress =
      (processVideo script onProgress svc videos images texts canvasWidth
        canvasHeight).progress ∧
    (∀ message, (processBody script onProgress svc videos images texts canvasWidth
        canvasHeight).2.2 = .error message → svc.isLoaded = true →
      (processVideoScripted cs script onProgress svc videos images texts canvasWidth
        canvasHeight).result = .error ("Video processing failed: " ++ message)) ∧
    (processVideoScripted {} script onProgress svc videos images texts canvasWidth
        canvasHeight).svc =
      (processVideo script onProgress svc videos images texts canvasWidth
        canvasHeight).svc := by
  have hok : ∀ s : Service, ∃ s2, cleanupScripted cs s = (s2, .ok ()) := by
    intro s
    have h := cleanupScripted_ok cs s
    generalize cleanupScripted cs s = c at h
    obtain ⟨s2, r⟩ := c
    simp only at h
    subst h
    exact ⟨s2, rfl⟩
  have hres : ∀ sv : Service,
      (processVideoScripted cs script onProgress sv videos images texts canvasWidth
          canvasHeight).result =
        (processVideo script onProgress sv videos images texts canvasWidth
          canvasHeight).result ∧
      (processVideoScripted cs script onProgress sv videos images texts canvasWidth
          canvasHeight).progress =
        (processVideo script onProgress sv videos images texts canvasWidth
          canvasHeight).progress := by
    intro sv
    unfold processVideoScripted processVideo
    dsimp only
    generalize (if (!sv.isLoaded) = true then load script onProgress sv
      else (sv, Except.ok ())) = ld
    obtain ⟨svc1, r⟩ := ld
    cases r with
    | error message => exact ⟨rfl, rfl⟩
    | ok u =>
      dsimp only
      generalize processBody script onProgress svc1 videos images texts canvasWidth
        canvasHeight = body
      obtain ⟨files, progress, r2⟩ := body
      obtain ⟨s2, hs2⟩ := hok { svc1 with files := files }
      cases r2 with
      | error message => simp [hs2]
      | ok u2 => simp [hs2]
  refine ⟨cleanupScripted_ok cs, (hres svc).1, (hres svc).2, ?_, ?_⟩
  · intro message hbody hl
    rw [(hres svc).1]
    unfold processVideo
    simp only [hl, Bool.not_true, Bool.false_eq_true, if_false]
    generalize processBody script onProgress svc videos images texts canvasWidth
      canvasHeight = body at hbody ⊢
    obtain ⟨files, progress, r2⟩ := body
    simp only at hbody
    subst hbody
    rfl
  · have hclean : ∀ s : Service, cleanupScripted {} s = (cleanup s, .ok ()) := by
      intro s
      exact Prod.ext rfl (cleanupScripted_ok {} s)
    unfold processVideoScripted processVideo
    dsimp only
    generalize (if (!svc.isLoaded) = true then load script onProgress svc
      else (svc, Except.ok ())) = ld
    obtain ⟨svc1, r⟩ := ld
    cases r with
    | error message => rfl
    | ok u =>
      dsimp only
      generalize processBody script onProgress svc1 videos images texts canvasWidth
        canvasHeight = body
      obtain ⟨files, progress, r2⟩ := body
      cases r2 with
      | error message => simp only [hclean]
      | ok u2 => simp only [hclean]

/-- Witness for C22: a loaded engine whose `exec` fails and whose `listDir` rejects. -/
theorem cleanup_keeps_outcome_witness :
    (processBody { execError := some "exit code 1" } true
      { hasEngine := true, isLoaded := true } sampleJob.videos [] [] 640 360).2.2 =
      .error "exit code 1" ∧
    ({ hasEngine := true, isLoaded := true } : Service).isLoaded = true ∧
    (processVideoScripted { listError := some "EIO" } { execError := some "exit code 1" }
      true { hasEngine := true, isLoaded := true } sampleJob.videos [] [] 640 360).result =
      .error ("Video processing failed: " ++ "exit code 1") :=
  ⟨rfl, rfl,
    (cleanup_keeps_outcome { listError := some "EIO" } { execError := some "exit code 1" }
      true { hasEngine := true, isLoaded := true } sampleJob.videos [] [] 640
      360).2.2.2.1 "exit code 1" rfl rfl⟩

/-! ### The remote handler -/

/-- C24: the handler answers every request with exactly one response: 405 with an error
body and without parsing when the method is not `POST`; otherwise either 200 with the
bytes of the output file as `video/mp4`, or 500 with `error = 'Export failed'` and the
message of the failure. -/
theorem handler_single_response (num : ℚ → String) (script : HandlerScript)
    (method : String) :
    (handler num script method).responses.length = 1 ∧
    (method ≠ "POST" →
      (handler num script method).responses = [.json 405 "Method not allowed" none] ∧
      (handler num script method).actions = []) ∧
    (method = "POST" →
      ((handler num script method).responses = [.file 200 "video/mp4" script.output] ∧
        (handlerBody num script).2.2 = .ok (.file 200 "video/mp4" script.output)) ∨
      ∃ message, (handlerBody num script).2.2 = .error message ∧
        (handler num script method).responses =
          [.json 500 "Export failed" (some message)]) ∧
    (method = "POST" → (∃ form, script.parsed = .ok form) → script.commandError = none →
      script.execError = none → script.readError = none →
      (handler num script method).responses = [.file 200 "video/mp4" script.output]) := by
  have hbody : (∃ a t, handlerBody num script = (a, t, .ok (.file 200 "video/mp4"
      script.output))) ∨ ∃ a t message, handlerBody num script = (a, t, .error message) := by
    unfold handlerBody
    repeat' split
    all_goals first
      | exact Or.inl ⟨_, _, rfl⟩
      | exact Or.inr ⟨_, _, _, rfl⟩
  refine ⟨?_, ?_, ?_, ?_⟩
  · unfold handler
    split
    · rfl
    · split <;> rfl
  · intro hm
    simp [handler, hm]
  · intro hm
    rcases hbody with ⟨a, t, h⟩ | ⟨a, t, message, h⟩
    · left
      simp [handler, hm, h]
    · right
      exact ⟨message, by simp [h], by simp [handler, hm, h]⟩
  · rintro hm ⟨form, hf⟩ hc he hr
    simp [handler, hm, handlerBody, hf, hc, he, hr]

/-- Witness for C24: a `GET` request. -/
theorem handler_single_response_witness :
    "GET" ≠ "POST" ∧
    (handler (fun _ => "") {} "GET").responses = [.json 405 "Method not allowed" none] ∧
    (handler (fun _ => "") {} "GET").actions = [] :=
  ⟨by decide, (handler_single_response (fun _ => "") {} "GET").2.1 (by decide)⟩

/-! ### Interleaved calls of `load` -/

theorem consistent_init : ({} : LoadState).Consistent := by
  simp [LoadState.Consistent]

theorem consistent_step (st : LoadState) (e : LoadEvent) (h : st.Consistent) :
    (loadStep st e).Consistent := by
  obtain ⟨hr, hl⟩ := h
  cases e with
  | call cb =>
    unfold loadStep
    by_cases h1 : st.svc.isLoaded = true
    · simp only [h1, if_true]
      exact ⟨hr, hl⟩
    · by_cases h2 : st.svc.isLoading = true
      · simp only [h1, h2, if_true]
        exact ⟨hr, hl⟩
      · simp only [h1, h2]
        simp [LoadState.Consistent, h1, h2] at hr ⊢
        exact hr
  | resolve =>
    unfold loadStep
    by_cases h0 : st.running = 0
    · simp only [h0, if_true]
      exact ⟨by rw [← hr, h0], hl⟩
    · simp only [h0, if_false]
      by_cases h2 : st.svc.isLoading = true
      · simp [LoadState.Consistent, h2] at hr ⊢
        omega
      · simp [h2] at hr
        exact absurd hr h0
  | reject message =>
    unfold loadStep
    by_cases h0 : st.running = 0
    · simp only [h0, if_true]
      exact ⟨by rw [← hr, h0], hl⟩
    · simp only [h0, if_false]
      by_cases h2 : st.svc.isLoading = true
      · simp [LoadState.Consistent, h2] at hr ⊢
        omega
      · simp [h2] at hr
        exact absurd hr h0
  | poll =>
    unfold loadStep
    by_cases h0 : st.waiting = 0
    · simp only [h0, if_true]
      exact ⟨hr, hl⟩
    · by_cases h2 : st.svc.isLoading = true
      · simp only [h0, h2, if_true, if_false]
        exact ⟨hr, hl⟩
      · simp only [h0, h2, if_false]
        exact ⟨hr, hl⟩

theorem consistent_run (events : List LoadEvent) (st : LoadState) (h : st.Consistent) :
    (loadRun st events).Consistent := by
  induction events generalizing st with
  | nil => exact h
  | cons e rest ih => exact ih _ (consistent_step st e h)

theorem loaded_step (st : LoadState) (e : LoadEvent) (h : st.Consistent)
    (hl : st.svc.isLoaded = true) :
    (loadStep st e).svc = st.svc ∧ (loadStep st e).started = st.started ∧
    (loadStep st e).running = st.running := by
  have hnl : st.svc.isLoading = false := h.2 hl
  have hr : st.running = 0 := by
    have := h.1
    simpa [hnl] using this
  cases e with
  | call cb => simp [loadStep, hl]
  | resolve => simp [loadStep, hr]
  | reject message => simp [loadStep, hr]
  | poll =>
    unfold loadStep
    by_cases h0 : st.waiting = 0
    · simp [h0]
    · simp [h0, hnl]

theorem loaded_run (events : List LoadEvent) (st : LoadState) (h : st.Consistent)
    (hl : st.svc.isLoaded = true) :
    (loadRun st events).svc = st.svc ∧ (loadRun st events).started = st.started := by
  induction events generalizing st with
  | nil => exact ⟨rfl, rfl⟩
  | cons e rest ih =>
    obtain ⟨h1, h2, _⟩ := loaded_step st e h hl
    have := ih (loadStep st e) (consistent_step st e h) (by rw [h1]; exact hl)
    exact ⟨by rw [← h1]; exact this.1, by rw [← h2]; exact this.2⟩

/-- C21: a call of `load` on a service that is loaded or loading creates no engine and
changes no field (the sequential model `load` agrees on a loaded service); over every
sequence of interleaved calls from the fresh service at most one initialisation is
running, and it is running exactly when `isLoading` is set; and once the service is
loaded no later call starts an initialisation or changes a field. -/
theorem load_single_initialisation (events later : List LoadEvent) (hasCallback : Bool)
    (script : EngineScript) (st : LoadState) :
    (st.svc.isLoaded = true ∨ st.svc.isLoading = true →
      (loadStep st (.call hasCallback)).svc = st.svc ∧
      (loadStep st (.call hasCallback)).started = st.started ∧
      (loadStep st (.call hasCallback)).running = st.running) ∧
    (st.svc.isLoaded = true → load script hasCallback st.svc = (st.svc, .ok ())) ∧
    (loadRun {} events).running ≤ 1 ∧
    ((loadRun {} events).running = 1 ↔ (loadRun {} events).svc.isLoading = true) ∧
    ((loadRun {} events).svc.isLoaded = true →
      (loadRun {} (events ++ later)).started = (loadRun {} events).started ∧
      (loadRun {} (events ++ later)).svc = (loadRun {} events).svc ∧
      (loadRun {} (events ++ later)).running = 0) := by
  have hc := consistent_run events {} consistent_init
  refine ⟨?_, ?_, ?_, ?_, ?_⟩
  · intro h
    unfold loadStep
    by_cases h1 : st.svc.isLoaded = true
    · simp [h1]
    · have h2 : st.svc.isLoading = true := h.resolve_left h1
      simp [h1, h2]
  · intro h
    simp [load, h]
  · rw [hc.1]
    split <;> omega
  · rw [hc.1]
    by_cases h2 : (loadRun {} events).svc.isLoading = true <;> simp [h2]
  · intro hl
    have hrun : loadRun {} (events ++ later) = loadRun (loadRun {} events) later := by
      simp [loadRun, List.foldl_append]
    have hlate := loaded_run later _ hc hl
    have hc2 := consistent_run later _ hc
    rw [hrun]
    refine ⟨hlate.2, hlate.1, ?_⟩
    rw [hc2.1, hlate.1, hc.2 hl]
    rfl

/-- Witness for C21: two racing calls, a successful load, then a third call. -/
theorem load_single_initialisation_witness :
    (loadRun {} [.call true, .call false, .resolve]).svc.isLoaded = true ∧
    (loadRun {} ([.call true, .call false, .resolve] ++ [.poll, .call true])).started =
      (loadRun {} [.call true, .call false, .resolve]).started ∧
    (loadRun {} ([.call true, .call false, .resolve] ++ [.poll, .call true])).svc =
      (loadRun {} [.call true, .call false, .resolve]).svc ∧
    (loadRun {} ([.call true, .call false, .resolve] ++ [.poll, .call true])).running = 0 :=
  ⟨rfl, (load_single_initialisation [.call true, .call false, .resolve] [.poll, .call true]
    true {} {}).2.2.2.2 rfl⟩

/-- C30: a call of `load` arriving while a load is in flight enters the wait loop without
touching the service, stays there while `isLoading` is set, and returns normally at its
first test after the in-flight load settles: when that load failed, only the initiating
call throws, no engine is created, and the service stays not loaded; in the sequential
model the waiting call returns without error whatever the other load left. -/
theorem load_waiter_returns (st : LoadState) (hasCallback : Bool) (message : String)
    (script : EngineScript) (hc : st.Consistent) (hl : st.svc.isLoading = true) :
    (loadStep st (.call hasCallback)).svc = st.svc ∧
    (loadStep st (.call hasCallback)).waiting = st.waiting + 1 ∧
    loadStep (loadStep st (.call hasCallback)) .poll = loadStep st (.call hasCallback) ∧
    (loadRun st [.call hasCallback, .reject message, .poll]).returned = st.returned + 1 ∧
    (loadRun st [.call hasCallback, .reject message, .poll]).thrown =
      st.thrown ++ ["Failed to load FFmpeg: " ++ message] ∧
    (loadRun st [.call hasCallback, .reject message, .poll]).started = st.started ∧
    (loadRun st [.call hasCallback, .reject message, .poll]).running = 0 ∧
    (loadRun st [.call hasCallback, .reject message, .poll]).waiting = st.waiting ∧
    (loadRun st [.call hasCallback, .reject message, .poll]).svc =
      { st.svc with isLoading := false } ∧
    (loadRun st [.call hasCallback, .reject message, .poll]).svc.isLoaded = false ∧
    (loadRun st [.call hasCallback, .resolve, .poll]).returned = st.returned + 2 ∧
    (loadRun st [.call hasCallback, .resolve, .poll]).thrown = st.thrown ∧
    (loadRun st [.call hasCallback, .resolve, .poll]).started = st.started ∧
    (load script hasCallback st.svc).2 = .ok () ∧
    (load script hasCallback st.svc).1.isLoaded = script.afterWait.isLoaded ∧
    (load script hasCallback st.svc).1.hasEngine = script.afterWait.hasEngine := by
  have hnl : st.svc.isLoaded = false := by
    cases h : st.svc.isLoaded
    · rfl
    · have := hc.2 h
      rw [hl] at this
      cases this
  have hr : st.running = 1 := by
    have := hc.1
    simpa [hl] using this
  refine ⟨?_, ?_, ?_, ?_, ?_, ?_, ?_, ?_, ?_, ?_, ?_, ?_, ?_, ?_, ?_, ?_⟩ <;>
    simp [loadRun, loadStep, hnl, hl, hr, load]

/-- Witness for C30: the first caller's load is in flight when the second arrives. -/
theorem load_waiter_returns_witness :
    (loadRun {} [.call true]).Consistent ∧ (loadRun {} [.call true]).svc.isLoading = true ∧
    (loadRun (loadRun {} [.call true]) [.call false, .reject "network", .poll]).returned
      = (loadRun {} [.call true]).returned + 1 ∧
    (loadRun (loadRun {} [.call true]) [.call false, .reject "network", .poll]).thrown
      = (loadRun {} [.call true]).thrown ++ ["Failed to load FFmpeg: " ++ "network"] ∧
    (loadRun (loadRun {} [.call true]) [.call false, .reject "network", .poll]).started
      = (loadRun {} [.call true]).started :=
  have h := load_waiter_returns (loadRun {} [.call true]) false "network" {}
    (consistent_run [.call true] {} consistent_init) rfl
  ⟨consistent_run [.call true] {} consistent_init, rfl, h.2.2.2.1, h.2.2.2.2.1,
    h.2.2.2.2.2.1⟩

/-! ### The command of `processVideo` -/

theorem inputFiles_flatMap (files rest : List String) :
    inputFiles (files.flatMap (fun f => ["-i", f]) ++ rest) = files ++ inputFiles rest := by
  induction files with
  | nil => rfl
  | cons f files ih =>
    have hcons : (f :: files).flatMap (fun f => ["-i", f]) ++ rest =
        "-i" :: f :: (files.flatMap (fun f => ["-i", f]) ++ rest) := by simp
    rw [hcons, inputFiles, if_pos rfl, ih]
    rfl

theorem length_flatMap_flag (files : List String) :
    (files.flatMap (fun f => ["-i", f])).length = 2 * files.length := by
  induction files with
  | nil => rfl
  | cons f files ih =>
    rw [List.flatMap_cons, List.length_append, ih, List.length_cons]
    simp
    omega

theorem streamRef_inj (a b : Nat) (h : toString a ++ ":v" = toString b ++ ":v") : a = b := by
  have hd := congrArg String.data h
  rw [String.data_append, String.data_append] at hd
  exact (toString_nat_data_inj a b).1 (List.append_cancel_right hd)

theorem streamAfterVideos_label (i : Nat) : ∃ lab : Label, streamAfterVideos i = lab.str := by
  unfold streamAfterVideos
  split
  · exact ⟨.base, rfl⟩
  · exact ⟨.v (i - 1), rfl⟩

theorem streamAfterImages_label (n i : Nat) :
    ∃ lab : Label, streamAfterImages n i = lab.str := by
  unfold streamAfterImages
  split
  · exact streamAfterVideos_label n
  · exact ⟨.img (i - 1), rfl⟩

theorem streamAfterTexts_label (n m k i : Nat) :
    ∃ lab : Label, streamAfterTexts n m k i = lab.str := by
  unfold streamAfterTexts
  split
  · exact streamAfterImages_label n m
  · exact ⟨_, textLabel_eq_str n m k (i - 1)⟩

theorem label_not_streamRef (l : String) (j : Nat) (h : ∃ lab : Label, l = lab.str) :
    l ≠ toString j ++ ":v" := by
  obtain ⟨lab, hl⟩ := h
  intro hc
  exact Label.str_ne_streamRef lab ⟨j, by rw [← hl, hc]⟩

/-- C28: with `n ≥ 1` clips and `m` images the command of `processVideo` has the `n + m`
inputs `input<j>.mp4` (position `j < n`) and `image<i>.png` (position `n + i`); the graph
reads clip `i` as `[i:v]` and image `i` as `[(n+i):v]`, every node that reads an input
stream `j` is the scale node of the entity whose file is input `j`, so `j < n + m`; and
the arguments after the graph are the same for every timeline. -/
theorem processVideo_inputs_agree (num : ℚ → String) (videos : List Video)
    (images : List Image) (texts : List Text) (canvasWidth canvasHeight : ℚ)
    (hn : 1 ≤ videos.length) :
    inputFiles (execArgs num videos images texts canvasWidth canvasHeight) =
      (List.range videos.length).map inputName
        ++ (List.range images.length).map imageName ∧
    (inputFiles (execArgs num videos images texts canvasWidth canvasHeight)).length =
      videos.length + images.length ∧
    (∀ j, j < videos.length →
      (inputFiles (execArgs num videos images texts canvasWidth canvasHeight))[j]? =
        some (inputName j)) ∧
    (∀ i, i < images.length →
      (inputFiles (execArgs num videos images texts canvasWidth canvasHeight))[
        videos.length + i]? = some (imageName i)) ∧
    baseNode canvasWidth canvasHeight ∈
      buildFilterComplex videos images texts canvasWidth canvasHeight ∧
    (∀ i video, 1 ≤ i → videos[i]? = some video →
      clipScaleNode i video ∈
        buildFilterComplex videos images texts canvasWidth canvasHeight) ∧
    (∀ i img, images[i]? = some img →
      imageScaleNode (videos.length + i) i img ∈
        buildFilterComplex videos images texts canvasWidth canvasHeight) ∧
    (∀ nd ∈ buildFilterComplex videos images texts canvasWidth canvasHeight,
      ∀ j, toString j ++ ":v" ∈ nd.inputs →
        j < videos.length + images.length ∧
        ((j = 0 ∧ nd = baseNode canvasWidth canvasHeight) ∨
         (∃ video, 1 ≤ j ∧ videos[j]? = some video ∧ nd = clipScaleNode j video) ∨
         (∃ i img, j = videos.length + i ∧ images[i]? = some img ∧
            nd = imageScaleNode j i img))) ∧
    (∃ inputs, inputs.length = 2 * (videos.length + images.length) ∧
      execArgs num videos images texts canvasWidth canvasHeight =
        inputs ++ ["-filter_complex",
          filterComplexString num videos images texts canvasWidth canvasHeight]
          ++ encoderArgs) := by
  have h0 : inputName 0 = "input0.mp4" := by decide
  have hdropE : videos.enum.drop 1 = List.enumFrom 1 (videos.drop 1) := by
    cases videos <;> simp [List.enum]
  have hidx : 1 + (videos.length - 1) = videos.length := by omega
  have hrange : List.range videos.length = 0 :: (List.range videos.length).drop 1 := by
    obtain ⟨n, hlen⟩ : ∃ n, videos.length = n + 1 := ⟨videos.length - 1, by omega⟩
    rw [hlen, List.range_succ_eq_map]
    simp
  have hargs : execArgs num videos images texts canvasWidth canvasHeight =
      ((List.range videos.length).map inputName
        ++ (List.range images.length).map imageName).flatMap (fun f => ["-i", f])
      ++ (["-filter_complex",
          filterComplexString num videos images texts canvasWidth canvasHeight]
          ++ encoderArgs) := by
    unfold execArgs
    simp only []
    conv_rhs => rw [hrange]
    simp only [List.map_cons, List.flatMap_append, List.flatMap_cons, h0, List.flatMap_map,
      encoderArgs, List.cons_append, List.nil_append, List.append_assoc]
  have hfiles : inputFiles (execArgs num videos images texts canvasWidth canvasHeight) =
      (List.range videos.length).map inputName
        ++ (List.range images.length).map imageName := by
    rw [hargs, inputFiles_flatMap]
    simp [inputFiles, encoderArgs]
  refine ⟨hfiles, ?_, ?_, ?_, ?_, ?_, ?_, ?_, ?_⟩
  · rw [hfiles]
    simp
  · intro j hj
    rw [hfiles, List.getElem?_append_left (by simpa using hj), List.getElem?_map,
      List.getElem?_range hj]
    rfl
  · intro i hi
    rw [hfiles, List.getElem?_append_right (by simp), List.getElem?_map]
    simp [List.getElem?_range hi]
  · rw [buildFilterComplex_eq]
    simp
  · intro i video hi hv
    rw [buildFilterComplex_eq]
    have hmem : (i, video) ∈ videos.enum.drop 1 := by
      rw [hdropE, List.mk_mem_enumFrom_iff_le_and_getElem?_sub]
      refine ⟨hi, ?_⟩
      rw [List.getElem?_drop]
      have : 1 + (i - 1) = i := by omega
      rw [this]
      exact hv
    refine List.mem_append_left _ (List.mem_cons_of_mem _ ?_)
    refine List.mem_append_left _ (List.mem_append_left _ ?_)
    exact List.mem_flatMap.2 ⟨(i, video), hmem, by simp [videoPair, clipScaleNode]⟩
  · intro i img hv
    rw [buildFilterComplex_eq]
    have hmem : (i, img) ∈ images.enum := List.mk_mem_enum_iff_getElem?.2 hv
    refine List.mem_append_left _ (List.mem_cons_of_mem _ ?_)
    refine List.mem_append_left _ (List.mem_append_right _ ?_)
    refine List.mem_flatMap.2 ⟨(i, img), hmem, ?_⟩
    have : 1 + (videos.length - 1) + i = videos.length + i := by omega
    simp [imagePair, imageScaleNode, this]
  · intro nd hnd j hj
    rw [buildFilterComplex_eq] at hnd
    simp only [List.mem_append, List.mem_cons, List.mem_flatMap, List.mem_map] at hnd
    rcases hnd with (hbase | (⟨⟨i, video⟩, hmem, hpair⟩ | ⟨⟨i, img⟩, hmem, hpair⟩) |
      ⟨⟨i, text⟩, _, htext⟩) | hclose
    · subst hbase
      have hj0 : toString j ++ ":v" = toString 0 ++ ":v" := by
        simpa [baseNode] using hj
      have := streamRef_inj j 0 hj0
      subst this
      exact ⟨by omega, Or.inl ⟨rfl, rfl⟩⟩
    · rw [hdropE, List.mk_mem_enumFrom_iff_le_and_getElem?_sub, List.getElem?_drop] at hmem
      obtain ⟨hi, hv⟩ := hmem
      have hii : 1 + (i - 1) = i := by omega
      rw [hii] at hv
      have hlt : i < videos.length := by
        by_contra hge
        rw [List.getElem?_eq_none (by omega)] at hv
        cases hv
      simp only [videoPair, List.mem_cons, List.mem_singleton, List.not_mem_nil,
        or_false] at hpair
      rcases hpair with hsc | hov
      · subst hsc
        have hji : toString j ++ ":v" = toString i ++ ":v" := by simpa using hj
        have := streamRef_inj j i hji
        subst this
        exact ⟨by omega, Or.inr (Or.inl ⟨video, hi, hv, rfl⟩)⟩
      · subst hov
        simp only [List.mem_cons, List.mem_singleton, List.not_mem_nil, or_false] at hj
        rcases hj with hj | hj
        · exact absurd hj.symm (label_not_streamRef _ j (streamAfterVideos_label i))
        · exact absurd hj.symm (label_not_streamRef _ j ⟨.scaledV i, rfl⟩)
    · have hv := List.mk_mem_enum_iff_getElem?.1 hmem
      have hlt : i < images.length := by
        by_contra hge
        rw [List.getElem?_eq_none (by omega)] at hv
        cases hv
      simp only [imagePair, List.mem_cons, List.mem_singleton, List.not_mem_nil,
        or_false] at hpair
      rcases hpair with hsc | hov
      · subst hsc
        have hji : toString j ++ ":v" = toString (1 + (videos.length - 1) + i) ++ ":v" := by
          simpa using hj
        have hje := streamRef_inj j _ hji
        have hje2 : j = videos.length + i := by omega
        refine ⟨by omega, Or.inr (Or.inr ⟨i, img, hje2, hv, ?_⟩)⟩
        simp [imageScaleNode, hje]
      · subst hov
        simp only [List.mem_cons, List.mem_singleton, List.not_mem_nil, or_false] at hj
        rcases hj with hj | hj
        · exact absurd hj.symm
            (label_not_streamRef _ j (streamAfterImages_label videos.length i))
        · exact absurd hj.symm (label_not_streamRef _ j ⟨.scaledImg i, rfl⟩)
    · subst htext
      simp only [textNode, List.mem_singleton] at hj
      exact absurd hj.symm (label_not_streamRef _ j (streamAfterTexts_label _ _ _ _))
    · unfold closingNodes at hclose
      split at hclose
      · simp only [List.mem_singleton] at hclose
        subst hclose
        simp only [List.mem_singleton] at hj
        exact absurd hj.symm (label_not_streamRef _ j (streamAfterTexts_label _ _ _ _))
      · cases hclose
  · refine ⟨_, ?_, by rw [hargs, List.append_assoc]⟩
    rw [length_flatMap_flag]
    simp

/-- Witness for C28: the sample job's clips with one image. -/
theorem processVideo_inputs_agree_witness :
    1 ≤ sampleJob.videos.length ∧
    inputFiles (execArgs (fun _ => "") sampleJob.videos [scenarioImage] [] 640 360) =
      (List.range sampleJob.videos.length).map inputName
        ++ (List.range [scenarioImage].length).map imageName :=
  ⟨by decide,
    (processVideo_inputs_agree (fun _ => "") sampleJob.videos [scenarioImage] [] 640 360
      (by decide)).1⟩

/-! ### The graph of the remote worker against the graph of the client -/

theorem foldl_addServerImage_enumFrom (n : Nat) (is : List Image) :
    ∀ (j : Nat) (st : BuildState), st.currentStream = streamAfterImages n j →
      st.videoInputIndex = 1 + (n - 1) + j →
      (List.enumFrom j is).foldl addServerImage st =
        { filters := st.filters ++
            (List.enumFrom j is).flatMap (fun ii => imagePair n ii.1 ii.2)
          currentStream := streamAfterImages n (j + is.length)
          videoInputIndex := 1 + (n - 1) + (j + is.length) } := by
  induction is with
  | nil =>
    intro j st hc hv
    cases st
    simp_all
  | cons a is ih =>
    intro j st hc hv
    have hnext : streamAfterImages n (j + 1) = "img" ++ toString j := by
      unfold streamAfterImages
      rw [if_neg (by omega)]
      simp
    rw [List.enumFrom_cons, List.foldl_cons,
      ih (j + 1) (addServerImage st (j, a)) (by simp [addServerImage, hnext])
        (by simp only [addServerImage, hv]; omega)]
    simp [addServerImage, imagePair, hc, hv, Nat.add_assoc, Nat.add_comm 1]

theorem foldl_addServerText_enumFrom (n m k : Nat) (ts : List Text) :
    ∀ (j : Nat) (st : BuildState), st.currentStream = serverStreamAfterTexts n m k j →
      (List.enumFrom j ts).foldl (addServerText k) st =
        { filters := st.filters ++
            (List.enumFrom j ts).map (fun it => serverTextNode n m k it.1 it.2)
          currentStream := serverStreamAfterTexts n m k (j + ts.length)
          videoInputIndex := st.videoInputIndex } := by
  induction ts with
  | nil =>
    intro j st hc
    cases st
    simp_all
  | cons a ts ih =>
    intro j st hc
    have hnext : serverStreamAfterTexts n m k (j + 1) = serverTextLabel k j := by
      unfold serverStreamAfterTexts
      rw [if_neg (by omega)]
      simp
    rw [List.enumFrom_cons, List.foldl_cons,
      ih (j + 1) (addServerText k st (j, a)) (by simp [addServerText, hnext])]
    simp [addServerText, serverTextNode, hc, Nat.add_assoc, Nat.add_comm 1]

/-- The node list of `buildFFmpegCommand`, entry by entry. -/
theorem serverFilters_eq (videos : List Video) (images : List Image)
    (texts : List Text) (canvasWidth canvasHeight : ℚ) :
    serverFilters videos images texts canvasWidth canvasHeight =
      serverBaseNode canvasWidth canvasHeight ::
        ((videos.enum.drop 1).flatMap (fun iv => videoPair iv.1 iv.2)
          ++ images.enum.flatMap (fun ii => imagePair videos.length ii.1 ii.2)
          ++ texts.enum.map
            (fun it => serverTextNode videos.length images.length texts.length it.1 it.2)) := by
  have hdrop : videos.enum.drop 1 = List.enumFrom 1 (videos.drop 1) := by
    cases videos <;> simp [List.enum]
  have hlen : 1 + (videos.drop 1).length = 1 + (videos.length - 1) := by simp
  have hsv : streamAfterVideos (1 + (videos.length - 1)) = streamAfterVideos videos.length := by
    cases videos with
    | nil => simp [streamAfterVideos]
    | cons v vs =>
      have : 1 + ((v :: vs).length - 1) = (v :: vs).length := by simp [Nat.add_comm]
      rw [this]
  unfold serverFilters
  simp only [hdrop]
  rw [foldl_addVideo_enumFrom (videos.drop 1) 1 _ (le_refl 1) rfl rfl]
  simp only [List.enum]
  rw [foldl_addServerImage_enumFrom videos.length images 0 _
    (by simp [streamAfterImages, hlen, hsv]) (by simp)]
  rw [foldl_addServerText_enumFrom videos.length images.length texts.length texts 0 _
    (by simp [serverStreamAfterTexts])]
  simp [serverBaseNode]

theorem intercalate_go_snoc (s : String) (l : List String) :
    ∀ (acc a : String),
      String.intercalate.go acc s (l ++ [a]) = String.intercalate.go acc s l ++ s ++ a := by
  induction l with
  | nil => intro acc a; rfl
  | cons b l ih =>
    intro acc a
    show String.intercalate.go (acc ++ s ++ b) s (l ++ [a]) = _
    rw [ih]
    rfl

theorem intercalate_snoc (s : String) (l : List String) (a : String) (h : l ≠ []) :
    s.intercalate (l ++ [a]) = s.intercalate l ++ s ++ a := by
  cases l with
  | nil => exact absurd rfl h
  | cons b l => exact intercalate_go_snoc s l b a

theorem intercalate_suffix (s : String) (l : List String) (a : String) :
    ∃ p : String, s.intercalate (l ++ [a]) = p ++ a := by
  cases l with
  | nil => exact ⟨"", by simp [String.intercalate, String.intercalate.go]⟩
  | cons b l => exact ⟨_, intercalate_snoc s (b :: l) a (by simp)⟩

theorem truncate_intCast (w : ℤ) : truncate (w : ℚ) = w := by
  unfold truncate
  split <;> simp

theorem streamAfterImages_ne_outv (n m : Nat) : streamAfterImages n m ≠ "outv" := by
  obtain ⟨lab, hlab⟩ : ∃ lab : Label, lab ≠ .outv ∧ streamAfterImages n m = lab.str := by
    unfold streamAfterImages streamAfterVideos
    split
    · split
      · exact ⟨.base, by simp, rfl⟩
      · exact ⟨.v (n - 1), by simp, rfl⟩
    · exact ⟨.img (m - 1), by simp, rfl⟩
  intro hc
  exact hlab.1 (Label.str_injective (by rw [← hlab.2, hc]; rfl))

theorem copy_render_suffix (num : ℚ → String) (l : String) :
    ∃ p : String, Node.render num (copyNode l) = p ++ "y[outv]" := by
  have e1 : "copy" = "cop" ++ "y" := by decide
  have e2 : "y" ++ ("[" ++ ("outv" ++ "]")) = "y[outv]" := by decide
  refine ⟨String.join ([l].map fun l => "[" ++ l ++ "]") ++ "cop", ?_⟩
  simp only [Node.render, Operation.render, copyNode]
  rw [e1]
  simp only [String.append_assoc]
  rw [e2]

theorem serverText_render_suffix (num : ℚ → String) (n m k : Nat) (text : Text) :
    ∃ p : String, Node.render num (serverTextNode n m k (k - 1) text) = p ++ "'[outv]" := by
  have e1 : ")'" ++ ("[" ++ ("outv" ++ "]")) = ")" ++ "'[outv]" := by decide
  have hlabel : serverTextLabel k (k - 1) = "outv" := by simp [serverTextLabel]
  obtain ⟨d, hd⟩ : ∃ d : String,
      (serverTextNode n m k (k - 1) text).operation.render num = d ++ ")'" := ⟨_, rfl⟩
  refine ⟨String.join ((serverTextNode n m k (k - 1) text).inputs.map
    fun l => "[" ++ l ++ "]") ++ d ++ ")", ?_⟩
  unfold Node.render
  rw [hd]
  have hout : (serverTextNode n m k (k - 1) text).output = "outv" := hlabel
  rw [hout]
  simp only [String.append_assoc]
  rw [e1]

theorem suffix_clash (p q : String) : q ++ "'[outv]" ≠ p ++ "y[outv]" := by
  intro h
  have hd := congrArg String.data h
  rw [String.data_append, String.data_append] at hd
  have := List.append_inj_right' hd (by decide)
  exact absurd this (by decide)

theorem toDigitsCore_ne_nil (fuel : Nat) :
    ∀ (n : Nat) (ds : List Char), ds ≠ [] ∨ 0 < fuel → Nat.toDigitsCore 10 fuel n ds ≠ [] := by
  induction fuel with
  | zero =>
    intro n ds h
    rcases h with h | h
    · simpa [Nat.toDigitsCore] using h
    · omega
  | succ fuel ih =>
    intro n ds _
    rw [Nat.toDigitsCore]
    by_cases h0 : n / 10 = 0
    · simp [h0]
    · simp only [h0, if_false]
      exact ih _ _ (Or.inl (by simp))

theorem toString_nat_last (j : Nat) :
    ∃ (s : List Char) (d : Nat), d < 10 ∧ (toString j).data = s ++ [Nat.digitChar d] := by
  have hdata : (toString j).data = Nat.toDigits 10 j := by
    simp [toString, Nat.repr, List.asString]
  have hne : (toString j).data ≠ [] := by
    rw [hdata]
    exact toDigitsCore_ne_nil _ _ _ (Or.inr (by omega))
  obtain ⟨d, hd, hc⟩ := toString_nat_digit j _ (List.getLast_mem hne)
  exact ⟨(toString j).data.dropLast, d, hd, by
    rw [← hc, List.dropLast_append_getLast hne]⟩

theorem label_last_char (lab : Label) (hlab : lab ≠ .outv) :
    ∃ (s : List Char) (c : Char), c ≠ 'v' ∧ lab.str.data = s ++ [c] := by
  have hdigit : ∀ d, d < 10 → Nat.digitChar d ≠ 'v' := by
    intro d hd
    interval_cases d <;> simp [Nat.digitChar]
  have hnum : ∀ (pre : String) (i : Nat),
      ∃ (s : List Char) (c : Char), c ≠ 'v' ∧ (pre ++ toString i).data = s ++ [c] := by
    intro pre i
    obtain ⟨s, d, hd, hs⟩ := toString_nat_last i
    exact ⟨pre.data ++ s, _, hdigit d hd, by
      rw [String.data_append, hs, List.append_assoc]⟩
  cases lab with
  | base => exact ⟨['b', 'a', 's'], 'e', by decide, by decide⟩
  | scaledV i => exact hnum "scaled_v" i
  | v i => exact hnum "v" i
  | scaledImg i => exact hnum "scaled_img" i
  | img i => exact hnum "img" i
  | txt i => exact hnum "txt" i
  | outv => exact absurd rfl hlab

theorem render_label_suffix (num : ℚ → String) (nd : Node) (lab : Label)
    (hlab : lab ≠ .outv) (hout : nd.output = lab.str) :
    ∃ (x : List Char) (c : Char), c ≠ 'v' ∧ (Node.render num nd).data = x ++ [c, ']'] := by
  obtain ⟨s, c, hc, hs⟩ := label_last_char lab hlab
  have hb : ("]" : String).data = [']'] := by decide
  refine ⟨(String.join (nd.inputs.map fun l => "[" ++ l ++ "]") ++ nd.operation.render num
    ++ "[").data ++ s, c, hc, ?_⟩
  unfold Node.render
  rw [String.data_append, String.data_append, hout, hs, hb]
  simp

theorem copy_render_last (num : ℚ → String) (l : String) :
    ∃ x : List Char, (Node.render num (copyNode l)).data = x ++ ['v', ']'] := by
  obtain ⟨p, hp⟩ := copy_render_suffix num l
  have hb : ("y[outv]" : String).data = ['y', '[', 'o', 'u', 't'] ++ ['v', ']'] := by decide
  exact ⟨p.data ++ ['y', '[', 'o', 'u', 't'], by
    rw [hp, String.data_append, hb, List.append_assoc]⟩

theorem serverLoops_labels (videos : List Video) (images : List Image)
    (canvasWidth canvasHeight : ℚ) :
    ∀ nd ∈ serverBaseNode canvasWidth canvasHeight ::
        ((videos.enum.drop 1).flatMap (fun iv => videoPair iv.1 iv.2)
          ++ images.enum.flatMap (fun ii => imagePair videos.length ii.1 ii.2)),
      ∃ lab : Label, lab ≠ .outv ∧ nd.output = lab.str := by
  intro nd hnd
  simp only [List.mem_cons, List.mem_append, List.mem_flatMap] at hnd
  rcases hnd with hb | ⟨iv, _, hp⟩ | ⟨ii, _, hp⟩
  · subst hb
    exact ⟨.base, by simp, rfl⟩
  · simp only [videoPair, List.mem_cons, List.mem_singleton, List.not_mem_nil,
      or_false] at hp
    rcases hp with hp | hp
    · subst hp
      exact ⟨.scaledV iv.1, by simp, rfl⟩
    · subst hp
      exact ⟨.v iv.1, by simp, rfl⟩
  · simp only [imagePair, List.mem_cons, List.mem_singleton, List.not_mem_nil,
      or_false] at hp
    rcases hp with hp | hp
    · subst hp
      exact ⟨.scaledImg ii.1, by simp, rfl⟩
    · subst hp
      exact ⟨.img ii.1, by simp, rfl⟩

/-- The graph strings of the worker and of the client differ unless there is at least
one text, no image and exactly one clip, whatever the canvas. -/
theorem server_graph_eq_imp (num : ℚ → String) (videos : List Video)
    (images : List Image) (texts : List Text) (canvasWidth canvasHeight : ℚ)
    (heq : serverGraphString num videos images texts canvasWidth canvasHeight =
      filterComplexString num videos images texts canvasWidth canvasHeight) :
    1 ≤ texts.length ∧ images.length = 0 ∧ videos.length = 1 := by
  unfold serverGraphString filterComplexString at heq
  rw [serverFilters_eq, buildFilterComplex_eq] at heq
  rcases List.eq_nil_or_concat texts with hnil | ⟨before, last, hcat⟩
  · -- no text: the client ends with the copy node, the worker with a loop label
    exfalso
    subst hnil
    have hclose : closingNodes videos.length images.length 0 =
        [copyNode (streamAfterImages videos.length images.length)] := by
      simp [closingNodes, streamAfterTexts, streamAfterImages_ne_outv, copyNode]
    simp only [List.length_nil, hclose, List.enum_nil, List.map_nil, List.append_nil]
      at heq
    have hlabels := serverLoops_labels videos images canvasWidth canvasHeight
    generalize hS : serverBaseNode canvasWidth canvasHeight ::
        ((videos.enum.drop 1).flatMap (fun iv => videoPair iv.1 iv.2)
          ++ images.enum.flatMap (fun ii => imagePair videos.length ii.1 ii.2)) = S
      at heq hlabels
    have hSne : S ≠ [] := by
      rw [← hS]
      simp
    obtain ⟨lab, hlab, hout⟩ := hlabels _ (List.getLast_mem hSne)
    obtain ⟨x, c, hc, hx⟩ := render_label_suffix num _ lab hlab hout
    obtain ⟨y, hy⟩ := copy_render_last num (streamAfterImages videos.length images.length)
    rw [← List.dropLast_append_getLast hSne] at heq
    simp only [List.map_append, List.map_cons, List.map_nil] at heq
    obtain ⟨u, hu⟩ := intercalate_suffix ";" (S.dropLast.map (Node.render num))
      (Node.render num (S.getLast hSne))
    obtain ⟨v, hv⟩ := intercalate_suffix ";"
      (Node.render num (baseNode canvasWidth canvasHeight) ::
        (((videos.enum.drop 1).flatMap (fun iv => videoPair iv.1 iv.2)
          ++ images.enum.flatMap (fun ii => imagePair videos.length ii.1 ii.2)).map
            (Node.render num)))
      (Node.render num (copyNode (streamAfterImages videos.length images.length)))
    simp only [List.cons_append, List.map_append, List.append_assoc] at hv heq
    rw [hu, hv] at heq
    have hd := congrArg String.data heq
    rw [String.data_append, String.data_append, hx, hy, ← List.append_assoc,
      ← List.append_assoc] at hd
    have hlast := List.append_inj_right' hd rfl
    simp only [List.cons.injEq, and_true] at hlast
    exact hc hlast
  · -- at least one text
    have hk : texts.length - 1 = before.length := by simp [hcat]
    have hk1 : 1 ≤ texts.length := by simp [hcat]
    have hpos : texts.length ≠ 0 := by omega
    have hsplit : ∀ f : Nat × Text → Node,
        texts.enum.map f = before.enum.map f ++ [f (before.length, last)] := by
      intro f
      rw [hcat]
      simp [List.enum_append, List.enumFrom_cons]
    generalize texts.length = k at hk hk1 hpos heq ⊢
    by_cases hone : images.length = 0 ∧ videos.length = 1
    · exact ⟨hk1, hone.1, hone.2⟩
    · -- the client ends with the copy node, the worker with the last text node
      exfalso
      obtain ⟨q, hq⟩ := serverText_render_suffix num videos.length images.length k last
      rw [hk] at hq
      have hlast := (textLabel_last videos.length images.length k hk1).1
      have hne : streamAfterTexts videos.length images.length k k ≠ "outv" := by
        simp only [streamAfterTexts, if_neg hpos]
        exact fun hc => hone (hlast.1 hc)
      have hclose : closingNodes videos.length images.length k =
          [copyNode (streamAfterTexts videos.length images.length k k)] := by
        simp [closingNodes, hne, copyNode]
      obtain ⟨p, hp⟩ := copy_render_suffix num
        (streamAfterTexts videos.length images.length k k)
      rw [hclose, hsplit] at heq
      have hS : ∀ pre : List Node, ∃ x : String,
          ";".intercalate ((pre ++ [serverTextNode videos.length images.length
            k before.length last]).map (Node.render num)) = x ++ "'[outv]" := by
        intro pre
        rw [List.map_append, List.map_cons, List.map_nil]
        obtain ⟨x, hx⟩ := intercalate_suffix ";" (pre.map (Node.render num))
          (Node.render num (serverTextNode videos.length images.length
            k before.length last))
        exact ⟨x ++ q, by rw [hx, hq, String.append_assoc]⟩
      have hC : ∀ pre : List Node, ∃ x : String,
          ";".intercalate ((pre ++ [copyNode (streamAfterTexts videos.length
              images.length k k)]).map (Node.render num)) = x ++ "y[outv]" := by
        intro pre
        rw [List.map_append, List.map_cons, List.map_nil]
        obtain ⟨x, hx⟩ := intercalate_suffix ";" (pre.map (Node.render num))
          (Node.render num (copyNode (streamAfterTexts videos.length images.length k k)))
        exact ⟨x ++ p, by rw [hx, hp, String.append_assoc]⟩
      obtain ⟨x, hx⟩ := hS (serverBaseNode canvasWidth canvasHeight ::
        ((videos.enum.drop 1).flatMap (fun iv => videoPair iv.1 iv.2)
          ++ images.enum.flatMap (fun ii => imagePair videos.length ii.1 ii.2)
          ++ before.enum.map (fun it => serverTextNode videos.length images.length
              k it.1 it.2)))
      obtain ⟨y, hy⟩ := hC (baseNode canvasWidth canvasHeight ::
        ((videos.enum.drop 1).flatMap (fun iv => videoPair iv.1 iv.2)
          ++ images.enum.flatMap (fun ii => imagePair videos.length ii.1 ii.2)
          ++ texts.enum.map (fun it => textNode videos.length images.length
              k it.1 it.2)))
      simp only [List.cons_append, List.append_assoc] at hx hy heq
      rw [hx, hy] at heq
      exact suffix_clash y x heq

/-- With at least one text, no image and exactly one clip the worker and the client
build the same nodes after the first. -/
theorem server_client_common_tail (videos : List Video) (images : List Image)
    (texts : List Text) (canvasWidth canvasHeight : ℚ)
    (hk1 : 1 ≤ texts.length) (hm : images.length = 0) (hn : videos.length = 1) :
    ∃ tail : List Node,
      serverFilters videos images texts canvasWidth canvasHeight =
        serverBaseNode canvasWidth canvasHeight :: tail ∧
      buildFilterComplex videos images texts canvasWidth canvasHeight =
        baseNode canvasWidth canvasHeight :: tail := by
  rw [serverFilters_eq, buildFilterComplex_eq]
  have hpos : texts.length ≠ 0 := by omega
  generalize texts.length = k at hk1 hpos ⊢
  have hlabels : ∀ i, textLabel videos.length images.length k i = serverTextLabel k i := by
    intro i
    simp [textLabel, serverTextLabel, hm, hn]
  have hstreams : ∀ i, streamAfterTexts videos.length images.length k i =
      serverStreamAfterTexts videos.length images.length k i := by
    intro i
    simp only [streamAfterTexts, serverStreamAfterTexts, hlabels]
  have hnodes : ∀ i text, textNode videos.length images.length k i text =
      serverTextNode videos.length images.length k i text := by
    intro i text
    simp only [textNode, serverTextNode, hlabels, hstreams]
  have hclose : closingNodes videos.length images.length k = [] := by
    have hlast := (textLabel_last videos.length images.length k hk1).1.2 ⟨hm, hn⟩
    simp only [closingNodes, streamAfterTexts, if_neg hpos, hlast]
    simp
  refine ⟨_, rfl, ?_⟩
  simp only [hnodes, hclose, List.append_nil, List.cons_append]

/-- With integer canvas dimensions, at least one text, no image and exactly one clip the
worker and the client build the same node list. -/
theorem server_nodes_eq_client (videos : List Video) (images : List Image)
    (texts : List Text) (canvasWidth canvasHeight : ℚ)
    (hw : ∃ w : ℤ, canvasWidth = w) (hh : ∃ h : ℤ, canvasHeight = h)
    (hk1 : 1 ≤ texts.length) (hm : images.length = 0) (hn : videos.length = 1) :
    serverFilters videos images texts canvasWidth canvasHeight =
      buildFilterComplex videos images texts canvasWidth canvasHeight := by
  obtain ⟨w, hw⟩ := hw
  obtain ⟨h, hh⟩ := hh
  have hbase : serverBaseNode canvasWidth canvasHeight = baseNode canvasWidth canvasHeight := by
    simp [serverBaseNode, baseNode, hw, hh, truncate_intCast]
  obtain ⟨tail, hs, hc⟩ := server_client_common_tail videos images texts canvasWidth
    canvasHeight hk1 hm hn
  rw [hs, hc, hbase]

theorem intercalate_go_acc (s : String) (l : List String) :
    ∃ x : String, ∀ acc : String, String.intercalate.go acc s l = acc ++ x := by
  induction l with
  | nil => exact ⟨"", fun acc => by simp [String.intercalate.go]⟩
  | cons b l ih =>
    obtain ⟨x, hx⟩ := ih
    refine ⟨s ++ b ++ x, fun acc => ?_⟩
    show String.intercalate.go (acc ++ s ++ b) s l = _
    rw [hx]
    simp only [String.append_assoc]

theorem intercalate_cons_acc (s : String) (l : List String) :
    ∃ x : String, ∀ a : String, s.intercalate (a :: l) = a ++ x :=
  intercalate_go_acc s l

theorem string_append_cancel_left (a b c : String) (h : a ++ b = a ++ c) : b = c := by
  have hd := congrArg String.data h
  rw [String.data_append, String.data_append] at hd
  exact String.ext (List.append_cancel_left hd)

theorem string_append_cancel_right (a b c : String) (h : a ++ c = b ++ c) : a = b := by
  have hd := congrArg String.data h
  rw [String.data_append, String.data_append] at hd
  exact String.ext (List.append_cancel_right hd)

/-- The text of a first node: fixed strings around the two printed canvas values. -/
theorem base_render_shape (num : ℚ → String) (w h : ℚ) :
    Node.render num { inputs := ["0:v"], operation := .scale w h true, output := "base" } =
      String.join (["0:v"].map fun l => "[" ++ l ++ "]") ++ "scale=" ++
        (num w ++ (":" ++ (num h ++ (",setsar=1" ++ ("[" ++ ("base" ++ "]")))))) := by
  simp only [Node.render, Operation.render, if_true, String.append_assoc]

/-- When the printed canvas values of the worker differ from those of the client in one
dimension and agree in the other, the graph strings differ. -/
theorem server_graph_ne_of_canvas (num : ℚ → String) (videos : List Video)
    (images : List Image) (texts : List Text) (canvasWidth canvasHeight : ℚ)
    (hne : (num (truncate canvasWidth) ≠ num canvasWidth ∧
        num (truncate canvasHeight) = num canvasHeight) ∨
      (num (truncate canvasWidth) = num canvasWidth ∧
        num (truncate canvasHeight) ≠ num canvasHeight)) :
    serverGraphString num videos images texts canvasWidth canvasHeight ≠
      filterComplexString num videos images texts canvasWidth canvasHeight := by
  intro heq
  obtain ⟨hk1, hm, hn⟩ := server_graph_eq_imp num videos images texts canvasWidth
    canvasHeight heq
  obtain ⟨tail, hs, hc⟩ := server_client_common_tail videos images texts canvasWidth
    canvasHeight hk1 hm hn
  obtain ⟨x, hx⟩ := intercalate_cons_acc ";" (tail.map (Node.render num))
  unfold serverGraphString filterComplexString at heq
  rw [hs, hc, List.map_cons, List.map_cons, hx, hx] at heq
  have hrender := string_append_cancel_right _ _ x heq
  rw [serverBaseNode, baseNode, base_render_shape, base_render_shape] at hrender
  have h1 := string_append_cancel_left _ _ _ hrender
  rcases hne with ⟨hw, hh⟩ | ⟨hw, hh⟩
  · rw [hh] at h1
    exact hw (string_append_cancel_right _ _ _ h1)
  · rw [hw] at h1
    have h2 := string_append_cancel_left _ _ _ (string_append_cancel_left _ _ _ h1)
    exact hh (string_append_cancel_right _ _ _ h2)

theorem truncate_half_pixel : truncate (1281 / 2) = 640 := by
  unfold truncate
  rw [if_pos (by norm_num), Int.floor_eq_iff]
  constructor <;> norm_num

theorem printHalves_intCast (z : ℤ) : printHalves z = toString z := by
  simp [printHalves]

theorem printHalves_half_pixel : printHalves (1281 / 2) = "640.5" := by
  have hf : ⌊(1281 / 2 : ℚ)⌋ = 640 := by
    rw [Int.floor_eq_iff]
    constructor <;> norm_num
  unfold printHalves
  rw [hf, if_neg (by norm_num)]
  decide

/-- C29 (as stated, refuted): for one clip, no image and one text on a canvas of width
640.5 the worker reads the width with `parseInt` and builds `scale=640:360`, the client
builds `scale=640.5:360`, and the two graph strings differ. -/
theorem server_graph_fractional_canvas_counterexample :
    (1 ≤ [({} : Text)].length ∧ ([] : List Image).length = 0 ∧
      [({} : Video)].length = 1) ∧
    (serverFilters [{}] [] [({} : Text)] (1281 / 2) 360).head? = some (baseNode 640 360) ∧
    (buildFilterComplex [{}] [] [({} : Text)] (1281 / 2) 360).head? =
      some (baseNode (1281 / 2) 360) ∧
    Node.render printHalves (baseNode 640 360) = "[0:v]scale=640:360,setsar=1[base]" ∧
    Node.render printHalves (baseNode (1281 / 2) 360) =
      "[0:v]scale=640.5:360,setsar=1[base]" ∧
    serverGraphString printHalves [{}] [] [({} : Text)] (1281 / 2) 360 ≠
      filterComplexString printHalves [{}] [] [({} : Text)] (1281 / 2) 360 := by
  have h360 : truncate 360 = 360 := by
    simpa using truncate_intCast 360
  have hp640 : printHalves 640 = "640" := by
    have h := printHalves_intCast 640
    norm_num at h
    rw [h]
    decide
  have hp360 : printHalves 360 = "360" := by
    have h := printHalves_intCast 360
    norm_num at h
    rw [h]
    decide
  refine ⟨⟨by decide, rfl, rfl⟩, ?_, ?_, ?_, ?_, ?_⟩
  · rw [serverFilters_eq]
    simp [serverBaseNode, baseNode, truncate_half_pixel, h360]
  · rw [buildFilterComplex_eq]
    simp
  · rw [baseNode, base_render_shape, hp640, hp360]
    decide
  · rw [baseNode, base_render_shape, printHalves_half_pixel, hp360]
    decide
  · apply server_graph_ne_of_canvas
    left
    rw [truncate_half_pixel, h360]
    refine ⟨?_, by norm_num⟩
    have h640 : ((640 : ℤ) : ℚ) = 640 := by norm_num
    rw [h640, hp640, printHalves_half_pixel]
    decide

/-- C29 (amended): the graph string that `buildFFmpegCommand` passes after
`-filter_complex` and the string that `buildFilterComplex` returns for the same timeline
are equal only if there is at least one text, no image and exactly one clip; for integer
canvas dimensions they are equal if and only if that holds; and when the integer part of
one canvas dimension, which is what the worker reads, prints differently from the
dimension while the other dimension prints the same, they differ for every timeline. -/
theorem server_graph_eq_client_iff (num : ℚ → String) (videos : List Video)
    (images : List Image) (texts : List Text) (canvasWidth canvasHeight : ℚ) :
    (serverGraphString num videos images texts canvasWidth canvasHeight =
        filterComplexString num videos images texts canvasWidth canvasHeight →
      1 ≤ texts.length ∧ images.length = 0 ∧ videos.length = 1) ∧
    ((∃ w : ℤ, canvasWidth = w) → (∃ h : ℤ, canvasHeight = h) →
      (serverGraphString num videos images texts canvasWidth canvasHeight =
          filterComplexString num videos images texts canvasWidth canvasHeight ↔
        1 ≤ texts.length ∧ images.length = 0 ∧ videos.length = 1)) ∧
    (∀ (videoPaths imagePaths : List String) (outputPath : String),
      buildFFmpegCommand num videoPaths imagePaths videos images texts canvasWidth
          canvasHeight outputPath =
        ["-y"] ++ videoPaths.flatMap (fun path => ["-i", path])
          ++ imagePaths.flatMap (fun path => ["-i", path])
          ++ [ "-filter_complex",
               serverGraphString num videos images texts canvasWidth canvasHeight,
               "-map", "[outv]", "-map", "0:a?", "-c:v", "libx264", "-preset", "medium",
               "-crf", "23", "-c:a", "aac", "-b:a", "128k", "-movflags", "+faststart",
               outputPath ]) ∧
    ((num (truncate canvasWidth) ≠ num canvasWidth ∧
        num (truncate canvasHeight) = num canvasHeight) ∨
      (num (truncate canvasWidth) = num canvasWidth ∧
        num (truncate canvasHeight) ≠ num canvasHeight) →
      serverGraphString num videos images texts canvasWidth canvasHeight ≠
        filterComplexString num videos images texts canvasWidth canvasHeight) := by
  refine ⟨server_graph_eq_imp num videos images texts canvasWidth canvasHeight, ?_,
    fun _ _ _ => rfl,
    server_graph_ne_of_canvas num videos images texts canvasWidth canvasHeight⟩
  intro hw hh
  refine ⟨server_graph_eq_imp num videos images texts canvasWidth canvasHeight, ?_⟩
  rintro ⟨hk1, hm, hn⟩
  unfold serverGraphString filterComplexString
  rw [server_nodes_eq_client videos images texts canvasWidth canvasHeight hw hh hk1 hm hn]

/-- Witness for C29 (amended): one clip and one text on a 640 by 360 canvas. -/
theorem server_graph_eq_client_iff_witness :
    (∃ w : ℤ, (640 : ℚ) = w) ∧ (∃ h : ℤ, (360 : ℚ) = h) ∧
    (serverGraphString (fun _ => "") [{}] [] [({} : Text)] 640 360 =
        filterComplexString (fun _ => "") [{}] [] [({} : Text)] 640 360 ↔
      1 ≤ [({} : Text)].length ∧ ([] : List Image).length = 0 ∧
        [({} : Video)].length = 1) :=
  ⟨⟨640, by norm_num⟩, ⟨360, by norm_num⟩,
    (server_graph_eq_client_iff (fun _ => "") [{}] [] [({} : Text)] 640 360).2.1
      ⟨640, by norm_num⟩ ⟨360, by norm_num⟩⟩

end Vidcamp
